import Mathlib

/-!
# queryperf: the in-flight query engine

A shallow embedding of `queryperf.c` (DNS query performance testing tool).

* The C globals and the function-local statics (`stop` of `keep_sending`,
  `use_query_id` of `send_query`) are the fields of `State`.
* `unsigned int` values are `Nat` with an explicit `% 2 ^ 32` at every increment or
  decrement, `unsigned short` values are `Nat` with `% 65536`.
* The heap block behind `status` is a list; its length is `query_status_allocated`.
* What the outside world answers (clock readings, `realloc`, the resolver, `sendto`,
  received datagrams) is passed to each function as an argument.
* In the comparisons of `timelimit_reached` and `retire_old_queries` a `double` that
  holds seconds is an integer number of microseconds: for clock values below 2^33 seconds
  and microsecond fields below 10^6 the comparisons of the source have the same outcome.
* A read of `status[count]` outside the allocated block has no defined result: the
  function returns `none`.
* The percentages, the run time and the rate `print_statistics` computes are values of
  the IEEE 754 binary64 format, every operation rounded to nearest, ties to even; the
  digits `printf` prints are the exact value rounded the same way.
* The byte count `new_max * size_qs` that `set_max_queries` passes to `realloc` is an
  `unsigned int` product. A call whose block cannot hold `new_max` records has no defined
  result (`none`), and so has every function that makes such a call.
-/

namespace Queryperf

/-! ## Constants -/

def DEF_MAX_QUERIES_OUTSTANDING : Nat := 20
def DEF_QUERY_TIMEOUT : Nat := 5
def DEF_SERVER_TO_QUERY : List Char := ['l', 'o', 'c', 'a', 'l', 'h', 'o', 's', 't']
def DEF_SERVER_PORT : Nat := 53
def DEF_BUFFER_SIZE : Nat := 32
def COMMENT_CHAR : Char := ';'
def CONFIG_CHAR : Char := '#'
def MAX_PORT : Nat := 65535
def MAX_INPUT_LEN : Nat := 512
def MAX_DOMAIN_LEN : Nat := 255
def HARD_TIMEOUT_EXTRA : Nat := 5
def NEWLINE : Char := Char.ofNat 10
def TAB : Char := Char.ofNat 9
def NUL : Char := Char.ofNat 0
def WHITESPACE : List Char := [' ', TAB, NEWLINE]
def QUERY_STATUS_MAGIC : Nat := 0x51535441
def UINT_MAX : Nat := 2 ^ 32 - 1
/-- The largest `unsigned long` (LP64). -/
def ULONG_MAX : Nat := 2 ^ 64 - 1
def ERANGE : Int := 34

/-! ## Data -/

structure timeval where
  tv_sec : Int
  tv_usec : Int
deriving DecidableEq, Repr

structure query_status where
  magic : Nat
  in_use : Bool
  id : Nat
  sent_timestamp : timeval
deriving DecidableEq, Repr

/-- The globals of the program, the statics of `keep_sending` (`stop`) and `send_query`
(`use_query_id`), `errno`, and the data file (`datafile` is its content, `unread` the
part after the read position of `datafile_ptr`). -/
structure State where
  max_queries_outstanding : Nat
  query_timeout : Nat
  ignore_config_changes : Bool
  socket_bufsize : Nat
  use_stdin : Bool
  datafile_name : Option (List Char)
  server_to_query : Option (List Char)
  server_port : Nat
  run_only_once : Bool
  use_timelimit : Bool
  run_timelimit : Nat
  serverset : Bool
  portset : Bool
  queriesset : Bool
  timeoutset : Bool
  setup_phase : Bool
  datafile : List Char
  unread : List Char
  runs_through_file : Nat
  num_queries_sent : Nat
  num_queries_outstanding : Nat
  num_queries_timed_out : Nat
  time_of_program_start : timeval
  time_of_first_query : timeval
  time_of_end_of_run : timeval
  status : List query_status
  qaddr_sin_addr : Nat
  qaddr_sin_port : Nat
  stop : Bool
  use_query_id : Nat
  errno : Int

/-- The number of records in the block `status` points to. -/
def State.query_status_allocated (s : State) : Nat := s.status.length

/-- The values the C initialisers give the globals and statics. -/
def initial : State :=
  { max_queries_outstanding := 0
    query_timeout := DEF_QUERY_TIMEOUT
    ignore_config_changes := false
    socket_bufsize := DEF_BUFFER_SIZE
    use_stdin := true
    datafile_name := none
    server_to_query := none
    server_port := DEF_SERVER_PORT
    run_only_once := false
    use_timelimit := false
    run_timelimit := 0
    serverset := false
    portset := false
    queriesset := false
    timeoutset := false
    setup_phase := true
    datafile := []
    unread := []
    runs_through_file := 0
    num_queries_sent := 0
    num_queries_outstanding := 0
    num_queries_timed_out := 0
    time_of_program_start := ⟨0, 0⟩
    time_of_first_query := ⟨0, 0⟩
    time_of_end_of_run := ⟨0, 0⟩
    status := []
    qaddr_sin_addr := 0
    qaddr_sin_port := 0
    stop := false
    use_query_id := 0
    errno := 0 }

/-- What the C library and the operating system answer during one call: whether
`realloc` and `malloc` succeed, what the memory they hand out contains, what the
resolver returns for a host name, what `fopen` finds under a file name, the content of
standard input, and whether the socket can be opened. The input is taken to be a
regular file, which `rewind` can reposition. -/
structure Sys where
  realloc_ok : Bool
  heap : Nat → query_status
  malloc_ok : Bool
  heap_name : List Char
  gethostbyname : List Char → Option Nat
  fopen : List Char → Option (List Char)
  stdin : List Char
  socket_ok : Bool

/-! ## get_uint16 -/

/-- The function `get_uint16`: an unsigned short from the first two bytes of a buffer. -/
def get_uint16 (buf : List Nat) : Nat :=
  (buf.getD 0 0 * 256 + buf.getD 1 0) % 65536

/-! ## Setting options -/

/-- The function `set_datafile`. -/
def set_datafile (sys : Sys) (new_file : List Char) (s : State) : Int × State :=
  if new_file = [] then (-1, s)
  else if sys.malloc_ok = false then (-1, s)
  else (0, { s with datafile_name := some new_file, use_stdin := false })

/-- The function `set_input_stdin`. -/
def set_input_stdin (s : State) : State :=
  { s with use_stdin := true, datafile_name := none }

/-- The function `set_server`; `new_name` is never NULL at its call sites. After a failed
`gethostbyname` the name buffer is the fresh, unwritten allocation. -/
def set_server (sys : Sys) (new_name : List Char) (s : State) : Int × State :=
  if s.server_to_query = some new_name then (0, s)
  else if new_name = [] then (-1, s)
  else if sys.malloc_ok = false then (-1, { s with server_to_query := none })
  else
    match sys.gethostbyname new_name with
    | none => (-1, { s with server_to_query := some sys.heap_name })
    | some a => (0, { s with server_to_query := some new_name, qaddr_sin_addr := a })

/-- The function `set_server_port`. -/
def set_server_port (new_port : Nat) (s : State) : Int × State :=
  if new_port > MAX_PORT then (-1, s)
  else (0, { s with server_port := new_port, qaddr_sin_port := new_port })

/-- The function `is_digit`. -/
def is_digit (d : Char) : Bool :=
  if d < '0' ∨ d > '9' then false else true

/-- The digits at the front of a string, accumulated in base 10, and what follows them. -/
def strtoul_digits : List Char → Nat → Nat × List Char
  | [], acc => (acc, [])
  | c :: cs, acc =>
    if is_digit c = true then strtoul_digits cs (acc * 10 + (c.toNat - '0'.toNat))
    else (acc, c :: cs)

/-- The C library `strtoul(test_int, &end, 10)` on a string that starts with a digit:
the value (clamped to `ULONG_MAX`), the unparsed rest `end` points to, and `errno`,
which is written only on overflow. -/
def strtoul (test_int : List Char) (errno : Int) : Nat × List Char × Int :=
  let r := strtoul_digits test_int 0
  if r.1 > ULONG_MAX then (ULONG_MAX, r.2, ERANGE) else (r.1, r.2, errno)

/-- The function `is_uint`: the return value, `*result` afterwards and `errno` afterwards.
`test_int` is never NULL at its call sites; the empty string fails the `is_digit` test
on its terminator. -/
def is_uint (test_int : List Char) (result : Nat) (errno : Int) : Bool × Nat × Int :=
  match test_int with
  | [] => (false, result, errno)
  | c :: _ =>
    if is_digit c = false then (false, result, errno)
    else
      let r := strtoul test_int errno
      if r.2.2 = ERANGE ∨ r.2.1 ≠ [] ∨ r.1 > UINT_MAX then (false, result, r.2.2)
      else (true, r.1, r.2.2)

/-- The records `set_max_queries` initialises: indices from the old capacity up to
`new_max - 1`, `in_use` and `magic` written, the other fields as `realloc` left them. -/
def fresh_slots (sys : Sys) (old_cap new_max : Nat) : List query_status :=
  (List.range' old_cap (new_max - old_cap)).map
    (fun i => { sys.heap i with in_use := false, magic := QUERY_STATUS_MAGIC })

/-- The value of `sizeof(struct query_status)` on an LP64 platform: two 4 byte integers,
a 2 byte integer padded to the alignment of `struct timeval`, and the two 8 byte integers
of `struct timeval`. -/
def size_qs : Nat := 32

/-- The function `set_max_queries`. The test `new_max < 0` of the source is on an
unsigned value, and the byte count `new_max * size_qs` handed to `realloc` is an
`unsigned int` product. `none` when the call has no defined result: a request of 0 bytes,
on which `realloc` may free the table, or a block shorter than `new_max` records, past
whose end the initialising loop writes. -/
def set_max_queries (sys : Sys) (new_max : Nat) (s : State) : Option (Int × State) :=
  if new_max < 0 then some (-1, s)
  else if new_max > s.query_status_allocated then
    let bytes := (new_max * size_qs) % 2 ^ 32
    if bytes = 0 then none
    else if sys.realloc_ok = false then some (-1, s)
    else if bytes < new_max * size_qs then none
    else
      some (0, { s with
                   status := s.status ++ fresh_slots sys s.query_status_allocated new_max
                   max_queries_outstanding := new_max })
  else some (0, { s with max_queries_outstanding := new_max })

/-! ## Clock and stop predicate -/

/-- The function `difftv`. The `double` number of seconds it returns is represented
exactly, as a whole number of microseconds. -/
def difftv (tv1 tv2 : timeval) : Int :=
  let diff_sec := tv1.tv_sec - tv2.tv_sec
  let diff_usec := tv1.tv_usec - tv2.tv_usec
  diff_sec * 1000000 + diff_usec

/-- The conversion `(double)n` of an `unsigned int` number of seconds, in the
representation of `difftv`. -/
def seconds (n : Nat) : Int := (n : Int) * 1000000

/-- The function `timelimit_reached`, with the clock reading of its `set_timenow`. The sum
`run_timelimit + HARD_TIMEOUT_EXTRA` is an `unsigned int` sum. -/
def timelimit_reached (time_now : timeval) (s : State) : Bool :=
  if s.use_timelimit = false then false
  else if s.setup_phase = true then
    if difftv time_now s.time_of_program_start
        < seconds ((s.run_timelimit + HARD_TIMEOUT_EXTRA) % 2 ^ 32) then false
    else true
  else
    if difftv time_now s.time_of_first_query < seconds s.run_timelimit then false
    else true

/-- The function `keep_sending`: the return value, `*reached_end_input` afterwards and the
state afterwards. `time_now` is the clock reading of the one call of `timelimit_reached`
a run of the function makes at most. -/
def keep_sending (time_now : timeval) (reached_end_input : Bool) (s : State) :
    Bool × Bool × State :=
  if s.stop = true then (false, reached_end_input, s)
  else if reached_end_input = false ∧ timelimit_reached time_now s = false then
    (true, reached_end_input, s)
  else if reached_end_input = true ∧ s.run_only_once = false
      ∧ timelimit_reached time_now s = false then
    (true, false,
      { s with unread := s.datafile, runs_through_file := (s.runs_through_file + 1) % 2 ^ 32 })
  else
    (false, reached_end_input,
      { s with
          runs_through_file :=
            if reached_end_input = true then (s.runs_through_file + 1) % 2 ^ 32
            else s.runs_through_file
          stop := true })

/-- The function `queries_outstanding`. -/
def queries_outstanding (s : State) : Nat := s.num_queries_outstanding

/-! ## Input -/

/-- The content of a character buffer as a C string: what precedes the first NUL. -/
def cstr (buf : List Char) : List Char := buf.takeWhile (fun c => c ≠ NUL)

/-- Reads at most `k` characters, stopping after a newline: the characters read and
what is left of the stream. -/
def fgets_take : Nat → List Char → List Char × List Char
  | 0, rest => ([], rest)
  | _ + 1, [] => ([], [])
  | k + 1, c :: cs =>
    if c = NEWLINE then ([c], cs)
    else ((c :: (fgets_take k cs).1), (fgets_take k cs).2)

/-- The C library `fgets(line, n, fp)`: `none` is the NULL it returns at end of file,
otherwise the line read (at most `n - 1` characters) and what is left of the stream. -/
def fgets (n : Nat) (unread : List Char) : Option (List Char × List Char) :=
  if unread = [] then none else some (fgets_take (n - 1) unread)

/-- The do-while loop of `next_input_line`: whether the last `fgets` returned NULL, the
line buffer and the rest of the stream. Every turn that goes round again has consumed a
character, so `fuel` above the length of the stream is never used up. -/
def next_input_line_loop (n : Nat) : Nat → List Char → List Char → Bool × List Char × List Char
  | 0, line, unread => (true, line, unread)
  | fuel + 1, line, unread =>
    match fgets n unread with
    | none => (true, line, unread)
    | some (l, rest) =>
      if l.head? = some COMMENT_CHAR ∨ l.head? = some NEWLINE then
        next_input_line_loop n fuel l rest
      else (false, l, rest)

/-- The function `next_input_line`: the return value, the line buffer afterwards and the
state afterwards. -/
def next_input_line (line : List Char) (n : Nat) (s : State) : Nat × List Char × State :=
  let r := next_input_line_loop n (s.unread.length + 1) line s.unread
  if r.1 = true then (0, r.2.1, { s with unread := r.2.2 })
  else ((cstr r.2.1).length, r.2.1, { s with unread := r.2.2 })

/-- The C library `strtok` on a C string: `none` when only delimiters are left, otherwise
the token and the position saved for the next call (after the delimiter that ended the
token). -/
def strtok (delims : List Char) (str : List Char) : Option (List Char × List Char) :=
  let t := str.dropWhile (fun c => delims.contains c)
  if t = [] then none
  else some (t.takeWhile (fun c => !delims.contains c),
             (t.dropWhile (fun c => !delims.contains c)).drop 1)

/-- A call `strtok(NULL, delims)` after an earlier call: it continues at the saved
position, and keeps returning NULL once a call has returned NULL. -/
def strtok_next (delims : List Char) (saved : Option (List Char × List Char)) :
    Option (List Char × List Char) :=
  match saved with
  | none => none
  | some (_, rest) => strtok delims rest

/-! ## Directives -/

def V_SERVER : Int := 0
def V_PORT : Int := 1
def V_MAXQUERIES : Int := 2
def V_MAXWAIT : Int := 3

def DIRECTIVES : List (List Char) :=
  [['s', 'e', 'r', 'v', 'e', 'r'], ['p', 'o', 'r', 't'],
   ['m', 'a', 'x', 'q', 'u', 'e', 'r', 'i', 'e', 's'], ['m', 'a', 'x', 'w', 'a', 'i', 't']]

def DIR_VALUES : List Int := [V_SERVER, V_PORT, V_MAXQUERIES, V_MAXWAIT]

/-- The function `identify_directive`: the value of the first directive name equal to
`dir`, or -1. -/
def identify_directive (dir : List Char) : Int :=
  match (DIRECTIVES.zip DIR_VALUES).find? (fun p => p.1 = dir) with
  | some p => p.2
  | none => -1

/-- The `switch` of `update_config` on the directive number, with the value token.
`uint_val` is read only after `is_uint` has written it. `none` when the call of
`set_max_queries` has no defined result. -/
def update_config_switch (sys : Sys) (directive_number : Int) (config_value : List Char)
    (s : State) : Option State :=
  if directive_number = V_SERVER then
    if s.serverset = true ∧ s.setup_phase = true then some s
    else some (set_server sys config_value s).2
  else if directive_number = V_PORT then
    if s.portset = true ∧ s.setup_phase = true then some s
    else
      let r := is_uint config_value 0 s.errno
      let s1 := { s with errno := r.2.2 }
      if r.1 = true ∧ r.2.1 > 0 then some (set_server_port r.2.1 s1).2 else some s1
  else if directive_number = V_MAXQUERIES then
    if s.queriesset = true ∧ s.setup_phase = true then some s
    else
      let r := is_uint config_value 0 s.errno
      let s1 := { s with errno := r.2.2 }
      if r.1 = true ∧ r.2.1 > 0 then (set_max_queries sys r.2.1 s1).map (fun p => p.2)
      else some s1
  else if directive_number = V_MAXWAIT then
    if s.timeoutset = true ∧ s.setup_phase = true then some s
    else
      let r := is_uint config_value 0 s.errno
      let s1 := { s with errno := r.2.2 }
      if r.1 = true ∧ r.2.1 > 0 then some { s1 with query_timeout := r.2.1 } else some s1
  else some s

/-- The function `update_config`: the checks on the line and its tokens, then the
`switch`. The first `strtok` cannot return NULL, the character it starts at is not a
delimiter. `none` when the call of `set_max_queries` has no defined result. -/
def update_config (sys : Sys) (config_change_desc : List Char) (s : State) : Option State :=
  if s.ignore_config_changes = true then some s
  else
    match config_change_desc.drop 1 with
    | [] => some s
    | c :: cs =>
      if c = NEWLINE then some s
      else if WHITESPACE.contains c = true then some s
      else
        let tok1 := strtok WHITESPACE (c :: cs)
        let tok2 := strtok_next WHITESPACE tok1
        match tok1 with
        | none => some s
        | some (directive, _) =>
          let directive_number := identify_directive directive
          if directive_number = -1 then some s
          else
            match tok2 with
            | none => some s
            | some (config_value, _) =>
              update_config_switch sys directive_number config_value s

/-! ## Queries -/

def QTYPE_STRINGS : List (List Char) :=
  [['A'], ['N', 'S'], ['M', 'D'], ['M', 'F'], ['C', 'N', 'A', 'M', 'E'], ['S', 'O', 'A'],
   ['M', 'B'], ['M', 'G'], ['M', 'R'], ['N', 'U', 'L', 'L'], ['W', 'K', 'S'],
   ['P', 'T', 'R'], ['H', 'I', 'N', 'F', 'O'], ['M', 'I', 'N', 'F', 'O'], ['M', 'X'],
   ['T', 'X', 'T'], ['A', 'A', 'A', 'A'], ['A', 'X', 'F', 'R'], ['M', 'A', 'I', 'L', 'B'],
   ['M', 'A', 'I', 'L', 'A'], ['*'], ['A', 'N', 'Y']]

def QTYPE_CODES : List Nat :=
  [1, 2, 3, 4, 5, 6, 7, 8, 9, 10, 11, 12, 13, 14, 15, 16, 28, 252, 253, 254, 255, 255]

/-- The function `parse_query`: `none` is the return value -1 (then `qname` and `*qtype`
were not written), otherwise the domain copied to `qname` and the code stored in
`*qtype`. -/
def parse_query (input : List Char) (qnlen : Nat) : Option (List Char × Nat) :=
  let tok1 := strtok WHITESPACE input
  let tok2 := strtok_next WHITESPACE tok1
  match tok1, tok2 with
  | some (domain_str, _), some (type_str, _) =>
    if domain_str.length > qnlen then none
    else
      match (QTYPE_STRINGS.zip QTYPE_CODES).find? (fun p => p.1 = type_str) with
      | some p => some (domain_str, p.2)
      | none => none
  | _, _ => none

/-- What the resolver library and the socket answer during one `dispatch_query`:
the message `res_mkquery` builds for a domain and a type (`none` is its -1), and the
return value of `sendto` for a datagram. -/
structure Net where
  res_mkquery : List Char → Nat → Option (List Nat)
  sendto : List Nat → Int

/-- The function `dispatch_query`: the return value and the datagram handed to `sendto`,
whose first two bytes are the bytes of `htons(id)`. -/
def dispatch_query (net : Net) (id : Nat) (dom : List Char) (qt : Nat) :
    Int × Option (List Nat) :=
  match net.res_mkquery dom qt with
  | none => (-1, none)
  | some buf =>
    let packet := (buf.set 0 (id / 256)).set 1 (id % 256)
    if net.sendto packet = -1 then (-1, some packet) else (0, some packet)

/-- The slot search of `send_query`, `for (count = 0; status[count].in_use == TRUE &&
count < max_queries_outstanding; count++)`, on the records from index `count` on: the
index the loop stops at, or `none` when it reads past the end of the block. -/
def slot_scan (max_queries_outstanding : Nat) : List query_status → Nat → Option Nat
  | [], _ => none
  | q :: rest, count =>
    if q.in_use = true ∧ count < max_queries_outstanding then
      slot_scan max_queries_outstanding rest (count + 1)
    else some count

/-- The branch a call of `send_query` ends in. -/
inductive SendOutcome where
  | parse_error
  | send_error
  | no_space
  | registered
deriving DecidableEq, Repr

/-- What the outside world answers during one `send_query`: the network, and the clock
readings of the two `set_timenow` calls. -/
structure SendEnv where
  net : Net
  now_first : timeval
  now_sent : timeval

/-- The function `send_query`: the branch taken and the state afterwards; `none` when the
slot search reads outside the allocated block. -/
def send_query (env : SendEnv) (query_desc : List Char) (s : State) :
    Option (SendOutcome × State) :=
  let s1 := { s with use_query_id := (s.use_query_id + 1) % 65536 }
  match parse_query query_desc MAX_DOMAIN_LEN with
  | none => some (SendOutcome.parse_error, s1)
  | some (domain, query_type) =>
    if (dispatch_query env.net s1.use_query_id domain query_type).1 = -1 then
      some (SendOutcome.send_error, s1)
    else
      let s2 :=
        if s1.setup_phase = true then
          { s1 with time_of_first_query := env.now_first, setup_phase := false }
        else s1
      match slot_scan s2.max_queries_outstanding s2.status 0 with
      | none => none
      | some count =>
        match s2.status.get? count with
        | none => none
        | some q =>
          if q.in_use = true then some (SendOutcome.no_space, s2)
          else
            some (SendOutcome.registered,
              { s2 with
                  status := s2.status.set count
                    { q with in_use := true, id := s2.use_query_id,
                             sent_timestamp := env.now_sent }
                  num_queries_sent := (s2.num_queries_sent + 1) % 2 ^ 32
                  num_queries_outstanding := (s2.num_queries_outstanding + 1) % 2 ^ 32 })

/-! ## Responses and timeouts -/

/-- The loop of `register_response` on the records of the table: whether a record was
found, and the table afterwards (the first in-use record holding `id` cleared). -/
def register_response_scan (id : Nat) : List query_status → Bool × List query_status
  | [] => (false, [])
  | q :: rest =>
    if q.in_use = true ∧ q.id = id then (true, { q with in_use := false } :: rest)
    else ((register_response_scan id rest).1, q :: (register_response_scan id rest).2)

/-- The function `register_response`: the final value of `found` (FALSE prints the
warning) and the state afterwards. -/
def register_response (id : Nat) (s : State) : Bool × State :=
  let r := register_response_scan id s.status
  if r.1 = true then
    (true, { s with status := r.2
                    num_queries_outstanding := (s.num_queries_outstanding + 2 ^ 32 - 1) % 2 ^ 32 })
  else (false, s)

/-- The function `process_single_response`: `recv` is `none` when `recvfrom` fails,
otherwise the content of `in_buf` after the call. -/
def process_single_response (recv : Option (List Nat)) (s : State) : State :=
  match recv with
  | none => s
  | some in_buf => (register_response (get_uint16 in_buf) s).2

/-- The test of `retire_old_queries` on one record. -/
def timed_out (curr_time : timeval) (query_timeout : Nat) (q : query_status) : Bool :=
  if q.in_use = true ∧ difftv curr_time q.sent_timestamp ≥ seconds query_timeout then true
  else false

/-- The loop of `retire_old_queries` on the records of the table, carrying
`num_queries_outstanding` and `num_queries_timed_out`. -/
def retire_scan (curr_time : timeval) (query_timeout : Nat) :
    List query_status → Nat → Nat → List query_status × Nat × Nat
  | [], outstanding, timed => ([], outstanding, timed)
  | q :: rest, outstanding, timed =>
    if timed_out curr_time query_timeout q = true then
      let r := retire_scan curr_time query_timeout rest
                 ((outstanding + 2 ^ 32 - 1) % 2 ^ 32) ((timed + 1) % 2 ^ 32)
      ({ q with in_use := false } :: r.1, r.2.1, r.2.2)
    else
      let r := retire_scan curr_time query_timeout rest outstanding timed
      (q :: r.1, r.2.1, r.2.2)

/-- The function `retire_old_queries`, with the clock reading of its `set_timenow`. -/
def retire_old_queries (curr_time : timeval) (s : State) : State :=
  let r := retire_scan curr_time s.query_timeout s.status
             s.num_queries_outstanding s.num_queries_timed_out
  { s with status := r.1, num_queries_outstanding := r.2.1, num_queries_timed_out := r.2.2 }

/-! ## Statistics -/

/-- The value `print_statistics` computes for `num_queries_completed`, an unsigned
difference. -/
def num_queries_completed (s : State) : Nat :=
  (s.num_queries_sent + 2 ^ 32 - s.num_queries_timed_out) % 2 ^ 32

/-! ## Values of type `double` -/

/-- A value of type `double` in the IEEE 754 binary64 format: a finite value
`(-1)^neg * m * 2^e`, an infinity, or a NaN. The operations below return a finite value
in the form the format stores it: `2^52 ≤ m < 2^53` with `-1074 ≤ e ≤ 971`, or
`m < 2^52` with `e = -1074`. -/
inductive double where
  | finite (neg : Bool) (m : Nat) (e : Int)
  | inf (neg : Bool)
  | nan
deriving DecidableEq, Repr

/-- The number of binary digits of `n`, where `fuel` bounds the number of digits. -/
def bit_length : Nat → Nat → Nat
  | 0, _ => 0
  | fuel + 1, n => if n = 0 then 0 else bit_length fuel (n / 2) + 1

/-- The whole number nearest to `n / d`, the even one of two that are equally near. -/
def round_half_even (n d : Nat) : Nat :=
  if 2 * (n % d) < d then n / d
  else if d < 2 * (n % d) then n / d + 1
  else if (n / d) % 2 = 0 then n / d else n / d + 1

/-- The numerator of `2^e`: `2^e` for `e ≥ 0`, and 1 otherwise. -/
def pow2_num (e : Int) : Nat := 2 ^ e.toNat

/-- The denominator of `2^e`: `2^(-e)` for `e ≤ 0`, and 1 otherwise. -/
def pow2_den (e : Int) : Nat := 2 ^ (-e).toNat

/-- The exponent of the `double` nearest to `n / d`, for `n, d > 0`, before the rounding
of the significand: the `e1` with `2^52 ≤ n / (d * 2^e1) < 2^53`, found from the numbers
of digits of `n` and `d`, or -1074 when that is below the normal range. -/
def double.exponent (n d : Nat) : Int :=
  let e0 : Int := (bit_length n n : Int) - (bit_length d d : Int) - 53
  let e1 : Int := if 2 ^ 53 * (d * pow2_num e0) ≤ n * pow2_den e0 then e0 + 1 else e0
  if e1 < -1074 then -1074 else e1

/-- The `double` with the rounded significand `m` and the exponent `e`: a significand
that rounded up to `2^53` moves to the next exponent, and a value beyond the largest
finite one becomes an infinity. -/
def double.pack (neg : Bool) (m : Nat) (e : Int) : double :=
  if m = 2 ^ 53 then
    if e + 1 > 971 then double.inf neg else double.finite neg (2 ^ 52) (e + 1)
  else if e > 971 then double.inf neg
  else double.finite neg m e

/-- The rounding every operation ends with, to nearest and ties to even: the `double`
nearest to `(-1)^neg * n / d`, for `d > 0`. -/
def double.round (neg : Bool) (n d : Nat) : double :=
  if n = 0 then double.finite neg 0 (-1074)
  else
    let e := double.exponent n d
    double.pack neg (round_half_even (n * pow2_den e) (d * pow2_num e)) e

/-- The conversion `(double)i` of an integer. -/
def double.of_int (i : Int) : double := double.round (decide (i < 0)) i.natAbs 1

/-- The numerator of the absolute value `m * 2^e`; its denominator is `pow2_den e`. -/
def double.num (m : Nat) (e : Int) : Nat := m * pow2_num e

/-- The product `x * y` of two `double` values. -/
def double.mul : double → double → double
  | double.finite s1 m1 e1, double.finite s2 m2 e2 =>
    double.round (xor s1 s2) (double.num m1 e1 * double.num m2 e2) (pow2_den e1 * pow2_den e2)
  | double.finite s1 m1 _, double.inf s2 =>
    if m1 = 0 then double.nan else double.inf (xor s1 s2)
  | double.inf s1, double.finite s2 m2 _ =>
    if m2 = 0 then double.nan else double.inf (xor s1 s2)
  | double.inf s1, double.inf s2 => double.inf (xor s1 s2)
  | _, _ => double.nan

/-- The quotient `x / y` of two `double` values. A division by zero traps nothing: it
gives an infinity, or a NaN when `x` is zero as well. -/
def double.div : double → double → double
  | double.finite s1 m1 e1, double.finite s2 m2 e2 =>
    if m2 = 0 then (if m1 = 0 then double.nan else double.inf (xor s1 s2))
    else double.round (xor s1 s2) (double.num m1 e1 * pow2_den e2)
      (pow2_den e1 * double.num m2 e2)
  | double.finite s1 _ _, double.inf s2 => double.finite (xor s1 s2) 0 (-1074)
  | double.inf s1, double.finite s2 _ _ => double.inf (xor s1 s2)
  | _, _ => double.nan

/-- The sum `x + y` of two `double` values. -/
def double.add : double → double → double
  | double.finite s1 m1 e1, double.finite s2 m2 e2 =>
    let a := double.num m1 e1 * pow2_den e2
    let b := double.num m2 e2 * pow2_den e1
    let d := pow2_den e1 * pow2_den e2
    if s1 = s2 then double.round s1 (a + b) d
    else if a = b then double.finite false 0 (-1074)
    else if b < a then double.round s1 (a - b) d
    else double.round s2 (b - a) d
  | double.finite _ _ _, double.inf s2 => double.inf s2
  | double.inf s1, double.finite _ _ _ => double.inf s1
  | double.inf s1, double.inf s2 => if s1 = s2 then double.inf s1 else double.nan
  | _, _ => double.nan

/-- The value `-x`. -/
def double.neg : double → double
  | double.finite s m e => double.finite (!s) m e
  | double.inf s => double.inf (!s)
  | double.nan => double.nan

/-- The difference `x - y` of two `double` values. -/
def double.sub (x y : double) : double := double.add x (double.neg y)

/-- The constant `0.0`. -/
def double.zero : double := double.finite false 0 (-1074)

/-- The rational number a finite `double` stands for; 0 for an infinity or a NaN. -/
def double.value : double → ℚ
  | double.finite s m e => (if s = true then -1 else 1) * ((m : ℚ) * (2 : ℚ) ^ e)
  | _ => 0

/-- What `printf` prints for a finite value under the conversion `%.<digits>lf`: the sign,
and the digits as the whole number nearest to `|x| * 10^digits`, the exact value of `x`
rounded to nearest, ties to even. `none` for an infinity or a NaN, printed as `inf` or
`nan`. -/
def printf_lf (digits : Nat) : double → Option (Bool × Nat)
  | double.finite s m e =>
    some (s, round_half_even (double.num m e * 10 ^ digits) (pow2_den e))
  | _ => none

/-- The function `difftv` as `print_statistics` uses it: the `double` it returns. -/
def difftv_double (tv1 tv2 : timeval) : double :=
  let diff_sec := tv1.tv_sec - tv2.tv_sec
  let diff_usec := tv1.tv_usec - tv2.tv_usec
  double.add (double.of_int diff_sec)
    (double.div (double.of_int diff_usec) (double.of_int 1000000))

/-- What `print_statistics` prints: the way the input was parsed, the time limit (when
one is in use), the number of passes through the file (when several are allowed) or
the reason of the end (when one is), the three counters, the two percentages, the second
the run started and ended at, its duration and the rate of queries. -/
structure statistics where
  parse_input_file : List Char
  run_time_limit : Option Nat
  ran_through_file : Option Nat
  ended_due_to : Option (List Char)
  queries_sent : Nat
  queries_completed : Nat
  queries_lost : Nat
  per_completed : double
  per_lost : double
  started_at : Int
  finished_at : Int
  run_time : double
  queries_per_sec : double

/-- The function `print_statistics`: the values it prints. The percentages, the run time
and the rate are the `double` values the source computes; `printf_lf` gives their
digits. -/
def print_statistics (s : State) : statistics :=
  let per_lost : double :=
    if num_queries_completed s = 0 then double.zero
    else
      double.div
        (double.mul (double.of_int 100) (double.of_int (s.num_queries_timed_out : Int)))
        (double.of_int (s.num_queries_sent : Int))
  let per_completed : double :=
    if num_queries_completed s = 0 then double.zero
    else double.sub (double.of_int 100) per_lost
  let start_time := if s.num_queries_sent = 0 then s.time_of_program_start
                    else s.time_of_first_query
  let run_time : double :=
    if s.num_queries_sent = 0 then double.zero
    else difftv_double s.time_of_end_of_run s.time_of_first_query
  let queries_per_sec : double :=
    if s.num_queries_sent = 0 then double.zero
    else double.div (double.of_int (num_queries_completed s : Int)) run_time
  { parse_input_file :=
      if s.run_only_once = true then ['o', 'n', 'c', 'e']
      else ['m', 'u', 'l', 't', 'i', 'p', 'l', 'e', ' ', 't', 'i', 'm', 'e', 's']
    run_time_limit := if s.use_timelimit = true then some s.run_timelimit else none
    ran_through_file := if s.run_only_once = false then some s.runs_through_file else none
    ended_due_to :=
      if s.run_only_once = false then none
      else if s.runs_through_file = 0 then some ['t', 'i', 'm', 'e', ' ', 'l', 'i', 'm', 'i', 't']
      else some ['e', 'n', 'd', ' ', 'o', 'f', ' ', 'f', 'i', 'l', 'e']
    queries_sent := s.num_queries_sent
    queries_completed := num_queries_completed s
    queries_lost := s.num_queries_timed_out
    per_completed := per_completed
    per_lost := per_lost
    started_at := start_time.tv_sec
    finished_at := s.time_of_end_of_run.tv_sec
    run_time := run_time
    queries_per_sec := queries_per_sec }

/-! ## Command line and setup -/

/-- The function `parse_args` on the successive results of `getopt`: the option character
(any character outside the option string stands for an unknown option) and `optarg`.
`none` when the call of `set_max_queries` has no defined result. -/
def parse_args (sys : Sys) : List (Char × List Char) → State → Option (Int × State)
  | [], s =>
    some (0, if s.run_only_once = false ∧ s.use_timelimit = false then
               { s with run_only_once := true }
             else s)
  | (c, optarg) :: rest, s =>
    if c = 'q' then
      let r := is_uint optarg 0 s.errno
      let s1 := { s with errno := r.2.2 }
      if r.1 = true then
        match set_max_queries sys r.2.1 s1 with
        | none => none
        | some p => parse_args sys rest { p.2 with queriesset := true }
      else some (-1, s1)
    else if c = 't' then
      let r := is_uint optarg 0 s.errno
      let s1 := { s with errno := r.2.2 }
      if r.1 = true then
        parse_args sys rest { s1 with query_timeout := r.2.1, timeoutset := true }
      else some (-1, s1)
    else if c = 'n' then parse_args sys rest { s with ignore_config_changes := true }
    else if c = 'd' then
      let r := set_datafile sys optarg s
      if r.1 = -1 then some (-1, r.2) else parse_args sys rest r.2
    else if c = 's' then
      let r := set_server sys optarg s
      if r.1 = -1 then some (-1, r.2) else parse_args sys rest { r.2 with serverset := true }
    else if c = 'p' then
      let r := is_uint optarg 0 s.errno
      let s1 := { s with errno := r.2.2 }
      if r.1 = true ∧ r.2.1 < MAX_PORT then
        parse_args sys rest { (set_server_port r.2.1 s1).2 with portset := true }
      else some (-1, s1)
    else if c = '1' then parse_args sys rest { s with run_only_once := true }
    else if c = 'l' then
      let r := is_uint optarg 0 s.errno
      let s1 := { s with errno := r.2.2 }
      if r.1 = true then
        parse_args sys rest { s1 with use_timelimit := true, run_timelimit := r.2.1 }
      else some (-1, s1)
    else if c = 'b' then
      let r := is_uint optarg 0 s.errno
      let s1 := { s with errno := r.2.2 }
      if r.1 = true then parse_args sys rest { s1 with socket_bufsize := r.2.1 }
      else some (-1, s1)
    else some (-1, s)

/-- The function `open_datafile`. -/
def open_datafile (sys : Sys) (s : State) : Int × State :=
  if s.use_stdin = true then (0, { s with datafile := sys.stdin, unread := sys.stdin })
  else
    match s.datafile_name with
    | none => (-1, s)
    | some name =>
      match sys.fopen name with
      | none => (-1, s)
      | some content => (0, { s with datafile := content, unread := content })

/-- The function `setup` on the results of `getopt`. `none` when a call of
`set_max_queries` has no defined result. -/
def setup (sys : Sys) (opts : List (Char × List Char)) (s : State) : Option (Int × State) :=
  let s0 := set_input_stdin { s with qaddr_sin_port := 0, qaddr_sin_addr := 0 }
  match set_max_queries sys DEF_MAX_QUERIES_OUTSTANDING s0 with
  | none => none
  | some r1 =>
    if r1.1 = -1 then some (-1, r1.2)
    else
      let r2 := set_server sys DEF_SERVER_TO_QUERY r1.2
      if r2.1 = -1 then some (-1, r2.2)
      else
        let r3 := set_server_port DEF_SERVER_PORT r2.2
        if r3.1 = -1 then some (-1, r3.2)
        else
          match parse_args sys opts r3.2 with
          | none => none
          | some r4 =>
            if r4.1 = -1 then some (-1, r4.2)
            else
              let r5 := open_datafile sys r4.2
              if r5.1 = -1 then some (-1, r5.2)
              else if sys.socket_ok = false then some (-1, r5.2)
              else some (0, r5.2)

/-! ## The main loop -/

/-- The places of `main` between which one step of the loop runs: the test of the
outer `while`, the test of the inner `while`, the call of `retire_old_queries`, the
polls of `process_responses`, the stamping of `time_of_end_of_run`, and the end. -/
inductive Pc where
  | outer
  | inner
  | retire
  | respond
  | finish
  | exited
deriving DecidableEq, Repr

/-- The state of `main`: where it is, its locals `got_eof` and `input_line`, and the
globals. -/
structure Main where
  pc : Pc
  got_eof : Bool
  input_line : List Char
  g : State

/-- What the outside world answers during one step of the loop: the clock reading, the
library answers, the answers for a `send_query`, and the socket (`none`: `select` reports
nothing to read; `some none`: `recvfrom` fails; `some (some buf)`: the content of `in_buf`
after `recvfrom`). -/
structure Env where
  now : timeval
  sys : Sys
  send : SendEnv
  data : Option (Option (List Nat))

/-- One step of the loop of `main`. At `outer` and `inner` the loop condition is
evaluated (with the side effects of `keep_sending`), and at `inner` the body runs once
when the condition holds. `none` when `send_query` reads outside the table or
`update_config` has no defined result. -/
def main_step (e : Env) (m : Main) : Option Main :=
  match m.pc with
  | Pc.outer =>
    let k := keep_sending e.now m.got_eof m.g
    if k.1 = true ∨ queries_outstanding k.2.2 > 0 then
      some { m with pc := Pc.inner, got_eof := k.2.1, g := k.2.2 }
    else some { m with pc := Pc.finish, got_eof := k.2.1, g := k.2.2 }
  | Pc.inner =>
    let k := keep_sending e.now m.got_eof m.g
    if k.1 = true ∧ queries_outstanding k.2.2 < k.2.2.max_queries_outstanding then
      let r := next_input_line m.input_line MAX_INPUT_LEN k.2.2
      if r.1 = 0 then
        some { m with got_eof := true, input_line := r.2.1, g := r.2.2 }
      else if r.2.1.head? = some CONFIG_CHAR then
        match update_config e.sys (cstr r.2.1) r.2.2 with
        | none => none
        | some g => some { m with got_eof := k.2.1, input_line := r.2.1, g := g }
      else
        match send_query e.send (cstr r.2.1) r.2.2 with
        | none => none
        | some q => some { m with got_eof := k.2.1, input_line := r.2.1, g := q.2 }
    else some { m with pc := Pc.retire, got_eof := k.2.1, g := k.2.2 }
  | Pc.retire => some { m with pc := Pc.respond, g := retire_old_queries e.now m.g }
  | Pc.respond =>
    match e.data with
    | none => some { m with pc := Pc.outer }
    | some recv => some { m with g := process_single_response recv m.g }
  | Pc.finish => some { m with pc := Pc.exited, g := { m.g with time_of_end_of_run := e.now } }
  | Pc.exited => some m

/-- The steps of `main` from a state, one for each answer of the outside world. -/
def run : List Env → Main → Option Main
  | [], m => some m
  | e :: es, m =>
    match main_step e m with
    | none => none
    | some m1 => run es m1

/-- The state of `main` when it enters the loop, after a successful `setup`. -/
def main_start (g : State) : Main :=
  { pc := Pc.outer, got_eof := false, input_line := [], g := g }

/-- The state in which `main` enters its loop: `time_of_program_start` stamped with the
first clock reading, then `setup`; `none` when `setup` fails and `main` returns, or has no
defined result. -/
def main_enter (now : timeval) (sys : Sys) (opts : List (Char × List Char)) : Option Main :=
  match setup sys opts
      { initial with time_of_program_start := now, time_of_first_query := ⟨0, 0⟩,
                     time_of_end_of_run := ⟨0, 0⟩ } with
  | none => none
  | some r => if r.1 = -1 then none else some (main_start r.2)

/-! ## Predicates of the verification -/

/-- The number of records of a table that are in use. -/
def in_use_count (st : List query_status) : Nat := st.countP (fun q => q.in_use)

/-- The effect of `retire_old_queries` on one record. -/
def retire_slot (curr_time : timeval) (query_timeout : Nat) (q : query_status) : query_status :=
  if timed_out curr_time query_timeout q = true then { q with in_use := false } else q

/-- Well-formed engine states: the table has fewer than 2^32 records, the limit is within
the table, `num_queries_outstanding` counts the records in use, and the two other
`unsigned int` counters hold values below 2^32. -/
structure WF (s : State) : Prop where
  cap : s.status.length < 2 ^ 32
  lim : s.max_queries_outstanding ≤ s.status.length
  out : s.num_queries_outstanding = in_use_count s.status
  sent : s.num_queries_sent < 2 ^ 32
  timed : s.num_queries_timed_out < 2 ^ 32

/-- No record was reserved between two tables: the later table is at least as long, and
every record in use in it is the same record, in use, at the same index of the earlier
table. -/
def Kept (st st' : List query_status) : Prop :=
  st.length ≤ st'.length ∧
    ∀ (i : Nat) (q : query_status), st'[i]? = some q → q.in_use = true → st[i]? = some q

/-- The query-type table in the words of the specification: `A=1, NS=2, MD=3, MF=4,
CNAME=5, SOA=6, MB=7, MG=8, MR=9, NULL=10, WKS=11, PTR=12, HINFO=13, MINFO=14, MX=15,
TXT=16, AAAA=28, AXFR=252, MAILB=253, MAILA=254, *=255, ANY=255`, and no code for any
other token. -/
def spec_qtype (type_str : List Char) : Option Nat :=
  if type_str = ['A'] then some 1
  else if type_str = ['N', 'S'] then some 2
  else if type_str = ['M', 'D'] then some 3
  else if type_str = ['M', 'F'] then some 4
  else if type_str = ['C', 'N', 'A', 'M', 'E'] then some 5
  else if type_str = ['S', 'O', 'A'] then some 6
  else if type_str = ['M', 'B'] then some 7
  else if type_str = ['M', 'G'] then some 8
  else if type_str = ['M', 'R'] then some 9
  else if type_str = ['N', 'U', 'L', 'L'] then some 10
  else if type_str = ['W', 'K', 'S'] then some 11
  else if type_str = ['P', 'T', 'R'] then some 12
  else if type_str = ['H', 'I', 'N', 'F', 'O'] then some 13
  else if type_str = ['M', 'I', 'N', 'F', 'O'] then some 14
  else if type_str = ['M', 'X'] then some 15
  else if type_str = ['T', 'X', 'T'] then some 16
  else if type_str = ['A', 'A', 'A', 'A'] then some 28
  else if type_str = ['A', 'X', 'F', 'R'] then some 252
  else if type_str = ['M', 'A', 'I', 'L', 'B'] then some 253
  else if type_str = ['M', 'A', 'I', 'L', 'A'] then some 254
  else if type_str = ['*'] then some 255
  else if type_str = ['A', 'N', 'Y'] then some 255
  else none

/-- A line of a text input shorter than `MAX_INPUT_LEN` bytes: characters other than
newline and NUL, then a newline. -/
def text_line (l : List Char) : Prop :=
  ∃ body, l = body ++ [NEWLINE] ∧ NEWLINE ∉ body ∧ NUL ∉ body ∧ l.length < MAX_INPUT_LEN

/-- What may follow the last newline of a text input: a line without its newline,
shorter than `MAX_INPUT_LEN` bytes, or nothing. -/
def text_rest (last : List Char) : Prop :=
  NEWLINE ∉ last ∧ NUL ∉ last ∧ last.length < MAX_INPUT_LEN

/-- The lines the specification has `next_line` skip: the empty line, and the lines that
begin with `;`. -/
def skipped_line (l : List Char) : Bool :=
  decide (l = [NEWLINE]) || decide (l.head? = some COMMENT_CHAR)

/-- The value of a string of decimal digits, in the words of the specification. -/
def decimal_value (str : List Char) : Nat :=
  str.foldl (fun acc c => acc * 10 + (c.toNat - '0'.toNat)) 0

/-- What the specification asks of `is_uint`, from the string alone: TRUE and the value
for a non-empty string of decimal digits whose value is at most `UINT_MAX`, otherwise
FALSE and `*result` as it was. -/
def spec_is_uint (str : List Char) (result : Nat) : Bool × Nat :=
  if str ≠ [] ∧ (∀ c ∈ str, '0' ≤ c ∧ c ≤ '9') ∧ decimal_value str ≤ 2 ^ 32 - 1 then
    (true, decimal_value str)
  else (false, result)

/-- Whether a step of `main` reaches the end of the input: a turn of the inner loop in
which `next_input_line` returns 0. -/
def reads_eof (e : Env) (m : Main) : Bool :=
  decide (m.pc = Pc.inner) && (keep_sending e.now m.got_eof m.g).1 &&
    decide (queries_outstanding (keep_sending e.now m.got_eof m.g).2.2
      < (keep_sending e.now m.got_eof m.g).2.2.max_queries_outstanding) &&
    decide ((next_input_line m.input_line MAX_INPUT_LEN
      (keep_sending e.now m.got_eof m.g).2.2).1 = 0)

/-- The directive a step of `main` hands to `update_config`, with the state in which it
does: the line a turn of the inner loop reads when it starts with the configuration
character. `none` for every other step. -/
def step_directive (e : Env) (m : Main) : Option (List Char × State) :=
  let k := keep_sending e.now m.got_eof m.g
  let r := next_input_line m.input_line MAX_INPUT_LEN k.2.2
  if m.pc = Pc.inner ∧ k.1 = true ∧
      queries_outstanding k.2.2 < k.2.2.max_queries_outstanding ∧
      r.1 ≠ 0 ∧ r.2.1.head? = some CONFIG_CHAR then
    some (cstr r.2.1, r.2.2)
  else none

/-- The number of steps of a run of `main` that reach the end of the input. -/
def eof_count : List Env → Main → Nat
  | [], _ => 0
  | e :: es, m =>
    (if reads_eof e m = true then 1 else 0) +
      match main_step e m with
      | none => 0
      | some m1 => eof_count es m1

/-- The ends of input `keep_sending` has not seen yet: 1 when `got_eof` is set and the
stop latch is not, otherwise 0. -/
def pending_eof (m : Main) : Nat := if m.got_eof = true ∧ m.g.stop = false then 1 else 0

/-- The fields the counting of passes depends on have the same values in two states. -/
def SameMode (s t : State) : Prop :=
  t.run_only_once = s.run_only_once ∧ t.use_timelimit = s.use_timelimit ∧
  t.stop = s.stop ∧ t.runs_through_file = s.runs_through_file

/-- What ties the pass counter to the ends of input read so far, `c` of them: the counter
is below 2^32 and, with the end of input `keep_sending` has not seen yet, equals `c`
modulo 2^32; and `main` is past its loop only with the stop latch set. -/
structure PassInv (c : Nat) (m : Main) : Prop where
  lt : m.g.runs_through_file < 2 ^ 32
  count : (m.g.runs_through_file + pending_eof m) % 2 ^ 32 = c % 2 ^ 32
  left : m.pc = Pc.finish ∨ m.pc = Pc.exited → m.g.stop = true

/-- What holds in a run restricted to one pass: the pass counter is 1 once the run has
stopped at the end of the input and 0 otherwise, and a stop without an end of input
happens only with a time limit in use. -/
structure OnceInv (m : Main) : Prop where
  once : m.g.run_only_once = true
  runs : m.g.runs_through_file = if m.got_eof = true ∧ m.g.stop = true then 1 else 0
  cause : m.g.stop = true → m.got_eof = true ∨ m.g.use_timelimit = true

/-! ## Histories of calls -/

/-- A call of one of the functions that change the engine state during a run, with the
answers of the outside world; `stamp_end` is the call `set_timenow(&time_of_end_of_run)`
of `main`. An `unsigned int` or `unsigned short` argument is converted at the call. -/
inductive Op where
  | set_max (sys : Sys) (new_max : Nat)
  | config (sys : Sys) (line : List Char)
  | keep (now : timeval) (eof : Bool)
  | input (line : List Char) (n : Nat)
  | send (env : SendEnv) (query_desc : List Char)
  | response (id : Nat)
  | retire (now : timeval)
  | stamp_end (now : timeval)

/-- An engine state together with what happened so far: the number of responses
`register_response` matched, the number of queries `send_query` registered, the number of
calls of `send_query`, and for each record of the table the number of the call of
`send_query` that last registered a query in it (0 when none did). -/
structure Hist where
  g : State
  matched : Nat
  registered : Nat
  calls : Nat
  born : List Nat

/-- The call numbers extended with 0 for records added to the table. -/
def pad (born : List Nat) (n : Nat) : List Nat := born ++ List.replicate (n - born.length) 0

/-- One call in a history; `none` when `send_query` reads outside the table or
`set_max_queries` has no defined result. -/
def Hist.step (op : Op) (h : Hist) : Option Hist :=
  match op with
  | Op.set_max sys n =>
    match set_max_queries sys (n % 2 ^ 32) h.g with
    | none => none
    | some r => some { h with g := r.2, born := pad h.born r.2.status.length }
  | Op.config sys line =>
    match update_config sys line h.g with
    | none => none
    | some g => some { h with g := g, born := pad h.born g.status.length }
  | Op.keep now eof => some { h with g := (keep_sending now eof h.g).2.2 }
  | Op.input line n => some { h with g := (next_input_line line n h.g).2.2 }
  | Op.send env line =>
    match send_query env line h.g with
    | none => none
    | some (o, g) =>
      if o = SendOutcome.registered then
        some { g := g, matched := h.matched, registered := h.registered + 1,
               calls := h.calls + 1,
               born := h.born.set
                 ((slot_scan h.g.max_queries_outstanding h.g.status 0).getD 0) (h.calls + 1) }
      else some { h with g := g, calls := h.calls + 1 }
  | Op.response id =>
    let r := register_response (id % 65536) h.g
    some { h with g := r.2, matched := if r.1 = true then h.matched + 1 else h.matched }
  | Op.retire now => some { h with g := retire_old_queries now h.g }
  | Op.stamp_end now => some { h with g := { h.g with time_of_end_of_run := now } }

/-- The calls of a history, in order. -/
def Hist.run : List Op → Hist → Option Hist
  | [], h => some h
  | op :: ops, h =>
    match Hist.step op h with
    | none => none
    | some h1 => Hist.run ops h1

/-- The history that starts in a state in which nothing has been sent. -/
def Hist.start (g : State) : Hist :=
  { g := g, matched := 0, registered := 0, calls := 0, born := List.replicate g.status.length 0 }

/-- A state in which nothing has been sent yet: well-formed, all counters and the id
counter zero. -/
structure Fresh (g : State) : Prop where
  wf : WF g
  sent0 : g.num_queries_sent = 0
  out0 : g.num_queries_outstanding = 0
  timed0 : g.num_queries_timed_out = 0
  id0 : g.use_query_id = 0

/-- No two records in use hold the same id. -/
def UniqueIds (st : List query_status) : Prop :=
  ∀ (i j : Nat) (p q : query_status), i ≠ j → st[i]? = some p → st[j]? = some q →
    p.in_use = true → q.in_use = true → p.id ≠ q.id

/-- The accounting relation between the counters and the history, for histories with
fewer than 2^32 registered queries. -/
def Acct (h : Hist) : Prop :=
  h.registered < 2 ^ 32 →
    h.g.num_queries_sent = h.registered ∧
    h.registered = h.matched + h.g.num_queries_timed_out + h.g.num_queries_outstanding

/-! ## Concrete answers of the outside world, for examples -/

/-- Library answers under which every call succeeds; fresh memory is zeroed. -/
def ex_sys : Sys :=
  { realloc_ok := true
    heap := fun _ => { magic := 0, in_use := false, id := 0, sent_timestamp := ⟨0, 0⟩ }
    malloc_ok := true
    heap_name := []
    gethostbyname := fun _ => some 1
    fopen := fun _ => none
    stdin := []
    socket_ok := true }

/-- A network that builds a 12 byte message for every query and sends every datagram in
full. -/
def ex_net : Net :=
  { res_mkquery := fun _ _ => some (List.replicate 12 0)
    sendto := fun p => p.length }

/-- Answers for a `send_query` at second 100. -/
def ex_send : SendEnv := { net := ex_net, now_first := ⟨100, 0⟩, now_sent := ⟨100, 0⟩ }

/-- The query line `a A`. -/
def ex_line : List Char := ['a', ' ', 'A', NEWLINE]

/-- A history: the table is allocated, one query is sent and its response arrives. -/
def ex_ops : List Op := [Op.set_max ex_sys 20, Op.send ex_send ex_line, Op.response 1]

/-- The history `ex_ops` leads to from the initial state. -/
def ex_hist : Hist := (Hist.run ex_ops (Hist.start initial)).getD (Hist.start initial)

/-- The state after the table is allocated and the query `a A` is sent: record 0 is in
use with id 1. -/
def ex_sent : State :=
  ((Hist.run [Op.set_max ex_sys 20, Op.send ex_send ex_line] (Hist.start initial)).getD
    (Hist.start initial)).g

/-- Whether a call is a call of `send_query`. -/
def Op.is_send : Op → Bool
  | Op.send _ _ => true
  | _ => false

/-- A history around a state, for calls that follow it. -/
def Hist.around (g : State) : Hist :=
  { g := g, matched := 0, registered := 0, calls := 0, born := [] }

/-- Whether id `X` is admitted in a sequence of calls: one of its calls of `send_query`
registers a query under id `X`. -/
def Hist.admits (X : Nat) : List Op → Hist → Bool
  | [], _ => false
  | op :: ops, h =>
    (match op with
     | Op.send env line =>
       match send_query env line h.g with
       | some (SendOutcome.registered, g) => decide (g.use_query_id = X)
       | _ => false
     | _ => false) ||
    match Hist.step op h with
    | none => false
    | some h1 => Hist.admits X ops h1

/-- Calls that follow the release of a query: two queries are sent, the directive
`#maxwait 9` is read, and the response with id 2 arrives. -/
def c8_ops : List Op :=
  [Op.send ex_send ex_line, Op.send ex_send ex_line,
   Op.config ex_sys ['#', 'm', 'a', 'x', 'w', 'a', 'i', 't', ' ', '9', NEWLINE],
   Op.response 2]

/-- The history `c8_ops` leads to after the response with id 1 has released record 0 of
`ex_sent`. -/
def c8_late : Hist :=
  (Hist.run c8_ops (Hist.around (register_response 1 ex_sent).2)).getD (Hist.around ex_sent)

/-- The history `c8_ops` leads to after the timeout at second 105 has released record 0 of
`ex_sent`. -/
def c8_retired : Hist :=
  (Hist.run c8_ops (Hist.around (retire_old_queries ⟨105, 0⟩ ex_sent))).getD
    (Hist.around ex_sent)

/-- A history: the table is allocated, three queries are sent, the first two are
answered, and at second 105 the third has timed out. -/
def c21_ops : List Op :=
  [Op.set_max ex_sys 20, Op.send ex_send ex_line, Op.send ex_send ex_line,
   Op.send ex_send ex_line, Op.response 1, Op.response 2, Op.retire ⟨105, 0⟩]

/-- The state `c21_ops` leads to from the initial state: 3 queries sent, 1 timed out. -/
def c21_third : State :=
  ((Hist.run c21_ops (Hist.start initial)).getD (Hist.start initial)).g

/-- The state `c21_third` with the counters of a run in which 4000 queries were sent and 3
of them timed out. -/
def c21_many : State :=
  { c21_third with num_queries_sent := 4000, num_queries_timed_out := 3 }

/-- What holds between a state of `main` whose stop latch is set and a later one: the
latch stays set, `got_eof`, the read position, `runs_through_file`, the limit, the id
counter and `num_queries_sent` keep their values, and no record was reserved. -/
structure Stopped (m m' : Main) : Prop where
  stop : m'.g.stop = true
  eof : m'.got_eof = m.got_eof
  unread : m'.g.unread = m.g.unread
  runs : m'.g.runs_through_file = m.g.runs_through_file
  limit : m'.g.max_queries_outstanding = m.g.max_queries_outstanding
  id : m'.g.use_query_id = m.g.use_query_id
  sent : m'.g.num_queries_sent = m.g.num_queries_sent
  kept : Kept m.g.status m'.g.status

/-- The state of `main` in the running phase with the stop latch set, at the test of the
outer loop, with the table of `ex_sent`. -/
def ex_stopped : Main :=
  { pc := Pc.outer, got_eof := true, input_line := [], g := { ex_sent with stop := true } }

/-- Answers of the outside world at second 101 with no datagram waiting. -/
def ex_env : Env := { now := ⟨101, 0⟩, sys := ex_sys, send := ex_send, data := none }

/-- An input of two queries followed by the directive `#maxqueries 1`. -/
def c4_file : List Char :=
  ['a', ' ', 'A', NEWLINE, 'b', ' ', 'A', NEWLINE,
   '#', 'm', 'a', 'x', 'q', 'u', 'e', 'r', 'i', 'e', 's', ' ', '1', NEWLINE]

/-- Library answers with `c4_file` on standard input. -/
def c4_sys : Sys := { ex_sys with stdin := c4_file }

/-- Answers of the outside world at second 100, no datagram waiting. -/
def c4_env : Env := { now := ⟨100, 0⟩, sys := c4_sys, send := ex_send, data := none }

/-- The run of `main` without options on `c4_file`: the test of the outer loop, then three
turns of the inner loop (two queries sent, the directive applied). -/
def c4_run : Option Main :=
  (main_enter ⟨100, 0⟩ c4_sys []).bind (run [c4_env, c4_env, c4_env, c4_env])

/-- What ties the ids in the table to the calls of `send_query` in a history: the id
counter is the number of calls modulo 65536, and every record in use was registered by a
call whose number `b` is recorded for it, holds the id `b % 65536`, and shares `b` with
no other record in use. -/
structure IdInv (h : Hist) : Prop where
  len : h.born.length = h.g.status.length
  cur : h.g.use_query_id = h.calls % 65536
  idb : ∀ (i : Nat) (q : query_status), h.g.status[i]? = some q → q.in_use = true →
    ∃ b, h.born[i]? = some b ∧ 1 ≤ b ∧ b ≤ h.calls ∧ q.id = b % 65536
  inj : ∀ (i j : Nat) (p q : query_status) (b : Nat), i ≠ j →
    h.g.status[i]? = some p → h.g.status[j]? = some q → p.in_use = true → q.in_use = true →
    h.born[i]? = some b → h.born[j]? ≠ some b

/-- A query line with one token only, which `parse_query` rejects. -/
def bad_line : List Char := ['x', NEWLINE]

/-- A history of 65537 calls of `send_query`: the table is allocated, the query `a A` is
sent, 65535 malformed lines follow, and `a A` is sent again. No response arrives and no
timeout is checked. -/
def c3_ops : List Op :=
  [Op.set_max ex_sys 20, Op.send ex_send ex_line]
    ++ (List.replicate 65535 (Op.send ex_send bad_line) ++ [Op.send ex_send ex_line])

/-- A history: the table is allocated and the query `a A` is sent twice. -/
def ex_two_ops : List Op :=
  [Op.set_max ex_sys 20, Op.send ex_send ex_line, Op.send ex_send ex_line]

/-- The history `ex_two_ops` leads to from the initial state. -/
def ex_two : Hist := (Hist.run ex_two_ops (Hist.start initial)).getD (Hist.start initial)

/-- Library answers with the single query line `a A` on standard input. -/
def run1_sys : Sys := { ex_sys with stdin := ex_line }

/-- Answers of the outside world at second 100, with what the socket holds. -/
def run1_env (data : Option (Option (List Nat))) : Env :=
  { now := ⟨100, 0⟩, sys := run1_sys, send := ex_send, data := data }

/-- A complete run of `main` without options on the input `a A`: the query is sent, end
of input is reached, a response with id 1 arrives, and the loop is left. -/
def run1_envs : List Env :=
  [run1_env none, run1_env none, run1_env none, run1_env none, run1_env none,
   run1_env (some (some [0, 1, 0, 0])), run1_env none, run1_env none, run1_env none]

/-- The state in which that run enters the loop. -/
def run1_start : Main := (main_enter ⟨100, 0⟩ run1_sys []).getD (main_start initial)

/-- The state in which that run ends. -/
def run1_end : Main := (run run1_envs run1_start).getD run1_start

/-- An input: the query `a A`, 65535 malformed lines, and the query `a A` again. -/
def c3_file : List Char := ex_line ++ ((List.replicate 65535 bad_line).flatten ++ ex_line)

/-- Library answers with `c3_file` on standard input. -/
def c3_sys : Sys := { ex_sys with stdin := c3_file }

/-- Answers of the outside world at second 100 for a run on `c3_file`, no datagram
waiting. -/
def c3_env : Env := { now := ⟨100, 0⟩, sys := c3_sys, send := ex_send, data := none }

/-- The state in which `main` without options enters the loop on `c3_file`. -/
def c3_m0 : Main := (main_enter ⟨100, 0⟩ c3_sys []).getD (main_start initial)

/-- Answers for the test of the outer loop and 65537 turns of the inner loop. -/
def c3_envs : List Env := c3_env :: c3_env :: (List.replicate 65535 c3_env ++ [c3_env])

/-- The globals after the first query of `c3_file` is sent. -/
def c3_g2 : State :=
  ((send_query ex_send ex_line
      { c3_m0.g with unread := (List.replicate 65535 bad_line).flatten ++ ex_line }).getD
    (SendOutcome.parse_error, c3_m0.g)).2

/-- The globals after the 65535 malformed lines are read and the last query of `c3_file`
is sent. -/
def c3_g4 : State :=
  ((send_query ex_send ex_line
      { c3_g2 with unread := [], use_query_id := (c3_g2.use_query_id + 65535) % 65536 }).getD
    (SendOutcome.parse_error, c3_m0.g)).2

/-- The options `-l 4294967291`. -/
def c11_opts : List (Char × List Char) :=
  [('l', ['4', '2', '9', '4', '9', '6', '7', '2', '9', '1'])]

/-- The state in which `main` enters the loop with the options `c11_opts` and the query
`a A` on standard input, the clock reading second 100. -/
def c11_m0 : Main := (main_enter ⟨100, 0⟩ run1_sys c11_opts).getD (main_start initial)

/-- The directive line `#maxqueries 3`. -/
def maxqueries_3 : List Char :=
  ['#', 'm', 'a', 'x', 'q', 'u', 'e', 'r', 'i', 'e', 's', ' ', '3', NEWLINE]

/-- The directive line `#maxqueries 99999999999999999999`, whose value is above
`ULONG_MAX`. -/
def c14_overflow : List Char :=
  ['#', 'm', 'a', 'x', 'q', 'u', 'e', 'r', 'i', 'e', 's', ' ',
   '9', '9', '9', '9', '9', '9', '9', '9', '9', '9',
   '9', '9', '9', '9', '9', '9', '9', '9', '9', '9', NEWLINE]

/-- The directive line `#port 80`. -/
def port_80 : List Char := ['#', 'p', 'o', 'r', 't', ' ', '8', '0', NEWLINE]

/-- The directive line `#maxwait 9`. -/
def maxwait_9 : List Char := ['#', 'm', 'a', 'x', 'w', 'a', 'i', 't', ' ', '9', NEWLINE]

/-- The globals after `main` without options has read the line `c14_overflow`. -/
def c14_g1 : State := (update_config ex_sys c14_overflow run1_start.g).getD run1_start.g

/-- A query line whose first token is 256 characters long and whose second token is the
type `A`. -/
def c15_line : List Char := List.replicate 256 'a' ++ [' ', 'A', NEWLINE]

/-- The query line `a a`, its type in lower case. -/
def lower_line : List Char := ['a', ' ', 'a', NEWLINE]

/-- A network that builds a 12 byte message for every query and whose `sendto` reports
5 bytes sent for every datagram. -/
def c17_net : Net :=
  { res_mkquery := fun _ _ => some (List.replicate 12 0)
    sendto := fun _ => 5 }

/-- Answers for a `send_query` at second 100 over the network `c17_net`. -/
def c17_send : SendEnv := { net := c17_net, now_first := ⟨100, 0⟩, now_sent := ⟨100, 0⟩ }

/-- The query line `example.com A extra`, of three tokens. -/
def c24_line : List Char :=
  ['e', 'x', 'a', 'm', 'p', 'l', 'e', '.', 'c', 'o', 'm', ' ', 'A', ' ',
   'e', 'x', 't', 'r', 'a', NEWLINE]

/-- The input `; note`, an empty line, and `example.com NS`. -/
def c25_file : List Char :=
  [';', ' ', 'n', 'o', 't', 'e', NEWLINE, NEWLINE,
   'e', 'x', 'a', 'm', 'p', 'l', 'e', '.', 'c', 'o', 'm', ' ', 'N', 'S', NEWLINE]

/-- The lines of `c25_file`. -/
def c25_lines : List (List Char) :=
  [[';', ' ', 'n', 'o', 't', 'e', NEWLINE], [NEWLINE],
   ['e', 'x', 'a', 'm', 'p', 'l', 'e', '.', 'c', 'o', 'm', ' ', 'N', 'S', NEWLINE]]

/-- Library answers with `c25_file` on standard input. -/
def c25_sys : Sys := { ex_sys with stdin := c25_file }

/-- Answers of the outside world at second 100 for a run on `c25_file`, with what the
socket holds. -/
def c25_env (data : Option (Option (List Nat))) : Env :=
  { now := ⟨100, 0⟩, sys := c25_sys, send := ex_send, data := data }

/-- The state in which `main` with the option `-1` enters the loop on `c25_file`. -/
def c25_m0 : Main := (main_enter ⟨100, 0⟩ c25_sys [('1', [])]).getD (main_start initial)

/-- A complete run on `c25_file`: the query is sent, end of input is reached, a response
with id 1 arrives, and the loop is left. -/
def c25_envs : List Env :=
  [c25_env none, c25_env none, c25_env none, c25_env none, c25_env none,
   c25_env (some (some [0, 1, 0, 0])), c25_env none, c25_env none, c25_env none]

/-- The state in which that run ends. -/
def c25_end : Main := (run c25_envs c25_m0).getD c25_m0

/-- The string `99999999999999999999`, a number above `ULONG_MAX`. -/
def c26_overflow : List Char :=
  ['9', '9', '9', '9', '9', '9', '9', '9', '9', '9',
   '9', '9', '9', '9', '9', '9', '9', '9', '9', '9']

/-- The state in which `main` enters the loop on the input `a A` with the options `-1`
and `-l 1`, the program started at second 100. -/
def c27_m0 : Main :=
  (main_enter ⟨100, 0⟩ run1_sys [('1', []), ('l', ['1'])]).getD (main_start initial)

/-- Answers of the outside world at second 106, no datagram waiting. -/
def c27_env : Env := { now := ⟨106, 0⟩, sys := run1_sys, send := ex_send, data := none }

/-- The state in which the run from `c27_m0` ends when the loop is first tested at second
106, after the time limit and its grace. -/
def c27_end : Main := (run [c27_env, c27_env] c27_m0).getD c27_m0

/-! ## Lemmas -/

theorem u32_pred (x : Nat) (h1 : 0 < x) (h2 : x < 2 ^ 32) : (x + 2 ^ 32 - 1) % 2 ^ 32 = x - 1 := by
  omega

theorem scan_length (id : Nat) (st : List query_status) :
    (register_response_scan id st).2.length = st.length := by
  induction st with
  | nil => rfl
  | cons q rest ih =>
    unfold register_response_scan
    split <;> simp [ih]

theorem scan_not_found (id : Nat) (st : List query_status)
    (h : (register_response_scan id st).1 = false) :
    (register_response_scan id st).2 = st ∧ ∀ q ∈ st, ¬ (q.in_use = true ∧ q.id = id) := by
  induction st with
  | nil => simp [register_response_scan]
  | cons q rest ih =>
    unfold register_response_scan at h ⊢
    split at h
    · simp at h
    · rename_i hq
      simp only at h
      have := ih h
      refine ⟨by rw [if_neg hq]; simp [this.1], ?_⟩
      intro x hx
      rcases List.mem_cons.mp hx with rfl | hx
      · exact hq
      · exact this.2 x hx

theorem scan_found_count (id : Nat) (st : List query_status)
    (h : (register_response_scan id st).1 = true) :
    in_use_count (register_response_scan id st).2 + 1 = in_use_count st := by
  induction st with
  | nil => simp [register_response_scan] at h
  | cons q rest ih =>
    unfold register_response_scan at h ⊢
    split
    · rename_i hq
      simp [in_use_count, List.countP_cons, hq.1]
    · rename_i hq
      rw [if_neg hq] at h
      have := ih h
      simp only [in_use_count, List.countP_cons] at this ⊢
      omega

theorem scan_found_iff (id : Nat) (st : List query_status) :
    (register_response_scan id st).1 = true ↔ ∃ q ∈ st, q.in_use = true ∧ q.id = id := by
  constructor
  · intro h
    induction st with
    | nil => simp [register_response_scan] at h
    | cons q rest ih =>
      unfold register_response_scan at h
      by_cases hq : q.in_use = true ∧ q.id = id
      · exact ⟨q, List.mem_cons_self _ _, hq⟩
      · rw [if_neg hq] at h
        obtain ⟨x, hx, hx2⟩ := ih h
        exact ⟨x, List.mem_cons_of_mem _ hx, hx2⟩
  · rintro ⟨q, hq, hq2⟩
    by_contra hn
    have hf : (register_response_scan id st).1 = false := by
      cases h : (register_response_scan id st).1 <;> simp_all
    exact (scan_not_found id st hf).2 q hq hq2

theorem scan_found_first (id : Nat) (st : List query_status) (i : Nat) (q : query_status)
    (hi : st[i]? = some q) (hq : q.in_use = true ∧ q.id = id)
    (hlow : ∀ j p, j < i → st[j]? = some p → ¬ (p.in_use = true ∧ p.id = id)) :
    register_response_scan id st = (true, st.set i { q with in_use := false }) := by
  induction st generalizing i with
  | nil => simp at hi
  | cons x rest ih =>
    unfold register_response_scan
    cases i with
    | zero =>
      simp at hi
      subst hi
      rw [if_pos hq]
      simp
    | succ k =>
      have hx : ¬ (x.in_use = true ∧ x.id = id) := hlow 0 x (Nat.succ_pos k) (by simp)
      rw [if_neg hx]
      have := ih k (by simpa using hi) (fun j p hj hp => hlow (j + 1) p (by omega) (by simpa using hp))
      rw [this]
      simp

theorem timed_out_in_use (now : timeval) (T : Nat) (q : query_status)
    (h : timed_out now T q = true) : q.in_use = true := by
  unfold timed_out at h
  split at h
  · rename_i hq; exact hq.1
  · simp at h

theorem retire_scan_table (now : timeval) (T : Nat) (st : List query_status) (o t : Nat) :
    (retire_scan now T st o t).1 = st.map (retire_slot now T) := by
  induction st generalizing o t with
  | nil => rfl
  | cons q rest ih =>
    unfold retire_scan
    split <;> rename_i hq
    · simp [ih, retire_slot, hq]
    · simp [ih, retire_slot, hq]

theorem retire_scan_timed (now : timeval) (T : Nat) (st : List query_status) (o t : Nat)
    (ht : t < 2 ^ 32) :
    (retire_scan now T st o t).2.2 = (t + st.countP (timed_out now T)) % 2 ^ 32 := by
  induction st generalizing o t with
  | nil => simp [retire_scan]; omega
  | cons q rest ih =>
    unfold retire_scan
    split <;> rename_i hq
    · simp only [List.countP_cons, hq, if_true]
      rw [ih _ _ (Nat.mod_lt _ (by norm_num))]
      omega
    · simp only [List.countP_cons, hq]
      rw [ih _ _ ht]
      simp

theorem retire_scan_outstanding (now : timeval) (T : Nat) (st : List query_status) (o t : Nat)
    (ho : o < 2 ^ 32) (hk : st.countP (timed_out now T) ≤ o) :
    (retire_scan now T st o t).2.1 = o - st.countP (timed_out now T) := by
  induction st generalizing o t with
  | nil => simp [retire_scan]
  | cons q rest ih =>
    unfold retire_scan
    split <;> rename_i hq
    · simp only [List.countP_cons, hq, if_true] at hk ⊢
      have h1 : (o + 2 ^ 32 - 1) % 2 ^ 32 = o - 1 := u32_pred o (by omega) ho
      rw [h1, ih _ _ (by omega) (by omega)]
      omega
    · simp only [List.countP_cons, hq] at hk ⊢
      rw [ih _ _ ho (by simpa using hk)]
      simp

theorem retire_count (now : timeval) (T : Nat) (st : List query_status) :
    in_use_count (st.map (retire_slot now T)) + st.countP (timed_out now T) = in_use_count st := by
  induction st with
  | nil => rfl
  | cons q rest ih =>
    simp only [in_use_count, List.map_cons, List.countP_cons] at ih ⊢
    by_cases hq : timed_out now T q = true
    · have hu := timed_out_in_use now T q hq
      have hs : (retire_slot now T q).in_use = false := by simp [retire_slot, hq]
      rw [hs, hq, hu]
      simp only [if_true, Bool.false_eq_true, if_false]
      omega
    · have hs : retire_slot now T q = q := by simp [retire_slot, hq]
      rw [hs, if_neg hq]
      omega

theorem slot_scan_spec (mx : Nat) (st : List query_status) (c n : Nat)
    (h : slot_scan mx st c = some n) :
    c ≤ n ∧ ∃ q, st[n - c]? = some q ∧ ¬ (q.in_use = true ∧ n < mx) ∧
      ∀ j p, j < n - c → st[j]? = some p → p.in_use = true := by
  induction st generalizing c with
  | nil => simp [slot_scan] at h
  | cons x rest ih =>
    unfold slot_scan at h
    split at h
    · rename_i hx
      obtain ⟨h1, q, h2, h3, h4⟩ := ih (c + 1) h
      refine ⟨by omega, q, ?_, h3, ?_⟩
      · have : n - c = (n - (c + 1)) + 1 := by omega
        rw [this]; simpa using h2
      · intro j p hj hp
        cases j with
        | zero => simp at hp; subst hp; exact hx.1
        | succ k => exact h4 k p (by omega) (by simpa using hp)
    · rename_i hx
      simp at h
      subst h
      refine ⟨le_refl _, x, by simp, hx, ?_⟩
      intro j p hj; omega

/-- What a call of `send_query` that registers a query does to the table. -/
theorem send_query_spec (env : SendEnv) (line : List Char) (s t : State) (o : SendOutcome)
    (h : send_query env line s = some (o, t)) :
    t.use_query_id = (s.use_query_id + 1) % 65536 ∧
    t.max_queries_outstanding = s.max_queries_outstanding ∧
    t.num_queries_timed_out = s.num_queries_timed_out ∧
    t.stop = s.stop ∧ t.runs_through_file = s.runs_through_file ∧ t.unread = s.unread ∧
    ((o ≠ SendOutcome.registered ∧ t.status = s.status ∧
        t.num_queries_sent = s.num_queries_sent ∧
        t.num_queries_outstanding = s.num_queries_outstanding) ∨
     (o = SendOutcome.registered ∧
        t.num_queries_sent = (s.num_queries_sent + 1) % 2 ^ 32 ∧
        t.num_queries_outstanding = (s.num_queries_outstanding + 1) % 2 ^ 32 ∧
        ∃ count q, slot_scan s.max_queries_outstanding s.status 0 = some count ∧
          s.status[count]? = some q ∧ q.in_use = false ∧
          (∀ j p, j < count → s.status[j]? = some p → p.in_use = true) ∧
          t.status = s.status.set count
            { q with in_use := true, id := (s.use_query_id + 1) % 65536,
                     sent_timestamp := env.now_sent })) := by
  unfold send_query at h
  simp only at h
  split at h
  · simp at h
    obtain ⟨rfl, rfl⟩ := h
    simp
  · split at h
    · simp at h
      obtain ⟨rfl, rfl⟩ := h
      simp
    · split at h
      · simp at h
      · rename_i count hscan
        split at h
        · simp at h
        · rename_i q hq
          split at h
          · simp at h
            obtain ⟨rfl, rfl⟩ := h
            split <;> simp
          · rename_i hfree
            simp at h
            obtain ⟨rfl, rfl⟩ := h
            have hscan' : slot_scan s.max_queries_outstanding s.status 0 = some count := by
              revert hscan; split <;> simp
            have hq' : s.status[count]? = some q := by
              revert hq; split <;> simp
            obtain ⟨_, q', h2, _, h4⟩ := slot_scan_spec _ _ _ _ hscan'
            refine ⟨?_, ?_, ?_, ?_, ?_, ?_, Or.inr ⟨rfl, ?_, ?_, count, q, hscan', hq', by simpa using hfree, h4, ?_⟩⟩
            all_goals (split <;> simp)

theorem WF_congr (s t : State) (h : WF s) (h1 : t.status = s.status)
    (h2 : t.max_queries_outstanding = s.max_queries_outstanding)
    (h3 : t.num_queries_outstanding = s.num_queries_outstanding)
    (h4 : t.num_queries_sent = s.num_queries_sent)
    (h5 : t.num_queries_timed_out = s.num_queries_timed_out) : WF t :=
  ⟨by rw [h1]; exact h.cap, by rw [h1, h2]; exact h.lim, by rw [h1, h3]; exact h.out,
   by rw [h4]; exact h.sent, by rw [h5]; exact h.timed⟩

theorem in_use_count_le (st : List query_status) : in_use_count st ≤ st.length :=
  List.countP_le_length _

theorem fresh_slots_length (sys : Sys) (a b : Nat) : (fresh_slots sys a b).length = b - a := by
  simp [fresh_slots]

theorem fresh_slots_free (sys : Sys) (a b : Nat) : ∀ q ∈ fresh_slots sys a b, q.in_use = false := by
  intro q hq
  simp [fresh_slots] at hq
  obtain ⟨i, _, rfl⟩ := hq
  rfl

theorem fresh_slots_count (sys : Sys) (a b : Nat) : in_use_count (fresh_slots sys a b) = 0 := by
  unfold in_use_count
  rw [List.countP_eq_zero]
  intro q hq
  simp [fresh_slots_free sys a b q hq]

/-- The two defined results of `set_max_queries`: the failure of `realloc`, which changes
nothing, and the success, for a limit within the table or a byte count that does not
wrap. -/
theorem set_max_queries_cases (sys : Sys) (n : Nat) (s : State) (r : Int × State)
    (h : set_max_queries sys n s = some r) :
    (r = (-1, s) ∧ sys.realloc_ok = false ∧ s.status.length < n) ∨
    (r = (0, { s with status := s.status ++ fresh_slots sys s.status.length n,
                      max_queries_outstanding := n }) ∧
      (n ≤ s.status.length ∨ n * size_qs < 2 ^ 32)) := by
  unfold set_max_queries State.query_status_allocated at h
  rw [if_neg (Nat.not_lt_zero n)] at h
  by_cases hgt : n > s.status.length
  · rw [if_pos hgt] at h
    simp only at h
    by_cases hz : n * size_qs % 2 ^ 32 = 0
    · rw [if_pos hz] at h
      exact absurd h (by simp)
    · rw [if_neg hz] at h
      by_cases hr : sys.realloc_ok = false
      · rw [if_pos hr] at h
        simp only [Option.some.injEq] at h
        exact Or.inl ⟨h.symm, hr, hgt⟩
      · rw [if_neg hr] at h
        by_cases hw : n * size_qs % 2 ^ 32 < n * size_qs
        · rw [if_pos hw] at h
          exact absurd h (by simp)
        · rw [if_neg hw] at h
          simp only [Option.some.injEq] at h
          refine Or.inr ⟨h.symm, Or.inr ?_⟩
          have := Nat.mod_lt (n * size_qs) (show 0 < 2 ^ 32 by norm_num)
          omega
  · rw [if_neg hgt] at h
    simp only [Option.some.injEq] at h
    right
    refine ⟨?_, Or.inl (by omega)⟩
    rw [← h]
    have : fresh_slots sys s.status.length n = [] := by
      have := fresh_slots_length sys s.status.length n
      apply List.eq_nil_of_length_eq_zero
      omega
    rw [this]; simp

/-- A call of `set_max_queries` has a defined result when the limit is within the table or
the byte count does not wrap. -/
theorem set_max_queries_defined (sys : Sys) (n : Nat) (s : State)
    (h : n ≤ s.status.length ∨ n * size_qs < 2 ^ 32) :
    ∃ r, set_max_queries sys n s = some r := by
  unfold set_max_queries State.query_status_allocated
  rw [if_neg (Nat.not_lt_zero n)]
  by_cases hgt : n > s.status.length
  · rw [if_pos hgt]
    have hlt : n * size_qs < 2 ^ 32 := by
      rcases h with h | h
      · omega
      · exact h
    have hmod : n * size_qs % 2 ^ 32 = n * size_qs := Nat.mod_eq_of_lt hlt
    have hpos : ¬ n * size_qs = 0 := by
      unfold size_qs
      omega
    simp only [hmod, if_neg hpos, lt_self_iff_false, if_false]
    split <;> exact ⟨_, rfl⟩
  · rw [if_neg hgt]
    exact ⟨_, rfl⟩

/-- A call of `set_max_queries` within the capacity, or above it with a byte count that
does not wrap and a `realloc` that succeeds, returns 0 with the table extended and the
limit set. -/
theorem set_max_queries_ok (sys : Sys) (n : Nat) (s : State)
    (h : n ≤ s.status.length ∨ (n * size_qs < 2 ^ 32 ∧ sys.realloc_ok = true)) :
    set_max_queries sys n s
      = some (0, { s with status := s.status ++ fresh_slots sys s.status.length n,
                          max_queries_outstanding := n }) := by
  have hd : n ≤ s.status.length ∨ n * size_qs < 2 ^ 32 := by
    rcases h with h | h
    · exact Or.inl h
    · exact Or.inr h.1
  obtain ⟨r, hr⟩ := set_max_queries_defined sys n s hd
  rcases set_max_queries_cases sys n s r hr with ⟨_, h2, h3⟩ | ⟨h2, _⟩
  · rcases h with h | h
    · exact absurd h (by omega)
    · rw [h.2] at h2
      exact absurd h2 (by decide)
  · rw [h2] at hr
    exact hr

theorem set_max_queries_WF (sys : Sys) (n : Nat) (s : State) (r : Int × State) (h : WF s)
    (hn : n < 2 ^ 32) (hr : set_max_queries sys n s = some r) : WF r.2 := by
  rcases set_max_queries_cases sys n s r hr with ⟨h2, _⟩ | ⟨h2, _⟩
  · rw [h2]; exact h
  · rw [h2]
    have hl := fresh_slots_length sys s.status.length n
    refine ⟨?_, ?_, ?_, ?_, ?_⟩
    · simp only [List.length_append, hl]; have := h.cap; omega
    · simp only [List.length_append, hl]; omega
    · simp only [in_use_count, List.countP_append]
      have := fresh_slots_count sys s.status.length n
      simp only [in_use_count] at this
      rw [this, h.out]; rfl
    · exact h.sent
    · exact h.timed

theorem is_uint_true (str : List Char) (r : Nat) (e : Int) (h : (is_uint str r e).1 = true) :
    (is_uint str r e).2.1 ≤ UINT_MAX := by
  unfold is_uint at h ⊢
  split at h
  · simp at h
  · split at h
    · simp at h
    · rename_i hd
      rw [if_neg hd]
      simp only at h ⊢
      split at h
      · simp at h
      · rename_i hc
        rw [if_neg hc]
        simp only
        push_neg at hc
        omega

/-- Case principle for the `switch` of `update_config`: the state it returns is the old
state, or the result of one of the four setters on the old state with `errno` as `is_uint`
left it. -/
theorem update_config_switch_ind (sys : Sys) (d : Int) (v : List Char) (s t : State)
    (P : State → Prop)
    (h0 : P s) (h1 : ∀ v, P (set_server sys v s).2) (h2 : ∀ e, P { s with errno := e })
    (h3 : ∀ e v, 0 < v → P (set_server_port v { s with errno := e }).2)
    (h4 : ∀ e v r, 0 < v → v ≤ UINT_MAX →
      set_max_queries sys v { s with errno := e } = some r → P r.2)
    (h5 : ∀ e v, 0 < v → P { s with errno := e, query_timeout := v })
    (ht : update_config_switch sys d v s = some t) : P t := by
  unfold update_config_switch at ht
  split at ht
  · split at ht
    · simp only [Option.some.injEq] at ht; subst ht; exact h0
    · simp only [Option.some.injEq] at ht; subst ht; exact h1 _
  · split at ht
    · split at ht
      · simp only [Option.some.injEq] at ht; subst ht; exact h0
      · simp only at ht
        split at ht
        · rename_i hv
          simp only [Option.some.injEq] at ht; subst ht
          exact h3 _ _ hv.2
        · simp only [Option.some.injEq] at ht; subst ht; exact h2 _
    · split at ht
      · split at ht
        · simp only [Option.some.injEq] at ht; subst ht; exact h0
        · simp only at ht
          split at ht
          · rename_i hv
            cases hr : set_max_queries sys (is_uint v 0 s.errno).2.1
                { s with errno := (is_uint v 0 s.errno).2.2 } with
            | none =>
              rw [hr] at ht
              exact absurd ht (by simp)
            | some r =>
              rw [hr] at ht
              simp only [Option.map_some', Option.some.injEq] at ht
              subst ht
              exact h4 _ _ r hv.2 (is_uint_true _ _ _ hv.1) hr
          · simp only [Option.some.injEq] at ht; subst ht; exact h2 _
      · split at ht
        · split at ht
          · simp only [Option.some.injEq] at ht; subst ht; exact h0
          · simp only at ht
            split at ht
            · rename_i hv
              simp only [Option.some.injEq] at ht; subst ht
              exact h5 _ _ hv.2
            · simp only [Option.some.injEq] at ht; subst ht; exact h2 _
        · simp only [Option.some.injEq] at ht; subst ht; exact h0

theorem update_config_ind (sys : Sys) (line : List Char) (s t : State) (P : State → Prop)
    (h0 : P s) (h1 : ∀ v, P (set_server sys v s).2) (h2 : ∀ e, P { s with errno := e })
    (h3 : ∀ e v, 0 < v → P (set_server_port v { s with errno := e }).2)
    (h4 : ∀ e v r, 0 < v → v ≤ UINT_MAX →
      set_max_queries sys v { s with errno := e } = some r → P r.2)
    (h5 : ∀ e v, 0 < v → P { s with errno := e, query_timeout := v })
    (ht : update_config sys line s = some t) : P t := by
  unfold update_config at ht
  split at ht
  · simp only [Option.some.injEq] at ht; subst ht; exact h0
  · split at ht
    · simp only [Option.some.injEq] at ht; subst ht; exact h0
    · split at ht
      · simp only [Option.some.injEq] at ht; subst ht; exact h0
      · split at ht
        · simp only [Option.some.injEq] at ht; subst ht; exact h0
        · simp only at ht
          split at ht
          · simp only [Option.some.injEq] at ht; subst ht; exact h0
          · split at ht
            · simp only [Option.some.injEq] at ht; subst ht; exact h0
            · split at ht
              · simp only [Option.some.injEq] at ht; subst ht; exact h0
              · exact update_config_switch_ind sys _ _ s t P h0 h1 h2 h3 h4 h5 ht

/-- The function `update_config` has no defined result only through a call of
`set_max_queries` that has none: on a `maxqueries` directive with a value that
`is_uint` accepts. -/
theorem update_config_none (sys : Sys) (line : List Char) (s : State)
    (h : update_config sys line s = none) :
    ∃ v e, 0 < v ∧ v ≤ UINT_MAX ∧ set_max_queries sys v { s with errno := e } = none := by
  unfold update_config at h
  split at h
  · exact absurd h (by simp)
  · split at h
    · exact absurd h (by simp)
    · split at h
      · exact absurd h (by simp)
      · split at h
        · exact absurd h (by simp)
        · simp only at h
          split at h
          · exact absurd h (by simp)
          · split at h
            · exact absurd h (by simp)
            · split at h
              · exact absurd h (by simp)
              · unfold update_config_switch at h
                split at h
                · split at h <;> exact absurd h (by simp)
                · split at h
                  · split at h
                    · exact absurd h (by simp)
                    · simp only at h
                      split at h <;> exact absurd h (by simp)
                  · split at h
                    · split at h
                      · exact absurd h (by simp)
                      · simp only at h
                        split at h
                        · rename_i hv
                          have h' := Option.map_eq_none'.mp h
                          exact ⟨_, _, hv.2, is_uint_true _ _ _ hv.1, h'⟩
                        · exact absurd h (by simp)
                    · split at h
                      · split at h
                        · exact absurd h (by simp)
                        · simp only at h
                          split at h <;> exact absurd h (by simp)
                      · exact absurd h (by simp)

theorem set_server_frame (sys : Sys) (v : List Char) (s : State) :
    (set_server sys v s).2.status = s.status ∧
    (set_server sys v s).2.max_queries_outstanding = s.max_queries_outstanding ∧
    (set_server sys v s).2.num_queries_outstanding = s.num_queries_outstanding ∧
    (set_server sys v s).2.num_queries_sent = s.num_queries_sent ∧
    (set_server sys v s).2.num_queries_timed_out = s.num_queries_timed_out ∧
    (set_server sys v s).2.stop = s.stop ∧
    (set_server sys v s).2.use_query_id = s.use_query_id := by
  unfold set_server
  split
  · simp
  · split
    · simp
    · split
      · simp
      · split <;> simp

theorem set_server_port_frame (v : Nat) (s : State) :
    (set_server_port v s).2.status = s.status ∧
    (set_server_port v s).2.max_queries_outstanding = s.max_queries_outstanding ∧
    (set_server_port v s).2.num_queries_outstanding = s.num_queries_outstanding ∧
    (set_server_port v s).2.num_queries_sent = s.num_queries_sent ∧
    (set_server_port v s).2.num_queries_timed_out = s.num_queries_timed_out ∧
    (set_server_port v s).2.stop = s.stop ∧
    (set_server_port v s).2.use_query_id = s.use_query_id := by
  unfold set_server_port
  split <;> simp

theorem set_datafile_frame (sys : Sys) (v : List Char) (s : State) :
    (set_datafile sys v s).2.status = s.status ∧
    (set_datafile sys v s).2.max_queries_outstanding = s.max_queries_outstanding ∧
    (set_datafile sys v s).2.num_queries_outstanding = s.num_queries_outstanding ∧
    (set_datafile sys v s).2.num_queries_sent = s.num_queries_sent ∧
    (set_datafile sys v s).2.num_queries_timed_out = s.num_queries_timed_out ∧
    (set_datafile sys v s).2.stop = s.stop ∧
    (set_datafile sys v s).2.use_query_id = s.use_query_id := by
  unfold set_datafile
  split
  · simp
  · split <;> simp

theorem set_max_queries_frame (sys : Sys) (n : Nat) (s : State) (r : Int × State)
    (hr : set_max_queries sys n s = some r) :
    r.2.num_queries_outstanding = s.num_queries_outstanding ∧
    r.2.num_queries_sent = s.num_queries_sent ∧
    r.2.num_queries_timed_out = s.num_queries_timed_out ∧
    r.2.stop = s.stop ∧
    r.2.use_query_id = s.use_query_id ∧
    r.2.runs_through_file = s.runs_through_file ∧
    r.2.unread = s.unread := by
  rcases set_max_queries_cases sys n s r hr with ⟨h2, _⟩ | ⟨h2, _⟩ <;> rw [h2] <;> simp

theorem update_config_WF (sys : Sys) (line : List Char) (s t : State) (h : WF s)
    (ht : update_config sys line s = some t) : WF t := by
  apply update_config_ind sys line s t WF h ?_ ?_ ?_ ?_ ?_ ht
  · intro v
    have := set_server_frame sys v s
    exact WF_congr s _ h this.1 this.2.1 this.2.2.1 this.2.2.2.1 this.2.2.2.2.1
  · intro e; exact WF_congr s _ h rfl rfl rfl rfl rfl
  · intro e v _
    have := set_server_port_frame v { s with errno := e }
    exact WF_congr s _ h this.1 this.2.1 this.2.2.1 this.2.2.2.1 this.2.2.2.2.1
  · intro e v r _ hv hr
    exact set_max_queries_WF sys v { s with errno := e } r
      (WF_congr s _ h rfl rfl rfl rfl rfl) (by unfold UINT_MAX at hv; omega) hr
  · intro e v _; exact WF_congr s _ h rfl rfl rfl rfl rfl

theorem initial_WF : WF initial :=
  ⟨by simp [initial], by simp [initial], by simp [initial, in_use_count], by simp [initial],
   by simp [initial]⟩

theorem in_use_count_set_true (st : List query_status) (i : Nat) (q q' : query_status)
    (h : st[i]? = some q) (hq : q.in_use = false) (hq' : q'.in_use = true) :
    in_use_count (st.set i q') = in_use_count st + 1 := by
  induction st generalizing i with
  | nil => simp at h
  | cons x rest ih =>
    cases i with
    | zero =>
      simp at h
      subst h
      simp [in_use_count, List.countP_cons, hq, hq']
    | succ k =>
      have := ih k (by simpa using h)
      simp only [in_use_count, List.set_cons_succ, List.countP_cons] at this ⊢
      omega

theorem send_query_WF (env : SendEnv) (line : List Char) (s t : State) (o : SendOutcome)
    (hs : WF s) (h : send_query env line s = some (o, t)) : WF t := by
  obtain ⟨_, hmax, htim, _, _, _, hc⟩ := send_query_spec env line s t o h
  rcases hc with ⟨_, h1, h2, h3⟩ | ⟨_, h2, h3, count, q, _, hq, hfree, _, hst⟩
  · exact WF_congr s t hs h1 hmax h3 h2 htim
  · have hcnt := in_use_count_set_true s.status count q
      { q with in_use := true, id := (s.use_query_id + 1) % 65536, sent_timestamp := env.now_sent }
      hq hfree rfl
    have hle := in_use_count_le (s.status.set count
      { q with in_use := true, id := (s.use_query_id + 1) % 65536, sent_timestamp := env.now_sent })
    rw [List.length_set] at hle
    have hcap := hs.cap
    refine ⟨?_, ?_, ?_, ?_, ?_⟩
    · rw [hst, List.length_set]; exact hcap
    · rw [hst, List.length_set, hmax]; exact hs.lim
    · rw [h3, hst, hcnt, hs.out]
      apply Nat.mod_eq_of_lt
      omega
    · rw [h2]; exact Nat.mod_lt _ (by norm_num)
    · rw [htim]; exact hs.timed

theorem register_response_spec (id : Nat) (s : State) :
    ((register_response id s).1 = false ∧ (register_response id s).2 = s ∧
        ∀ q ∈ s.status, ¬ (q.in_use = true ∧ q.id = id)) ∨
    ((register_response id s).1 = true ∧ (register_response_scan id s.status).1 = true ∧
      (register_response id s).2 =
        { s with status := (register_response_scan id s.status).2,
                 num_queries_outstanding := (s.num_queries_outstanding + 2 ^ 32 - 1) % 2 ^ 32 }) := by
  unfold register_response
  simp only
  by_cases h : (register_response_scan id s.status).1 = true
  · rw [if_pos h]; exact Or.inr ⟨rfl, h, rfl⟩
  · rw [if_neg h]
    have hf : (register_response_scan id s.status).1 = false := by simpa using h
    exact Or.inl ⟨rfl, rfl, (scan_not_found id s.status hf).2⟩

theorem count_pos_of_found (id : Nat) (st : List query_status)
    (h : (register_response_scan id st).1 = true) : 0 < in_use_count st := by
  have := scan_found_count id st h
  omega

theorem register_response_WF (id : Nat) (s : State) (hs : WF s) : WF (register_response id s).2 := by
  rcases register_response_spec id s with ⟨_, h2, _⟩ | ⟨_, hf, h2⟩
  · rw [h2]; exact hs
  · rw [h2]
    have hc := scan_found_count id s.status hf
    have hl := scan_length id s.status
    have hle := in_use_count_le s.status
    have hcap := hs.cap
    have hout := hs.out
    refine ⟨?_, ?_, ?_, hs.sent, hs.timed⟩
    · simp only [hl]; exact hcap
    · simp only [hl]; exact hs.lim
    · simp only
      rw [u32_pred _ (by omega) (by omega)]
      omega

theorem process_single_response_WF (recv : Option (List Nat)) (s : State) (hs : WF s) :
    WF (process_single_response recv s) := by
  unfold process_single_response
  split
  · exact hs
  · exact register_response_WF _ s hs

theorem timed_out_count_le (now : timeval) (T : Nat) (st : List query_status) :
    st.countP (timed_out now T) ≤ in_use_count st := by
  have := retire_count now T st
  omega

theorem retire_old_queries_spec (now : timeval) (s : State) (hs : WF s) :
    retire_old_queries now s =
      { s with status := s.status.map (retire_slot now s.query_timeout),
               num_queries_outstanding :=
                 s.num_queries_outstanding - s.status.countP (timed_out now s.query_timeout),
               num_queries_timed_out :=
                 (s.num_queries_timed_out + s.status.countP (timed_out now s.query_timeout))
                   % 2 ^ 32 } := by
  unfold retire_old_queries
  simp only
  have hk := timed_out_count_le now s.query_timeout s.status
  have hle := in_use_count_le s.status
  have hcap := hs.cap
  have hout := hs.out
  rw [retire_scan_table, retire_scan_timed _ _ _ _ _ hs.timed,
    retire_scan_outstanding _ _ _ _ _ (by omega) (by omega)]

theorem retire_old_queries_WF (now : timeval) (s : State) (hs : WF s) :
    WF (retire_old_queries now s) := by
  have hk := timed_out_count_le now s.query_timeout s.status
  have hc := retire_count now s.query_timeout s.status
  have hout := hs.out
  rw [retire_old_queries_spec now s hs]
  refine ⟨?_, ?_, ?_, hs.sent, Nat.mod_lt _ (by norm_num)⟩
  · simpa using hs.cap
  · simpa using hs.lim
  · show s.num_queries_outstanding - List.countP (timed_out now s.query_timeout) s.status
      = in_use_count (List.map (retire_slot now s.query_timeout) s.status)
    omega

theorem keep_sending_frame (now : timeval) (eof : Bool) (s : State) :
    (keep_sending now eof s).2.2.status = s.status ∧
    (keep_sending now eof s).2.2.max_queries_outstanding = s.max_queries_outstanding ∧
    (keep_sending now eof s).2.2.num_queries_outstanding = s.num_queries_outstanding ∧
    (keep_sending now eof s).2.2.num_queries_sent = s.num_queries_sent ∧
    (keep_sending now eof s).2.2.num_queries_timed_out = s.num_queries_timed_out ∧
    (keep_sending now eof s).2.2.use_query_id = s.use_query_id := by
  unfold keep_sending
  split
  · simp
  · split
    · simp
    · split <;> simp

theorem next_input_line_frame (line : List Char) (n : Nat) (s : State) :
    ∃ u, (next_input_line line n s).2.2 = { s with unread := u } := by
  unfold next_input_line
  simp only
  split <;> exact ⟨_, rfl⟩

theorem Kept_refl (st : List query_status) : Kept st st :=
  ⟨le_refl _, fun _ _ h _ => h⟩

theorem Kept_trans {a b c : List query_status} (h1 : Kept a b) (h2 : Kept b c) : Kept a c :=
  ⟨le_trans h1.1 h2.1, fun i q hq hu => h1.2 i q (h2.2 i q hq hu) hu⟩

theorem Kept_append (st ext : List query_status) (h : ∀ q ∈ ext, q.in_use = false) :
    Kept st (st ++ ext) := by
  refine ⟨by simp, ?_⟩
  intro i q hq hu
  by_cases hi : i < st.length
  · rwa [List.getElem?_append_left hi] at hq
  · rw [List.getElem?_append_right (by omega)] at hq
    have := h q (List.mem_iff_getElem?.mpr ⟨_, hq⟩)
    rw [this] at hu
    exact absurd hu (by simp)

theorem Kept_scan (id : Nat) (st : List query_status) :
    Kept st (register_response_scan id st).2 := by
  refine ⟨by rw [scan_length], ?_⟩
  induction st with
  | nil => intro i q hq; simp [register_response_scan] at hq
  | cons x rest ih =>
    intro i q hq hu
    unfold register_response_scan at hq
    split at hq
    · cases i with
      | zero => simp at hq; subst hq; simp at hu
      | succ k => simpa using hq
    · cases i with
      | zero => simpa using hq
      | succ k =>
        simp at hq
        simpa using ih k q hq hu

theorem Kept_retire (now : timeval) (T : Nat) (st : List query_status) :
    Kept st (st.map (retire_slot now T)) := by
  refine ⟨by simp, ?_⟩
  intro i q hq hu
  rw [List.getElem?_map] at hq
  cases hx : st[i]? with
  | none => rw [hx] at hq; simp at hq
  | some x =>
    rw [hx] at hq
    simp at hq
    subst hq
    unfold retire_slot at hu ⊢
    split at hu
    · simp at hu
    · rename_i hn; rw [if_neg hn]

theorem set_max_queries_Kept (sys : Sys) (n : Nat) (s : State) (r : Int × State)
    (hr : set_max_queries sys n s = some r) : Kept s.status r.2.status := by
  rcases set_max_queries_cases sys n s r hr with ⟨h2, _⟩ | ⟨h2, _⟩
  · rw [h2]; exact Kept_refl _
  · rw [h2]; exact Kept_append _ _ (fresh_slots_free sys _ _)

theorem update_config_Kept (sys : Sys) (line : List Char) (s t : State)
    (ht : update_config sys line s = some t) : Kept s.status t.status := by
  apply update_config_ind sys line s t (fun t => Kept s.status t.status) (Kept_refl _)
    ?_ ?_ ?_ ?_ ?_ ht
  · intro v; rw [(set_server_frame sys v s).1]; exact Kept_refl _
  · intro e; exact Kept_refl _
  · intro e v _; rw [(set_server_port_frame v _).1]; exact Kept_refl _
  · intro e v r _ _ hr; exact set_max_queries_Kept sys v { s with errno := e } r hr
  · intro e v _; exact Kept_refl _

theorem register_response_Kept (id : Nat) (s : State) :
    Kept s.status (register_response id s).2.status := by
  rcases register_response_spec id s with ⟨_, h2, _⟩ | ⟨_, _, h2⟩
  · rw [h2]; exact Kept_refl _
  · rw [h2]; exact Kept_scan id s.status

theorem retire_old_queries_Kept (now : timeval) (s : State) :
    Kept s.status (retire_old_queries now s).status := by
  unfold retire_old_queries
  simp only
  rw [retire_scan_table]
  exact Kept_retire now _ _

theorem update_config_frame (sys : Sys) (line : List Char) (s t : State)
    (ht : update_config sys line s = some t) :
    t.num_queries_outstanding = s.num_queries_outstanding ∧
    t.num_queries_sent = s.num_queries_sent ∧
    t.num_queries_timed_out = s.num_queries_timed_out ∧
    t.stop = s.stop ∧
    t.use_query_id = s.use_query_id ∧
    t.runs_through_file = s.runs_through_file ∧
    t.unread = s.unread := by
  apply update_config_ind sys line s t
    (fun t => t.num_queries_outstanding = s.num_queries_outstanding ∧
      t.num_queries_sent = s.num_queries_sent ∧
      t.num_queries_timed_out = s.num_queries_timed_out ∧ t.stop = s.stop ∧
      t.use_query_id = s.use_query_id ∧ t.runs_through_file = s.runs_through_file ∧
      t.unread = s.unread) ?_ ?_ ?_ ?_ ?_ ?_ ht
  · simp
  · intro v
    unfold set_server
    split
    · simp
    · split
      · simp
      · split
        · simp
        · split <;> simp
  · intro e; simp
  · intro e v _
    unfold set_server_port
    split <;> simp
  · intro e v r _ _ hr
    exact set_max_queries_frame sys v { s with errno := e } r hr
  · intro e v _; simp

/-- A call of `set_max_queries` in a history that has a defined result. -/
theorem hist_step_set_max (sys : Sys) (n : Nat) (h h' : Hist)
    (hs : Hist.step (Op.set_max sys n) h = some h') :
    ∃ r, set_max_queries sys (n % 2 ^ 32) h.g = some r ∧
      h' = { h with g := r.2, born := pad h.born r.2.status.length } := by
  simp only [Hist.step] at hs
  split at hs
  · exact absurd hs (by simp)
  · rename_i r hr
    simp only [Option.some.injEq] at hs
    exact ⟨r, hr, hs.symm⟩

/-- A call of `update_config` in a history that has a defined result. -/
theorem hist_step_config (sys : Sys) (line : List Char) (h h' : Hist)
    (hs : Hist.step (Op.config sys line) h = some h') :
    ∃ g, update_config sys line h.g = some g ∧
      h' = { h with g := g, born := pad h.born g.status.length } := by
  simp only [Hist.step] at hs
  split at hs
  · exact absurd hs (by simp)
  · rename_i g hg
    simp only [Option.some.injEq] at hs
    exact ⟨g, hg, hs.symm⟩

theorem hist_step_acct (op : Op) (h h' : Hist) (hw : WF h.g) (ha : Acct h)
    (hs : Hist.step op h = some h') :
    WF h'.g ∧ Acct h' ∧ h.registered ≤ h'.registered := by
  cases op with
  | set_max sys n =>
    obtain ⟨r, hr0, rfl⟩ := hist_step_set_max sys n h h' hs
    have hf := set_max_queries_frame sys (n % 2 ^ 32) h.g r hr0
    refine ⟨set_max_queries_WF sys _ h.g r hw (Nat.mod_lt _ (by norm_num)) hr0, ?_, le_refl _⟩
    intro hr
    have := ha hr
    simp only [hf.1, hf.2.1, hf.2.2.1]
    exact this
  | config sys line =>
    obtain ⟨g, hg, rfl⟩ := hist_step_config sys line h h' hs
    have hf := update_config_frame sys line h.g g hg
    refine ⟨update_config_WF sys line h.g g hw hg, ?_, le_refl _⟩
    intro hr
    have := ha hr
    simp only [hf.1, hf.2.1, hf.2.2.1]
    exact this
  | keep now eof =>
    simp only [Hist.step, Option.some.injEq] at hs
    subst hs
    have hf := keep_sending_frame now eof h.g
    refine ⟨WF_congr h.g _ hw hf.1 hf.2.1 hf.2.2.1 hf.2.2.2.1 hf.2.2.2.2.1, ?_, le_refl _⟩
    intro hr
    have := ha hr
    simp only [hf.2.2.1, hf.2.2.2.1, hf.2.2.2.2.1]
    exact this
  | input line n =>
    simp only [Hist.step, Option.some.injEq] at hs
    subst hs
    obtain ⟨u, hu⟩ := next_input_line_frame line n h.g
    simp only [hu]
    exact ⟨WF_congr h.g _ hw rfl rfl rfl rfl rfl, ha, le_refl _⟩
  | send env line =>
    simp only [Hist.step] at hs
    split at hs
    · simp at hs
    · rename_i o g hq
      have hwg := send_query_WF env line h.g g o hw hq
      obtain ⟨_, _, htim, _, _, _, hc⟩ := send_query_spec env line h.g g o hq
      rcases hc with ⟨hne, _, h2, h3⟩ | ⟨heq, h2, h3, _⟩
      · rw [if_neg hne] at hs
        simp only [Option.some.injEq] at hs
        subst hs
        refine ⟨hwg, ?_, le_refl _⟩
        intro hr
        have := ha hr
        simp only [h2, h3, htim]
        exact this
      · rw [if_pos heq] at hs
        simp only [Option.some.injEq] at hs
        subst hs
        refine ⟨hwg, ?_, Nat.le_succ _⟩
        intro hr
        have hr' : h.registered < 2 ^ 32 := by simp only at hr; omega
        have := ha hr'
        simp only at hr ⊢
        rw [h2, h3, htim]
        have hout := hw.out
        have hle := in_use_count_le h.g.status
        have hcap := hw.cap
        omega
  | response id =>
    simp only [Hist.step, Option.some.injEq] at hs
    subst hs
    refine ⟨register_response_WF _ h.g hw, ?_, le_refl _⟩
    intro hr
    have := ha hr
    rcases register_response_spec (id % 65536) h.g with ⟨h1, h2, _⟩ | ⟨h1, hf, h2⟩
    · simp only [h1, h2]
      simpa using this
    · simp only [h1, h2, if_true]
      have hpos := count_pos_of_found _ _ hf
      have hout := hw.out
      have hle := in_use_count_le h.g.status
      have hcap := hw.cap
      rw [u32_pred _ (by omega) (by omega)]
      omega
  | retire now =>
    simp only [Hist.step, Option.some.injEq] at hs
    subst hs
    refine ⟨retire_old_queries_WF now h.g hw, ?_, le_refl _⟩
    intro hr
    have := ha hr
    rw [retire_old_queries_spec now h.g hw]
    have hk := timed_out_count_le now h.g.query_timeout h.g.status
    have hout := hw.out
    simp only at hr ⊢
    rw [Nat.mod_eq_of_lt (by omega)]
    omega
  | stamp_end now =>
    simp only [Hist.step, Option.some.injEq] at hs
    subst hs
    exact ⟨WF_congr h.g _ hw rfl rfl rfl rfl rfl, ha, le_refl _⟩

theorem hist_run_acct (ops : List Op) (h h' : Hist) (hw : WF h.g) (ha : Acct h)
    (hr : Hist.run ops h = some h') : WF h'.g ∧ Acct h' ∧ h.registered ≤ h'.registered := by
  induction ops generalizing h with
  | nil =>
    simp only [Hist.run, Option.some.injEq] at hr
    subst hr
    exact ⟨hw, ha, le_refl _⟩
  | cons op ops ih =>
    simp only [Hist.run] at hr
    split at hr
    · simp at hr
    · rename_i h1 hs
      obtain ⟨hw1, ha1, hle1⟩ := hist_step_acct op h h1 hw ha hs
      obtain ⟨hw2, ha2, hle2⟩ := ih h1 hw1 ha1 hr
      exact ⟨hw2, ha2, le_trans hle1 hle2⟩

theorem initial_Fresh : Fresh initial :=
  ⟨initial_WF, rfl, rfl, rfl, rfl⟩

theorem start_acct (g0 : State) (hg : Fresh g0) : Acct (Hist.start g0) := by
  intro _
  simp [Hist.start, hg.sent0, hg.out0, hg.timed0]

theorem keep_sending_WF (now : timeval) (eof : Bool) (s : State) (hw : WF s) :
    WF (keep_sending now eof s).2.2 := by
  have hf := keep_sending_frame now eof s
  exact WF_congr s _ hw hf.1 hf.2.1 hf.2.2.1 hf.2.2.2.1 hf.2.2.2.2.1

theorem next_input_line_WF (line : List Char) (n : Nat) (s : State) (hw : WF s) :
    WF (next_input_line line n s).2.2 := by
  obtain ⟨u, hu⟩ := next_input_line_frame line n s
  rw [hu]
  exact WF_congr s _ hw rfl rfl rfl rfl rfl

theorem main_step_WF (e : Env) (m m' : Main) (hw : WF m.g) (hs : main_step e m = some m') :
    WF m'.g := by
  unfold main_step at hs
  have hk := keep_sending_WF e.now m.got_eof m.g hw
  split at hs
  · simp only at hs
    split at hs <;> (simp only [Option.some.injEq] at hs; subst hs; exact hk)
  · simp only at hs
    split at hs
    · have hn := next_input_line_WF m.input_line MAX_INPUT_LEN _ hk
      split at hs
      · simp only [Option.some.injEq] at hs; subst hs; exact hn
      · split at hs
        · split at hs
          · simp at hs
          · rename_i g hg
            simp only [Option.some.injEq] at hs; subst hs
            exact update_config_WF _ _ _ g hn hg
        · split at hs
          · simp at hs
          · rename_i q hq
            simp only [Option.some.injEq] at hs; subst hs
            exact send_query_WF _ _ _ q.2 q.1 hn hq
    · simp only [Option.some.injEq] at hs; subst hs; exact hk
  · simp only [Option.some.injEq] at hs; subst hs
    exact retire_old_queries_WF _ _ hw
  · split at hs
    · simp only [Option.some.injEq] at hs; subst hs; exact hw
    · simp only [Option.some.injEq] at hs; subst hs
      exact process_single_response_WF _ _ hw
  · simp only [Option.some.injEq] at hs; subst hs
    exact WF_congr m.g _ hw rfl rfl rfl rfl rfl
  · simp only [Option.some.injEq] at hs; subst hs; exact hw

theorem run_WF (es : List Env) (m m' : Main) (hw : WF m.g) (hr : run es m = some m') :
    WF m'.g := by
  induction es generalizing m with
  | nil => simp only [run, Option.some.injEq] at hr; subst hr; exact hw
  | cons e es ih =>
    simp only [run] at hr
    split at hr
    · simp at hr
    · rename_i m1 hs
      exact ih m1 (main_step_WF e m m1 hw hs) hr

theorem hist_step_WF (op : Op) (h h' : Hist) (hw : WF h.g) (hs : Hist.step op h = some h') :
    WF h'.g := by
  cases op with
  | set_max sys n =>
    obtain ⟨r, hr0, rfl⟩ := hist_step_set_max sys n h h' hs
    exact set_max_queries_WF sys _ h.g r hw (Nat.mod_lt _ (by norm_num)) hr0
  | config sys line =>
    obtain ⟨g, hg, rfl⟩ := hist_step_config sys line h h' hs
    exact update_config_WF sys line h.g g hw hg
  | keep now eof =>
    simp only [Hist.step, Option.some.injEq] at hs
    subst hs
    exact keep_sending_WF now eof h.g hw
  | input line n =>
    simp only [Hist.step, Option.some.injEq] at hs
    subst hs
    exact next_input_line_WF line n h.g hw
  | send env line =>
    simp only [Hist.step] at hs
    split at hs
    · simp at hs
    · rename_i o g hq
      have hwg := send_query_WF env line h.g g o hw hq
      split at hs <;> (simp only [Option.some.injEq] at hs; subst hs; exact hwg)
  | response id =>
    simp only [Hist.step, Option.some.injEq] at hs
    subst hs
    exact register_response_WF _ h.g hw
  | retire now =>
    simp only [Hist.step, Option.some.injEq] at hs
    subst hs
    exact retire_old_queries_WF now h.g hw
  | stamp_end now =>
    simp only [Hist.step, Option.some.injEq] at hs
    subst hs
    exact WF_congr h.g _ hw rfl rfl rfl rfl rfl

theorem hist_run_WF (ops : List Op) (h h' : Hist) (hw : WF h.g)
    (hr : Hist.run ops h = some h') : WF h'.g := by
  induction ops generalizing h with
  | nil =>
    simp only [Hist.run, Option.some.injEq] at hr
    subst hr
    exact hw
  | cons op ops ih =>
    simp only [Hist.run] at hr
    split at hr
    · simp at hr
    · rename_i h1 hs
      exact ih h1 (hist_step_WF op h h1 hw hs) hr

theorem hist_step_length (op : Op) (h h' : Hist) (hs : Hist.step op h = some h') :
    h.g.status.length ≤ h'.g.status.length := by
  cases op with
  | set_max sys n =>
    obtain ⟨r, hr0, rfl⟩ := hist_step_set_max sys n h h' hs
    exact (set_max_queries_Kept sys _ h.g r hr0).1
  | config sys line =>
    obtain ⟨g, hg, rfl⟩ := hist_step_config sys line h h' hs
    exact (update_config_Kept sys line h.g g hg).1
  | keep now eof =>
    simp only [Hist.step, Option.some.injEq] at hs
    subst hs
    rw [(keep_sending_frame now eof h.g).1]
  | input line n =>
    simp only [Hist.step, Option.some.injEq] at hs
    subst hs
    obtain ⟨u, hu⟩ := next_input_line_frame line n h.g
    simp only [hu]
    exact le_refl _
  | send env line =>
    simp only [Hist.step] at hs
    split at hs
    · simp at hs
    · rename_i o g hq
      obtain ⟨_, _, _, _, _, _, hc⟩ := send_query_spec env line h.g g o hq
      have hl : h.g.status.length ≤ g.status.length := by
        rcases hc with ⟨_, h1, _, _⟩ | ⟨_, _, _, _, _, _, _, _, _, hst⟩
        · rw [h1]
        · rw [hst, List.length_set]
      split at hs <;> (simp only [Option.some.injEq] at hs; subst hs; exact hl)
  | response id =>
    simp only [Hist.step, Option.some.injEq] at hs
    subst hs
    exact (register_response_Kept _ h.g).1
  | retire now =>
    simp only [Hist.step, Option.some.injEq] at hs
    subst hs
    exact (retire_old_queries_Kept now h.g).1
  | stamp_end now =>
    simp only [Hist.step, Option.some.injEq] at hs
    subst hs
    exact le_refl _

theorem hist_run_length (ops : List Op) (h h' : Hist) (hr : Hist.run ops h = some h') :
    h.g.status.length ≤ h'.g.status.length := by
  induction ops generalizing h with
  | nil =>
    simp only [Hist.run, Option.some.injEq] at hr
    subst hr
    exact le_refl _
  | cons op ops ih =>
    simp only [Hist.run] at hr
    split at hr
    · simp at hr
    · rename_i h1 hs
      exact le_trans (hist_step_length op h h1 hs) (ih h1 hr)

theorem retire_slot_not_timed_out (now : timeval) (T : Nat) (q : query_status) :
    timed_out now T (retire_slot now T q) = false := by
  unfold retire_slot
  split
  · simp [timed_out]
  · rename_i h; simpa using h

theorem hist_step_Kept (op : Op) (h h' : Hist) (hns : op.is_send = false)
    (hs : Hist.step op h = some h') : Kept h.g.status h'.g.status := by
  cases op with
  | set_max sys n =>
    obtain ⟨r, hr0, rfl⟩ := hist_step_set_max sys n h h' hs
    exact set_max_queries_Kept sys _ h.g r hr0
  | config sys line =>
    obtain ⟨g, hg, rfl⟩ := hist_step_config sys line h h' hs
    exact update_config_Kept sys line h.g g hg
  | keep now eof =>
    simp only [Hist.step, Option.some.injEq] at hs
    subst hs
    rw [(keep_sending_frame now eof h.g).1]
    exact Kept_refl _
  | input line n =>
    simp only [Hist.step, Option.some.injEq] at hs
    subst hs
    obtain ⟨u, hu⟩ := next_input_line_frame line n h.g
    simp only [hu]
    exact Kept_refl _
  | send env line => simp [Op.is_send] at hns
  | response id =>
    simp only [Hist.step, Option.some.injEq] at hs
    subst hs
    exact register_response_Kept _ h.g
  | retire now =>
    simp only [Hist.step, Option.some.injEq] at hs
    subst hs
    exact retire_old_queries_Kept now h.g
  | stamp_end now =>
    simp only [Hist.step, Option.some.injEq] at hs
    subst hs
    exact Kept_refl _

theorem hist_run_Kept (ops : List Op) (h h' : Hist) (hns : ∀ op ∈ ops, op.is_send = false)
    (hr : Hist.run ops h = some h') : Kept h.g.status h'.g.status := by
  induction ops generalizing h with
  | nil =>
    simp only [Hist.run, Option.some.injEq] at hr
    subst hr
    exact Kept_refl _
  | cons op ops ih =>
    simp only [Hist.run] at hr
    split at hr
    · simp at hr
    · rename_i h1 hs
      exact Kept_trans (hist_step_Kept op h h1 (hns op (List.mem_cons_self _ _)) hs)
        (ih h1 (fun o ho => hns o (List.mem_cons_of_mem _ ho)) hr)

theorem Kept_no_holder (X : Nat) (st st' : List query_status) (hk : Kept st st')
    (h : ∀ q ∈ st, ¬ (q.in_use = true ∧ q.id = X)) :
    ∀ q ∈ st', ¬ (q.in_use = true ∧ q.id = X) := by
  intro q hq hc
  obtain ⟨i, hi⟩ := List.mem_iff_getElem?.mp hq
  have := hk.2 i q hi hc.1
  exact h q (List.mem_iff_getElem?.mpr ⟨i, this⟩) hc

theorem scan_clears (X : Nat) (st : List query_status)
    (h : st.countP (fun q => q.in_use && decide (q.id = X)) ≤ 1) :
    ∀ q ∈ (register_response_scan X st).2, ¬ (q.in_use = true ∧ q.id = X) := by
  induction st with
  | nil => simp [register_response_scan]
  | cons x rest ih =>
    unfold register_response_scan
    by_cases hx : x.in_use = true ∧ x.id = X
    · rw [if_pos hx]
      have h0 : rest.countP (fun q => q.in_use && decide (q.id = X)) = 0 := by
        rw [List.countP_cons] at h
        simp only [hx.1, hx.2, decide_True, Bool.and_self, if_true] at h
        omega
      rw [List.countP_eq_zero] at h0
      intro q hq
      rcases List.mem_cons.mp hq with rfl | hq
      · simp
      · have := h0 q hq
        simpa using this
    · rw [if_neg hx]
      have h1 : rest.countP (fun q => q.in_use && decide (q.id = X)) ≤ 1 := by
        rw [List.countP_cons] at h
        omega
      intro q hq
      rcases List.mem_cons.mp hq with rfl | hq
      · exact hx
      · exact ih h1 q hq

theorem no_holder_stray (X : Nat) (s : State)
    (h : ∀ q ∈ s.status, ¬ (q.in_use = true ∧ q.id = X)) :
    register_response X s = (false, s) := by
  rcases register_response_spec X s with ⟨h1, h2, _⟩ | ⟨_, hf, _⟩
  · exact Prod.ext h1 h2
  · obtain ⟨q, hq, hq2⟩ := (scan_found_iff X s.status).mp hf
    exact absurd hq2 (h q hq)

/-- A call that registers no query under id `X` leaves no record in use holding `X` when
there was none. -/
theorem hist_step_no_holder (X : Nat) (op : Op) (h h' : Hist)
    (hna : ∀ env line g, op = Op.send env line →
      send_query env line h.g = some (SendOutcome.registered, g) → g.use_query_id ≠ X)
    (hs : Hist.step op h = some h')
    (hno : ∀ q ∈ h.g.status, ¬ (q.in_use = true ∧ q.id = X)) :
    ∀ q ∈ h'.g.status, ¬ (q.in_use = true ∧ q.id = X) := by
  by_cases hsend : op.is_send = false
  · exact Kept_no_holder X _ _ (hist_step_Kept op h h' hsend hs) hno
  · cases op with
    | send env line =>
      simp only [Hist.step] at hs
      cases hq : send_query env line h.g with
      | none =>
        rw [hq] at hs
        exact absurd hs (by simp)
      | some r =>
        obtain ⟨o, g⟩ := r
        rw [hq] at hs
        simp only at hs
        have hg : h'.g = g := by
          split at hs <;> (simp only [Option.some.injEq] at hs; subst hs; rfl)
        rw [hg]
        obtain ⟨hid, _, _, _, _, _, hc⟩ := send_query_spec env line h.g g o hq
        rcases hc with ⟨_, hst, _⟩ | ⟨ho, _, _, count, q0, _, hq0, _, _, hst⟩
        · rw [hst]
          exact hno
        · subst ho
          have hne : g.use_query_id ≠ X := hna env line g rfl hq
          rw [hst]
          intro q hq hc
          rcases List.mem_or_eq_of_mem_set hq with hm | he
          · exact hno q hm hc
          · rw [he] at hc
            exact hne (hid.trans hc.2)
    | set_max sys n => exact absurd rfl hsend
    | config sys line => exact absurd rfl hsend
    | keep now eof => exact absurd rfl hsend
    | input line n => exact absurd rfl hsend
    | response id => exact absurd rfl hsend
    | retire now => exact absurd rfl hsend
    | stamp_end now => exact absurd rfl hsend

/-- A sequence of calls that admits no query under id `X` leaves no record in use
holding `X` when there was none. -/
theorem hist_run_no_holder (X : Nat) (ops : List Op) (h h' : Hist)
    (hna : Hist.admits X ops h = false) (hr : Hist.run ops h = some h')
    (hno : ∀ q ∈ h.g.status, ¬ (q.in_use = true ∧ q.id = X)) :
    ∀ q ∈ h'.g.status, ¬ (q.in_use = true ∧ q.id = X) := by
  induction ops generalizing h with
  | nil =>
    simp only [Hist.run, Option.some.injEq] at hr
    subst hr
    exact hno
  | cons op ops ih =>
    simp only [Hist.run] at hr
    simp only [Hist.admits, Bool.or_eq_false_iff] at hna
    cases hs : Hist.step op h with
    | none =>
      rw [hs] at hr
      exact absurd hr (by simp)
    | some h1 =>
      rw [hs] at hr hna
      refine ih h1 hna.2 hr (hist_step_no_holder X op h h1 ?_ hs hno)
      intro env line g hop hq
      have h1' := hna.1
      rw [hop] at h1'
      simp only [hq, decide_eq_false_iff_not] at h1'
      exact h1'

theorem keep_sending_stopped (now : timeval) (eof : Bool) (s : State) (h : s.stop = true) :
    keep_sending now eof s = (false, eof, s) := by
  unfold keep_sending
  rw [if_pos h]

theorem keep_sending_false (now : timeval) (eof : Bool) (s : State)
    (h : (keep_sending now eof s).1 = false) : (keep_sending now eof s).2.2.stop = true := by
  unfold keep_sending at h ⊢
  split
  · assumption
  · rename_i h1
    rw [if_neg h1] at h
    split
    · rename_i h2; rw [if_pos h2] at h; simp at h
    · rename_i h2
      rw [if_neg h2] at h
      split
      · rename_i h3; rw [if_pos h3] at h; simp at h
      · rfl

theorem retire_old_queries_frame (now : timeval) (s : State) :
    (retire_old_queries now s).stop = s.stop ∧
    (retire_old_queries now s).unread = s.unread ∧
    (retire_old_queries now s).runs_through_file = s.runs_through_file ∧
    (retire_old_queries now s).max_queries_outstanding = s.max_queries_outstanding ∧
    (retire_old_queries now s).use_query_id = s.use_query_id ∧
    (retire_old_queries now s).num_queries_sent = s.num_queries_sent := by
  unfold retire_old_queries
  simp

theorem register_response_frame (id : Nat) (s : State) :
    (register_response id s).2.stop = s.stop ∧
    (register_response id s).2.unread = s.unread ∧
    (register_response id s).2.runs_through_file = s.runs_through_file ∧
    (register_response id s).2.max_queries_outstanding = s.max_queries_outstanding ∧
    (register_response id s).2.use_query_id = s.use_query_id ∧
    (register_response id s).2.num_queries_sent = s.num_queries_sent ∧
    (register_response id s).2.num_queries_timed_out = s.num_queries_timed_out := by
  rcases register_response_spec id s with ⟨_, h2, _⟩ | ⟨_, _, h2⟩ <;> rw [h2] <;> simp

theorem Stopped_refl (m : Main) (h : m.g.stop = true) : Stopped m m :=
  ⟨h, rfl, rfl, rfl, rfl, rfl, rfl, Kept_refl _⟩

theorem Stopped_trans {a b c : Main} (h1 : Stopped a b) (h2 : Stopped b c) : Stopped a c :=
  ⟨h2.stop, h2.eof.trans h1.eof, h2.unread.trans h1.unread, h2.runs.trans h1.runs,
   h2.limit.trans h1.limit, h2.id.trans h1.id, h2.sent.trans h1.sent,
   Kept_trans h1.kept h2.kept⟩

theorem main_step_stopped (e : Env) (m m' : Main) (h : m.g.stop = true)
    (hs : main_step e m = some m') : Stopped m m' := by
  unfold main_step at hs
  rw [keep_sending_stopped e.now m.got_eof m.g h] at hs
  split at hs
  · simp only at hs
    split at hs <;>
      (simp only [Option.some.injEq] at hs; subst hs
       exact ⟨h, rfl, rfl, rfl, rfl, rfl, rfl, Kept_refl _⟩)
  · simp only [Bool.false_eq_true, false_and, if_false, Option.some.injEq] at hs
    subst hs
    exact ⟨h, rfl, rfl, rfl, rfl, rfl, rfl, Kept_refl _⟩
  · simp only [Option.some.injEq] at hs; subst hs
    have hf := retire_old_queries_frame e.now m.g
    exact ⟨hf.1.trans h, rfl, hf.2.1, hf.2.2.1, hf.2.2.2.1, hf.2.2.2.2.1, hf.2.2.2.2.2,
      retire_old_queries_Kept e.now m.g⟩
  · split at hs
    · simp only [Option.some.injEq] at hs; subst hs
      exact ⟨h, rfl, rfl, rfl, rfl, rfl, rfl, Kept_refl _⟩
    · rename_i recv _
      simp only [Option.some.injEq] at hs; subst hs
      cases recv with
      | none => exact ⟨h, rfl, rfl, rfl, rfl, rfl, rfl, Kept_refl _⟩
      | some buf =>
        have hf := register_response_frame (get_uint16 buf) m.g
        exact ⟨hf.1.trans h, rfl, hf.2.1, hf.2.2.1, hf.2.2.2.1, hf.2.2.2.2.1, hf.2.2.2.2.2.1,
          register_response_Kept (get_uint16 buf) m.g⟩
  · simp only [Option.some.injEq] at hs; subst hs
    exact ⟨h, rfl, rfl, rfl, rfl, rfl, rfl, Kept_refl _⟩
  · simp only [Option.some.injEq] at hs; subst hs
    exact ⟨h, rfl, rfl, rfl, rfl, rfl, rfl, Kept_refl _⟩

theorem run_stopped (es : List Env) (m m' : Main) (h : m.g.stop = true)
    (hr : run es m = some m') : Stopped m m' := by
  induction es generalizing m with
  | nil => simp only [run, Option.some.injEq] at hr; subst hr; exact Stopped_refl m h
  | cons e es ih =>
    simp only [run] at hr
    split at hr
    · simp at hr
    · rename_i m1 hs
      have h1 := main_step_stopped e m m1 h hs
      exact Stopped_trans h1 (ih m1 h1.stop hr)

theorem main_step_latches (e : Env) (m m' : Main) (hs : main_step e m = some m')
    (hpc : m.pc = Pc.outer ∨ m.pc = Pc.inner)
    (hk : (keep_sending e.now m.got_eof m.g).1 = false) : m'.g.stop = true := by
  have hl := keep_sending_false e.now m.got_eof m.g hk
  unfold main_step at hs
  rcases hpc with hpc | hpc
  · rw [hpc] at hs
    simp only at hs
    split at hs <;> (simp only [Option.some.injEq] at hs; subst hs; exact hl)
  · rw [hpc] at hs
    simp only [hk, Bool.false_eq_true, false_and, if_false, Option.some.injEq] at hs
    subst hs
    exact hl

/-- Induction principle for `parse_args`: a property of states that is kept by every
change outside the table, the limit, the counters, the stop latch and the id counter, and
by `set_max_queries` with a value that fits an `unsigned int`, is kept by `parse_args`. -/
theorem parse_args_ind (sys : Sys) (P : State → Prop)
    (hframe : ∀ s t : State, P s →
      (t.status = s.status ∧ t.max_queries_outstanding = s.max_queries_outstanding ∧
       t.num_queries_outstanding = s.num_queries_outstanding ∧
       t.num_queries_sent = s.num_queries_sent ∧
       t.num_queries_timed_out = s.num_queries_timed_out ∧
       t.stop = s.stop ∧ t.use_query_id = s.use_query_id) → P t)
    (hmax : ∀ (s : State) (n : Nat) (r : Int × State), P s → n ≤ UINT_MAX →
      set_max_queries sys n s = some r → P r.2)
    (opts : List (Char × List Char)) (s : State) (r : Int × State) (h : P s)
    (hr : parse_args sys opts s = some r) : P r.2 := by
  have fr : ∀ s : State, s.status = s.status ∧
      s.max_queries_outstanding = s.max_queries_outstanding ∧
      s.num_queries_outstanding = s.num_queries_outstanding ∧
      s.num_queries_sent = s.num_queries_sent ∧
      s.num_queries_timed_out = s.num_queries_timed_out ∧
      s.stop = s.stop ∧ s.use_query_id = s.use_query_id :=
    fun _ => ⟨rfl, rfl, rfl, rfl, rfl, rfl, rfl⟩
  induction opts generalizing s with
  | nil =>
    unfold parse_args at hr
    simp only [Option.some.injEq] at hr
    subst hr
    simp only
    split
    · exact hframe s _ h (fr s)
    · exact h
  | cons o rest ih =>
    obtain ⟨c, optarg⟩ := o
    have he : P { s with errno := (is_uint optarg 0 s.errno).2.2 } := hframe s _ h (fr s)
    have hfail : ∀ (u : State), P u → some ((-1 : Int), u) = some r → P r.2 := by
      intro u hu heq
      simp only [Option.some.injEq] at heq
      subst heq
      exact hu
    unfold parse_args at hr
    by_cases hq : c = 'q'
    · rw [if_pos hq] at hr
      simp only at hr
      by_cases hv : (is_uint optarg 0 s.errno).1 = true
      · rw [if_pos hv] at hr
        split at hr
        · exact absurd hr (by simp)
        · rename_i p hp
          apply ih _ _ hr
          have := hmax _ (is_uint optarg 0 s.errno).2.1 p he (is_uint_true _ _ _ hv) hp
          exact hframe _ _ this (fr _)
      · rw [if_neg hv] at hr; exact hfail _ he hr
    rw [if_neg hq] at hr
    by_cases ht : c = 't'
    · rw [if_pos ht] at hr
      simp only at hr
      by_cases hv : (is_uint optarg 0 s.errno).1 = true
      · rw [if_pos hv] at hr; apply ih _ _ hr; exact hframe s _ h (fr s)
      · rw [if_neg hv] at hr; exact hfail _ he hr
    rw [if_neg ht] at hr
    by_cases hn : c = 'n'
    · rw [if_pos hn] at hr; apply ih _ _ hr; exact hframe s _ h (fr s)
    rw [if_neg hn] at hr
    by_cases hd : c = 'd'
    · rw [if_pos hd] at hr
      have hw := hframe s _ h (set_datafile_frame sys optarg s)
      simp only at hr
      split at hr
      · exact hfail _ hw hr
      · apply ih _ _ hr; exact hw
    rw [if_neg hd] at hr
    by_cases hs : c = 's'
    · rw [if_pos hs] at hr
      have hw := hframe s _ h (set_server_frame sys optarg s)
      simp only at hr
      split at hr
      · exact hfail _ hw hr
      · apply ih _ _ hr; exact hframe _ _ hw (fr _)
    rw [if_neg hs] at hr
    by_cases hp : c = 'p'
    · rw [if_pos hp] at hr
      simp only at hr
      split at hr
      · apply ih _ _ hr
        have := hframe _ _ he (set_server_port_frame (is_uint optarg 0 s.errno).2.1
          { s with errno := (is_uint optarg 0 s.errno).2.2 })
        exact hframe _ _ this (fr _)
      · exact hfail _ he hr
    rw [if_neg hp] at hr
    by_cases h1 : c = '1'
    · rw [if_pos h1] at hr; apply ih _ _ hr; exact hframe s _ h (fr s)
    rw [if_neg h1] at hr
    by_cases hl : c = 'l'
    · rw [if_pos hl] at hr
      simp only at hr
      split at hr
      · apply ih _ _ hr; exact hframe s _ h (fr s)
      · exact hfail _ he hr
    rw [if_neg hl] at hr
    by_cases hb : c = 'b'
    · rw [if_pos hb] at hr
      simp only at hr
      split at hr
      · apply ih _ _ hr; exact hframe s _ h (fr s)
      · exact hfail _ he hr
    rw [if_neg hb] at hr
    exact hfail _ h hr

theorem Fresh_congr (s t : State) (h : Fresh s)
    (hf : t.status = s.status ∧ t.max_queries_outstanding = s.max_queries_outstanding ∧
       t.num_queries_outstanding = s.num_queries_outstanding ∧
       t.num_queries_sent = s.num_queries_sent ∧
       t.num_queries_timed_out = s.num_queries_timed_out ∧
       t.stop = s.stop ∧ t.use_query_id = s.use_query_id) : Fresh t :=
  ⟨WF_congr s t h.wf hf.1 hf.2.1 hf.2.2.1 hf.2.2.2.1 hf.2.2.2.2.1,
   hf.2.2.2.1.trans h.sent0, hf.2.2.1.trans h.out0, hf.2.2.2.2.1.trans h.timed0,
   hf.2.2.2.2.2.2.trans h.id0⟩

theorem set_max_queries_Fresh (sys : Sys) (n : Nat) (s : State) (r : Int × State)
    (h : Fresh s) (hn : n ≤ UINT_MAX) (hr : set_max_queries sys n s = some r) :
    Fresh r.2 := by
  have hf := set_max_queries_frame sys n s r hr
  exact ⟨set_max_queries_WF sys n s r h.wf (by unfold UINT_MAX at hn; omega) hr,
    hf.2.1.trans h.sent0, hf.1.trans h.out0, hf.2.2.1.trans h.timed0,
    hf.2.2.2.2.1.trans h.id0⟩

/-- Induction principle for `setup`: a property of states that is kept by every change
outside the table, the limit, the counters, the stop latch and the id counter, and by
`set_max_queries`, is kept by `setup`. -/
theorem setup_ind (sys : Sys) (P : State → Prop)
    (hframe : ∀ s t : State, P s →
      (t.status = s.status ∧ t.max_queries_outstanding = s.max_queries_outstanding ∧
       t.num_queries_outstanding = s.num_queries_outstanding ∧
       t.num_queries_sent = s.num_queries_sent ∧
       t.num_queries_timed_out = s.num_queries_timed_out ∧
       t.stop = s.stop ∧ t.use_query_id = s.use_query_id) → P t)
    (hmax : ∀ (s : State) (n : Nat) (r : Int × State), P s → n ≤ UINT_MAX →
      set_max_queries sys n s = some r → P r.2)
    (opts : List (Char × List Char)) (s : State) (r : Int × State) (h : P s)
    (hr : setup sys opts s = some r) : P r.2 := by
  have h0 : P (set_input_stdin { s with qaddr_sin_port := 0, qaddr_sin_addr := 0 }) :=
    hframe s _ h ⟨rfl, rfl, rfl, rfl, rfl, rfl, rfl⟩
  have hfail : ∀ (u : State), P u → some ((-1 : Int), u) = some r → P r.2 := by
    intro u hu heq
    simp only [Option.some.injEq] at heq
    subst heq
    exact hu
  unfold setup at hr
  simp only at hr
  split at hr
  · exact absurd hr (by simp)
  · rename_i r1 hr1
    have h1 : P r1.2 := hmax _ _ r1 h0 (by norm_num [DEF_MAX_QUERIES_OUTSTANDING, UINT_MAX]) hr1
    have h2 := hframe _ _ h1 (set_server_frame sys DEF_SERVER_TO_QUERY r1.2)
    have h3 := hframe _ _ h2 (set_server_port_frame DEF_SERVER_PORT
      (set_server sys DEF_SERVER_TO_QUERY r1.2).2)
    split at hr
    · exact hfail _ h1 hr
    · split at hr
      · exact hfail _ h2 hr
      · split at hr
        · exact hfail _ h3 hr
        · split at hr
          · exact absurd hr (by simp)
          · rename_i r4 hr4
            have h4 : P r4.2 := parse_args_ind sys P hframe hmax opts _ r4 h3 hr4
            have h5 : P (open_datafile sys r4.2).2 := by
              unfold open_datafile
              split
              · exact hframe _ _ h4 ⟨rfl, rfl, rfl, rfl, rfl, rfl, rfl⟩
              · split
                · exact h4
                · split
                  · exact h4
                  · exact hframe _ _ h4 ⟨rfl, rfl, rfl, rfl, rfl, rfl, rfl⟩
            split at hr
            · exact hfail _ h4 hr
            · split at hr
              · exact hfail _ h5 hr
              · split at hr
                · exact hfail _ h5 hr
                · simp only [Option.some.injEq] at hr
                  subst hr
                  exact h5

theorem setup_Fresh (sys : Sys) (opts : List (Char × List Char)) (s : State)
    (r : Int × State) (h : Fresh s) (hr : setup sys opts s = some r) : Fresh r.2 :=
  setup_ind sys Fresh Fresh_congr
    (fun s n r hs hn hr => set_max_queries_Fresh sys n s r hs hn hr) opts s r h hr

theorem main_enter_Fresh (now : timeval) (sys : Sys) (opts : List (Char × List Char))
    (m : Main) (h : main_enter now sys opts = some m) : Fresh m.g := by
  unfold main_enter at h
  split at h
  · exact absurd h (by simp)
  · rename_i r hr
    split at h
    · exact absurd h (by simp)
    · simp only [Option.some.injEq] at h
      subst h
      refine setup_Fresh sys opts _ r ?_ hr
      exact Fresh_congr initial _ initial_Fresh ⟨rfl, rfl, rfl, rfl, rfl, rfl, rfl⟩

theorem register_response_out_le (id : Nat) (s : State) (hw : WF s) :
    (register_response id s).2.num_queries_outstanding ≤ s.num_queries_outstanding := by
  rcases register_response_spec id s with ⟨_, h2, _⟩ | ⟨_, hf, h2⟩
  · rw [h2]
  · rw [h2]
    have hpos := count_pos_of_found _ _ hf
    have hout := hw.out
    have hle := in_use_count_le s.status
    have hcap := hw.cap
    simp only
    rw [u32_pred _ (by omega) (by omega)]
    omega

theorem retire_old_queries_out_le (now : timeval) (s : State) (hw : WF s) :
    (retire_old_queries now s).num_queries_outstanding ≤ s.num_queries_outstanding := by
  rw [retire_old_queries_spec now s hw]
  exact Nat.sub_le _ _

theorem main_step_gate (e : Env) (m m' : Main) (hw : WF m.g) (hs : main_step e m = some m')
    (hb : m.g.num_queries_outstanding ≤ m.g.max_queries_outstanding) :
    (m.pc = Pc.inner ∧ m'.g.max_queries_outstanding < m.g.max_queries_outstanding) ∨
    m'.g.num_queries_outstanding ≤ m'.g.max_queries_outstanding := by
  have hk := keep_sending_frame e.now m.got_eof m.g
  unfold main_step at hs
  obtain ⟨K, hK⟩ : ∃ K, K = keep_sending e.now m.got_eof m.g := ⟨_, rfl⟩
  rw [← hK] at hs hk
  have hkb : K.2.2.num_queries_outstanding ≤ K.2.2.max_queries_outstanding := by
    rw [hk.2.1, hk.2.2.1]; exact hb
  split at hs
  · simp only at hs
    split at hs <;> (simp only [Option.some.injEq] at hs; subst hs; exact Or.inr hkb)
  · rename_i hpc
    simp only at hs
    split at hs
    · rename_i hgate
      obtain ⟨u, hu⟩ := next_input_line_frame m.input_line MAX_INPUT_LEN K.2.2
      obtain ⟨R, hR⟩ : ∃ R, R = next_input_line m.input_line MAX_INPUT_LEN K.2.2 := ⟨_, rfl⟩
      rw [← hR] at hs hu
      have hRo : R.2.2.num_queries_outstanding = K.2.2.num_queries_outstanding := by rw [hu]
      have hRm : R.2.2.max_queries_outstanding = K.2.2.max_queries_outstanding := by rw [hu]
      split at hs
      · simp only [Option.some.injEq] at hs; subst hs
        right
        show R.2.2.num_queries_outstanding ≤ R.2.2.max_queries_outstanding
        rw [hRo, hRm]; exact hkb
      · split at hs
        · split at hs
          · simp at hs
          · rename_i g hg
            simp only [Option.some.injEq] at hs; subst hs
            have hf := update_config_frame e.sys (cstr R.2.1) R.2.2 g hg
            rcases Nat.lt_or_ge g.max_queries_outstanding
              m.g.max_queries_outstanding with hlt | hge
            · exact Or.inl ⟨hpc, hlt⟩
            · right
              show g.num_queries_outstanding ≤ g.max_queries_outstanding
              rw [hf.1, hRo, hk.2.2.1]
              exact le_trans hb hge
        · split at hs
          · simp at hs
          · rename_i q hq
            simp only [Option.some.injEq] at hs; subst hs
            right
            obtain ⟨_, hmax, _, _, _, _, hc⟩ := send_query_spec _ _ _ q.2 q.1 hq
            have hg : K.2.2.num_queries_outstanding < K.2.2.max_queries_outstanding := hgate.2
            show q.2.num_queries_outstanding ≤ q.2.max_queries_outstanding
            rcases hc with ⟨_, _, _, h3⟩ | ⟨_, _, h3, _⟩
            · rw [h3, hmax, hRo, hRm]
              exact hkb
            · rw [h3, hmax, hRo, hRm]
              have := Nat.mod_le (K.2.2.num_queries_outstanding + 1) (2 ^ 32)
              omega
    · simp only [Option.some.injEq] at hs; subst hs; exact Or.inr hkb
  · simp only [Option.some.injEq] at hs; subst hs
    right
    have := retire_old_queries_out_le e.now m.g hw
    show (retire_old_queries e.now m.g).num_queries_outstanding
      ≤ (retire_old_queries e.now m.g).max_queries_outstanding
    rw [(retire_old_queries_frame e.now m.g).2.2.2.1]
    exact le_trans this hb
  · split at hs
    · simp only [Option.some.injEq] at hs; subst hs; exact Or.inr hb
    · rename_i recv _
      simp only [Option.some.injEq] at hs; subst hs
      right
      cases recv with
      | none => exact hb
      | some buf =>
        have := register_response_out_le (get_uint16 buf) m.g hw
        show (register_response (get_uint16 buf) m.g).2.num_queries_outstanding
          ≤ (register_response (get_uint16 buf) m.g).2.max_queries_outstanding
        rw [(register_response_frame (get_uint16 buf) m.g).2.2.2.1]
        exact le_trans this hb
  · simp only [Option.some.injEq] at hs; subst hs; exact Or.inr hb
  · simp only [Option.some.injEq] at hs; subst hs; exact Or.inr hb

theorem hist_run_append (a b : List Op) (h : Hist) :
    Hist.run (a ++ b) h = (Hist.run a h).bind (Hist.run b) := by
  induction a generalizing h with
  | nil => rfl
  | cons op a ih =>
    simp only [List.cons_append, Hist.run]
    cases Hist.step op h with
    | none => rfl
    | some h1 => exact ih h1

theorem send_bad (h : Hist) :
    Hist.step (Op.send ex_send bad_line) h =
      some { h with g := { h.g with use_query_id := (h.g.use_query_id + 1) % 65536 },
                    calls := h.calls + 1 } := by
  rfl

theorem run_bad (n : Nat) (h : Hist) (hid : h.g.use_query_id < 65536) :
    Hist.run (List.replicate n (Op.send ex_send bad_line)) h =
      some { h with g := { h.g with use_query_id := (h.g.use_query_id + n) % 65536 },
                    calls := h.calls + n } := by
  induction n generalizing h with
  | zero =>
    simp only [List.replicate, Hist.run, Nat.add_zero, Nat.mod_eq_of_lt hid]
  | succ n ih =>
    simp only [List.replicate, Hist.run, send_bad]
    rw [ih _ (Nat.mod_lt _ (by norm_num))]
    simp only [Option.some.injEq]
    have h1 : ((h.g.use_query_id + 1) % 65536 + n) % 65536 = (h.g.use_query_id + (n + 1)) % 65536 := by
      omega
    have h2 : h.calls + 1 + n = h.calls + (n + 1) := by omega
    rw [h1, h2]

theorem pad_get (born : List Nat) (n i : Nat) (hi : i < born.length) :
    (pad born n)[i]? = born[i]? := by
  unfold pad
  rw [List.getElem?_append_left hi]

theorem pad_length (born : List Nat) (n : Nat) (h : born.length ≤ n) :
    (pad born n).length = n := by
  unfold pad
  simp only [List.length_append, List.length_replicate]
  omega

theorem pad_same (born : List Nat) (n : Nat) (h : born.length = n) : pad born n = born := by
  unfold pad
  simp [h]

theorem kept_index (st st' : List query_status) (hk : Kept st st') (i : Nat)
    (q : query_status) (hq : st'[i]? = some q) (hu : q.in_use = true) : i < st.length := by
  have := hk.2 i q hq hu
  by_contra hn
  rw [List.getElem?_eq_none (by omega)] at this
  simp at this

/-- A change of the state that reserves no record and leaves the id counter alone keeps
the tie between ids and calls. -/
theorem IdInv_kept (h : Hist) (g : State) (hi : IdInv h) (hk : Kept h.g.status g.status)
    (hid : g.use_query_id = h.g.use_query_id) :
    IdInv { h with g := g, born := pad h.born g.status.length } := by
  refine ⟨?_, ?_, ?_, ?_⟩
  · exact pad_length _ _ (by rw [hi.len]; exact hk.1)
  · show g.use_query_id = h.calls % 65536
    rw [hid]; exact hi.cur
  · intro i q hq hu
    have hlt := kept_index _ _ hk i q hq hu
    obtain ⟨b, hb, h1, h2, h3⟩ := hi.idb i q (hk.2 i q hq hu) hu
    refine ⟨b, ?_, h1, h2, h3⟩
    show (pad h.born g.status.length)[i]? = some b
    rw [pad_get _ _ _ (by rw [hi.len]; exact hlt)]
    exact hb
  · intro i j p q b hij hp hq hpu hqu hb
    have hlti := kept_index _ _ hk i p hp hpu
    have hltj := kept_index _ _ hk j q hq hqu
    show (pad h.born g.status.length)[j]? ≠ some b
    rw [pad_get _ _ _ (by rw [hi.len]; exact hltj)]
    have hb' : h.born[i]? = some b := by
      rw [← pad_get h.born g.status.length i (by rw [hi.len]; exact hlti)]
      exact hb
    exact hi.inj i j p q b hij (hk.2 i p hp hpu) (hk.2 j q hq hqu) hpu hqu hb'

theorem IdInv_kept_same (h : Hist) (g : State) (hi : IdInv h) (hk : Kept h.g.status g.status)
    (hl : g.status.length = h.g.status.length)
    (hid : g.use_query_id = h.g.use_query_id) : IdInv { h with g := g } := by
  have := IdInv_kept h g hi hk hid
  rw [pad_same _ _ (by rw [hi.len, hl])] at this
  exact this

theorem start_IdInv (g0 : State) (hg : Fresh g0) : IdInv (Hist.start g0) := by
  have hfree : ∀ (i : Nat) (q : query_status), g0.status[i]? = some q → q.in_use = true → False := by
    intro i q hq hu
    have h0 : in_use_count g0.status = 0 := by rw [← hg.wf.out, hg.out0]
    unfold in_use_count at h0
    rw [List.countP_eq_zero] at h0
    have := h0 q (List.mem_iff_getElem?.mpr ⟨i, hq⟩)
    simp [hu] at this
  refine ⟨by simp [Hist.start], by simp [Hist.start, hg.id0], ?_, ?_⟩
  · intro i q hq hu
    exact absurd (hfree i q hq hu) id
  · intro i j p q b _ hp _ hpu
    exact absurd (hfree i p hp hpu) id

theorem hist_step_IdInv (op : Op) (h h' : Hist) (hi : IdInv h)
    (hs : Hist.step op h = some h') : IdInv h' := by
  cases op with
  | set_max sys n =>
    obtain ⟨r, hr0, rfl⟩ := hist_step_set_max sys n h h' hs
    exact IdInv_kept h _ hi (set_max_queries_Kept sys _ h.g r hr0)
      (set_max_queries_frame sys _ h.g r hr0).2.2.2.2.1
  | config sys line =>
    obtain ⟨g, hg, rfl⟩ := hist_step_config sys line h h' hs
    exact IdInv_kept h _ hi (update_config_Kept sys line h.g g hg)
      (update_config_frame sys line h.g g hg).2.2.2.2.1
  | keep now eof =>
    simp only [Hist.step, Option.some.injEq] at hs
    subst hs
    have hf := keep_sending_frame now eof h.g
    exact IdInv_kept_same h _ hi (by rw [hf.1]; exact Kept_refl _) (by rw [hf.1])
      hf.2.2.2.2.2
  | input line n =>
    simp only [Hist.step, Option.some.injEq] at hs
    subst hs
    obtain ⟨u, hu⟩ := next_input_line_frame line n h.g
    rw [hu]
    exact IdInv_kept_same h _ hi (Kept_refl _) rfl rfl
  | response id =>
    simp only [Hist.step, Option.some.injEq] at hs
    subst hs
    have hl : (register_response (id % 65536) h.g).2.status.length = h.g.status.length := by
      rcases register_response_spec (id % 65536) h.g with ⟨_, h2, _⟩ | ⟨_, _, h2⟩
      · rw [h2]
      · rw [h2]; exact scan_length _ _
    have := IdInv_kept_same h _ hi (register_response_Kept (id % 65536) h.g) hl
      (register_response_frame (id % 65536) h.g).2.2.2.2.1
    exact ⟨this.len, this.cur, this.idb, this.inj⟩
  | retire now =>
    simp only [Hist.step, Option.some.injEq] at hs
    subst hs
    have hl : (retire_old_queries now h.g).status.length = h.g.status.length := by
      unfold retire_old_queries
      simp only
      rw [retire_scan_table]
      simp
    exact IdInv_kept_same h _ hi (retire_old_queries_Kept now h.g) hl
      (retire_old_queries_frame now h.g).2.2.2.2.1
  | send env line =>
    simp only [Hist.step] at hs
    split at hs
    · simp at hs
    · rename_i o g hq
      obtain ⟨hid, _, _, _, _, _, hc⟩ := send_query_spec env line h.g g o hq
      have hcur : g.use_query_id = (h.calls + 1) % 65536 := by
        rw [hid, hi.cur]; omega
      rcases hc with ⟨hne, hst, _, _⟩ | ⟨heq, _, _, count, q, hscan, hq0, hfree, _, hst⟩
      · rw [if_neg hne] at hs
        simp only [Option.some.injEq] at hs
        subst hs
        refine ⟨?_, hcur, ?_, ?_⟩
        · show h.born.length = g.status.length
          rw [hst]; exact hi.len
        · intro i p hp hu
          rw [hst] at hp
          obtain ⟨b, hb, h1, h2, h3⟩ := hi.idb i p hp hu
          exact ⟨b, hb, h1, Nat.le_succ_of_le h2, h3⟩
        · intro i j p q b hij hp hq' hpu hqu hb
          rw [hst] at hp hq'
          exact hi.inj i j p q b hij hp hq' hpu hqu hb
      · rw [if_pos heq] at hs
        simp only [Option.some.injEq] at hs
        subst hs
        simp only [hscan, Option.getD_some]
        have hclt : count < h.g.status.length := by
          by_contra hn
          rw [List.getElem?_eq_none (by omega)] at hq0
          simp at hq0
        refine ⟨?_, hcur, ?_, ?_⟩
        · show (h.born.set count (h.calls + 1)).length = g.status.length
          rw [hst, List.length_set, List.length_set]; exact hi.len
        · intro i p hp hu
          show ∃ b, (h.born.set count (h.calls + 1))[i]? = some b ∧ 1 ≤ b ∧ b ≤ h.calls + 1 ∧ _
          rw [hst] at hp
          by_cases hic : i = count
          · subst hic
            rw [List.getElem?_set_self hclt] at hp
            simp only [Option.some.injEq] at hp
            subst hp
            refine ⟨h.calls + 1, ?_, by omega, le_refl _, ?_⟩
            · rw [List.getElem?_set_self (by rw [hi.len]; exact hclt)]
            · show (h.g.use_query_id + 1) % 65536 = (h.calls + 1) % 65536
              rw [hi.cur]; omega
          · rw [List.getElem?_set_ne (Ne.symm hic)] at hp
            obtain ⟨b, hb, h1, h2, h3⟩ := hi.idb i p hp hu
            refine ⟨b, ?_, h1, Nat.le_succ_of_le h2, h3⟩
            rw [List.getElem?_set_ne (Ne.symm hic)]
            exact hb
        · intro i j p q' b hij hp hq' hpu hqu hb
          show (h.born.set count (h.calls + 1))[j]? ≠ some b
          have hb' : (h.born.set count (h.calls + 1))[i]? = some b := hb
          rw [hst] at hp hq'
          by_cases hic : i = count
          · subst hic
            rw [List.getElem?_set_self (by rw [hi.len]; exact hclt)] at hb'
            simp only [Option.some.injEq] at hb'
            have hjc : j ≠ i := Ne.symm hij
            rw [List.getElem?_set_ne (Ne.symm hjc)] at hq' ⊢
            obtain ⟨b2, hb2, _, h2, _⟩ := hi.idb j q' hq' hqu
            rw [hb2]
            simp only [ne_eq, Option.some.injEq]
            omega
          · rw [List.getElem?_set_ne (Ne.symm hic)] at hp hb'
            by_cases hjc : j = count
            · subst hjc
              rw [List.getElem?_set_self (by rw [hi.len]; exact hclt)]
              obtain ⟨b1, hb1, _, h2, _⟩ := hi.idb i p hp hpu
              rw [hb1] at hb'
              simp only [Option.some.injEq] at hb'
              simp only [ne_eq, Option.some.injEq]
              omega
            · rw [List.getElem?_set_ne (Ne.symm hjc)] at hq' ⊢
              exact hi.inj i j p q' b hij hp hq' hpu hqu hb'
  | stamp_end now =>
    simp only [Hist.step, Option.some.injEq] at hs
    subst hs
    exact IdInv_kept_same h _ hi (Kept_refl _) rfl rfl

theorem hist_run_IdInv (ops : List Op) (h h' : Hist) (hi : IdInv h)
    (hr : Hist.run ops h = some h') : IdInv h' := by
  induction ops generalizing h with
  | nil =>
    simp only [Hist.run, Option.some.injEq] at hr
    subst hr
    exact hi
  | cons op ops ih =>
    simp only [Hist.run] at hr
    split at hr
    · simp at hr
    · rename_i h1 hs
      exact ih h1 (hist_step_IdInv op h h1 hi hs) hr

theorem slot_scan_total (mx : Nat) (st : List query_status) (c : Nat)
    (h : ∃ q ∈ st, q.in_use = false) : ∃ n, slot_scan mx st c = some n := by
  induction st generalizing c with
  | nil => simp at h
  | cons x rest ih =>
    unfold slot_scan
    split
    · rename_i hx
      apply ih
      obtain ⟨q, hq, hf⟩ := h
      rcases List.mem_cons.mp hq with rfl | hq
      · rw [hx.1] at hf; exact absurd hf (by decide)
      · exact ⟨q, hq, hf⟩
    · exact ⟨c, rfl⟩

theorem exists_free (st : List query_status) (h : in_use_count st < st.length) :
    ∃ q ∈ st, q.in_use = false := by
  by_contra hn
  push_neg at hn
  have : in_use_count st = st.length := by
    unfold in_use_count
    rw [List.countP_eq_length]
    intro q hq
    have := hn q hq
    simpa using this
  omega

/-- Under the condition of the inner loop the slot search stays inside the table:
`send_query` has a defined result in a well-formed state with fewer queries outstanding
than the limit. -/
theorem send_query_total (env : SendEnv) (line : List Char) (s : State) (hw : WF s)
    (hg : s.num_queries_outstanding < s.max_queries_outstanding) :
    ∃ r, send_query env line s = some r := by
  have hfree : ∃ q ∈ s.status, q.in_use = false := by
    apply exists_free
    have := hw.out
    have := hw.lim
    omega
  unfold send_query
  simp only
  split
  · exact ⟨_, rfl⟩
  · split
    · exact ⟨_, rfl⟩
    · have hst : ∀ t : State, t.status = s.status → t.max_queries_outstanding = s.max_queries_outstanding →
          ∃ n q, slot_scan t.max_queries_outstanding t.status 0 = some n ∧ t.status[n]? = some q := by
        intro t h1 h2
        rw [h1, h2]
        obtain ⟨n, hn⟩ := slot_scan_total s.max_queries_outstanding s.status 0 hfree
        obtain ⟨_, q, hq, _⟩ := slot_scan_spec _ _ _ _ hn
        exact ⟨n, q, hn, hq⟩
      split
      · rename_i hnone
        exfalso
        split at hnone
        · obtain ⟨n, q, hn, _⟩ := hst
            { s with use_query_id := (s.use_query_id + 1) % 65536,
                     time_of_first_query := env.now_first, setup_phase := false } rfl rfl
          rw [hn] at hnone
          simp at hnone
        · obtain ⟨n, q, hn, _⟩ := hst
            { s with use_query_id := (s.use_query_id + 1) % 65536 } rfl rfl
          rw [hn] at hnone
          simp at hnone
      · rename_i count hscan
        split
        · rename_i hnone
          exfalso
          split at hscan
          · obtain ⟨n, q, hn, hq⟩ := hst
              { s with use_query_id := (s.use_query_id + 1) % 65536,
                       time_of_first_query := env.now_first, setup_phase := false } rfl rfl
            rw [hn] at hscan
            simp only [Option.some.injEq] at hscan
            subst hscan
            simp only [List.get?_eq_getElem?] at hnone
            rw [if_pos (by assumption)] at hnone
            rw [hq] at hnone
            simp at hnone
          · obtain ⟨n, q, hn, hq⟩ := hst
              { s with use_query_id := (s.use_query_id + 1) % 65536 } rfl rfl
            rw [hn] at hscan
            simp only [Option.some.injEq] at hscan
            subst hscan
            simp only [List.get?_eq_getElem?] at hnone
            rw [if_neg (by assumption)] at hnone
            rw [hq] at hnone
            simp at hnone
        · split <;> exact ⟨_, rfl⟩

/-- A step of the loop of `main` from a well-formed state is defined, unless it hands
`update_config` a directive on which that has no defined result: `send_query` never
reads outside the table there. -/
theorem main_step_total (e : Env) (m : Main) (hw : WF m.g) (hn : main_step e m = none) :
    ∃ d, step_directive e m = some d ∧ update_config e.sys d.1 d.2 = none := by
  unfold step_directive
  simp only
  unfold main_step at hn
  obtain ⟨K, hK⟩ : ∃ K, K = keep_sending e.now m.got_eof m.g := ⟨_, rfl⟩
  rw [← hK] at hn ⊢
  have hkw : WF K.2.2 := by rw [hK]; exact keep_sending_WF _ _ _ hw
  obtain ⟨u, hu⟩ := next_input_line_frame m.input_line MAX_INPUT_LEN K.2.2
  obtain ⟨R, hR⟩ : ∃ R, R = next_input_line m.input_line MAX_INPUT_LEN K.2.2 := ⟨_, rfl⟩
  rw [← hR] at hu ⊢
  cases hpc : m.pc <;> rw [hpc] at hn <;> simp only at hn
  · split at hn <;> exact absurd hn (by simp)
  · rw [← hR] at hn
    by_cases hgate : K.1 = true ∧ queries_outstanding K.2.2 < K.2.2.max_queries_outstanding
    · rw [if_pos hgate] at hn
      by_cases h0 : R.1 = 0
      · rw [if_pos h0] at hn
        exact absurd hn (by simp)
      · rw [if_neg h0] at hn
        by_cases hc : R.2.1.head? = some CONFIG_CHAR
        · rw [if_pos hc] at hn
          refine ⟨(cstr R.2.1, R.2.2), ?_, ?_⟩
          · simp only
            rw [if_pos ⟨trivial, hgate.1, hgate.2, h0, hc⟩]
          · split at hn
            · rename_i hnone
              exact hnone
            · exact absurd hn (by simp)
        · rw [if_neg hc] at hn
          have hrw : WF R.2.2 := by rw [hu]; exact WF_congr _ _ hkw rfl rfl rfl rfl rfl
          have hg : R.2.2.num_queries_outstanding < R.2.2.max_queries_outstanding := by
            rw [hu]; exact hgate.2
          obtain ⟨r, hr⟩ := send_query_total e.send (cstr R.2.1) R.2.2 hrw hg
          rw [hr] at hn
          exact absurd hn (by simp)
    · rw [if_neg hgate] at hn
      exact absurd hn (by simp)
  · exact absurd hn (by simp)
  · split at hn <;> exact absurd hn (by simp)
  · exact absurd hn (by simp)
  · exact absurd hn (by simp)

/-- Every run of the loop of `main` from a well-formed state is defined, unless one of
its steps hands `update_config` a directive on which that has no defined result. -/
theorem run_total (es : List Env) (m : Main) (hw : WF m.g) (hn : run es m = none) :
    ∃ (es1 : List Env) (e : Env) (es2 : List Env) (m1 : Main) (d : List Char × State),
      es = es1 ++ e :: es2 ∧ run es1 m = some m1 ∧ step_directive e m1 = some d ∧
      update_config e.sys d.1 d.2 = none := by
  induction es generalizing m with
  | nil => exact absurd hn (by simp [run])
  | cons e es ih =>
    unfold run at hn
    cases hs : main_step e m with
    | none =>
      obtain ⟨d, hd, hu⟩ := main_step_total e m hw hs
      exact ⟨[], e, es, m, d, rfl, rfl, hd, hu⟩
    | some m1 =>
      rw [hs] at hn
      obtain ⟨es1, e1, es2, m2, d, hes, hr, hd, hu⟩ := ih m1 (main_step_WF e m m1 hw hs) hn
      refine ⟨e :: es1, e1, es2, m2, d, by rw [hes]; rfl, ?_, hd, hu⟩
      unfold run
      rw [hs]
      exact hr

/-- The function `set_max_queries` has no defined result only above the capacity, with a
byte count that wraps. -/
theorem set_max_queries_none (sys : Sys) (n : Nat) (s : State)
    (h : set_max_queries sys n s = none) :
    s.query_status_allocated < n ∧ 2 ^ 32 ≤ n * size_qs := by
  rcases Nat.lt_or_ge (n * size_qs) (2 ^ 32) with hlt | hge
  · obtain ⟨r, hr⟩ := set_max_queries_defined sys n s (Or.inr hlt)
    rw [hr] at h
    exact absurd h (by simp)
  · refine ⟨?_, hge⟩
    rcases Nat.lt_or_ge s.status.length n with h1 | h1
    · exact h1
    · obtain ⟨r, hr⟩ := set_max_queries_defined sys n s (Or.inl h1)
      rw [hr] at h
      exact absurd h (by simp)

theorem hist_step_keep (now : timeval) (eof : Bool) (h : Hist) :
    Hist.step (Op.keep now eof) h = some { h with g := (keep_sending now eof h.g).2.2 } := rfl

theorem hist_step_input (line : List Char) (n : Nat) (h : Hist) :
    Hist.step (Op.input line n) h = some { h with g := (next_input_line line n h.g).2.2 } := rfl

/-- Every step of the loop of `main` is a sequence of calls of a history. -/
theorem main_step_hist (e : Env) (m m' : Main) (hs : main_step e m = some m') (h : Hist)
    (hg : h.g = m.g) : ∃ ops h', Hist.run ops h = some h' ∧ h'.g = m'.g := by
  unfold main_step at hs
  split at hs
  · simp only at hs
    refine ⟨[Op.keep e.now m.got_eof], _, by simp only [Hist.run, hist_step_keep]; rfl, ?_⟩
    split at hs <;> (simp only [Option.some.injEq] at hs; subst hs; simp only [hg])
  · simp only at hs
    split at hs
    · split at hs
      · refine ⟨[Op.keep e.now m.got_eof, Op.input m.input_line MAX_INPUT_LEN], _,
          by simp only [Hist.run, hist_step_keep, hist_step_input]; rfl, ?_⟩
        simp only [Option.some.injEq] at hs; subst hs; simp only [hg]
      · split at hs
        · split at hs
          · simp at hs
          · rename_i g hgc
            simp only [Option.some.injEq] at hs; subst hs
            refine ⟨[Op.keep e.now m.got_eof, Op.input m.input_line MAX_INPUT_LEN,
              Op.config e.sys (cstr (next_input_line m.input_line MAX_INPUT_LEN
                (keep_sending e.now m.got_eof m.g).2.2).2.1)], ?_⟩
            simp only [Hist.run, hist_step_keep, hist_step_input, Hist.step, hg, hgc]
            exact ⟨_, rfl, rfl⟩
        · split at hs
          · simp at hs
          · rename_i q hq
            simp only [Option.some.injEq] at hs; subst hs
            refine ⟨[Op.keep e.now m.got_eof, Op.input m.input_line MAX_INPUT_LEN,
              Op.send e.send (cstr (next_input_line m.input_line MAX_INPUT_LEN
                (keep_sending e.now m.got_eof m.g).2.2).2.1)], ?_⟩
            simp only [Hist.run, hist_step_keep, hist_step_input, Hist.step, hg, hq]
            by_cases ho : q.1 = SendOutcome.registered
            · rw [if_pos ho]; exact ⟨_, rfl, rfl⟩
            · rw [if_neg ho]; exact ⟨_, rfl, rfl⟩
    · refine ⟨[Op.keep e.now m.got_eof], _, by simp only [Hist.run, hist_step_keep]; rfl, ?_⟩
      simp only [Option.some.injEq] at hs; subst hs; simp only [hg]
  · simp only [Option.some.injEq] at hs; subst hs
    exact ⟨[Op.retire e.now], _, rfl, by simp only [hg]⟩
  · split at hs
    · simp only [Option.some.injEq] at hs; subst hs
      exact ⟨[], h, rfl, hg⟩
    · rename_i recv _
      simp only [Option.some.injEq] at hs; subst hs
      cases recv with
      | none => exact ⟨[], h, rfl, hg⟩
      | some buf =>
        refine ⟨[Op.response (get_uint16 buf)], _, rfl, ?_⟩
        have : get_uint16 buf % 65536 = get_uint16 buf := by
          unfold get_uint16; exact Nat.mod_mod _ _
        simp only [this, hg, process_single_response]
  · simp only [Option.some.injEq] at hs; subst hs
    exact ⟨[Op.stamp_end e.now], _, rfl, by simp only [hg]⟩
  · simp only [Option.some.injEq] at hs; subst hs
    exact ⟨[], h, rfl, hg⟩

/-- Every run of the loop of `main` is a history of calls: the states the loop reaches
are states histories reach. -/
theorem run_hist (es : List Env) (m m' : Main) (hr : run es m = some m') (h : Hist)
    (hg : h.g = m.g) : ∃ ops h', Hist.run ops h = some h' ∧ h'.g = m'.g := by
  induction es generalizing m h with
  | nil =>
    simp only [run, Option.some.injEq] at hr
    subst hr
    exact ⟨[], h, rfl, hg⟩
  | cons e es ih =>
    simp only [run] at hr
    split at hr
    · simp at hr
    · rename_i m1 hs
      obtain ⟨ops1, h1, hr1, hg1⟩ := main_step_hist e m m1 hs h hg
      obtain ⟨ops2, h2, hr2, hg2⟩ := ih m1 hr h1 hg1
      exact ⟨ops1 ++ ops2, h2, by rw [hist_run_append, hr1]; exact hr2, hg2⟩

theorem main_step_exit (e : Env) (m m' : Main) (hs : main_step e m = some m')
    (h0 : m.pc = Pc.finish ∨ m.pc = Pc.exited → m.g.num_queries_outstanding = 0)
    (hpc : m'.pc = Pc.finish ∨ m'.pc = Pc.exited) : m'.g.num_queries_outstanding = 0 := by
  unfold main_step at hs
  cases hp : m.pc <;> rw [hp] at hs <;> simp only at hs
  · split at hs
    · simp only [Option.some.injEq] at hs; subst hs
      simp at hpc
    · rename_i hc
      simp only [Option.some.injEq] at hs; subst hs
      simp only [queries_outstanding] at hc
      show (keep_sending e.now m.got_eof m.g).2.2.num_queries_outstanding = 0
      omega
  · split at hs
    · split at hs
      · simp only [Option.some.injEq] at hs; subst hs
        simp [hp] at hpc
      · split at hs
        · split at hs
          · simp at hs
          · simp only [Option.some.injEq] at hs; subst hs
            simp [hp] at hpc
        · split at hs
          · simp at hs
          · simp only [Option.some.injEq] at hs; subst hs
            simp [hp] at hpc
    · simp only [Option.some.injEq] at hs; subst hs
      simp at hpc
  · simp only [Option.some.injEq] at hs; subst hs
    simp at hpc
  · split at hs
    · simp only [Option.some.injEq] at hs; subst hs
      simp at hpc
    · simp only [Option.some.injEq] at hs; subst hs
      simp [hp] at hpc
  · simp only [Option.some.injEq] at hs; subst hs
    exact h0 (Or.inl hp)
  · simp only [Option.some.injEq] at hs; subst hs
    exact h0 (Or.inr hp)

/-- The loop of `main` is left only with no query outstanding. -/
theorem run_exit (es : List Env) (m m' : Main) (hr : run es m = some m')
    (h0 : m.pc = Pc.finish ∨ m.pc = Pc.exited → m.g.num_queries_outstanding = 0)
    (hpc : m'.pc = Pc.finish ∨ m'.pc = Pc.exited) : m'.g.num_queries_outstanding = 0 := by
  induction es generalizing m with
  | nil =>
    simp only [run, Option.some.injEq] at hr
    subst hr
    exact h0 hpc
  | cons e es ih =>
    simp only [run] at hr
    split at hr
    · simp at hr
    · rename_i m1 hs
      exact ih m1 hr (main_step_exit e m m1 hs h0)

theorem hist_step_stop (op : Op) (h h' : Hist) (hst : h.g.stop = true)
    (hs : Hist.step op h = some h') : h'.g.stop = true := by
  cases op with
  | set_max sys n =>
    obtain ⟨r, hr0, rfl⟩ := hist_step_set_max sys n h h' hs
    exact (set_max_queries_frame sys _ h.g r hr0).2.2.2.1.trans hst
  | config sys line =>
    obtain ⟨g, hg, rfl⟩ := hist_step_config sys line h h' hs
    exact (update_config_frame sys line h.g g hg).2.2.2.1.trans hst
  | keep now eof =>
    simp only [Hist.step, Option.some.injEq] at hs
    subst hs
    show (keep_sending now eof h.g).2.2.stop = true
    rw [keep_sending_stopped now eof h.g hst]
    exact hst
  | input line n =>
    simp only [Hist.step, Option.some.injEq] at hs
    subst hs
    obtain ⟨u, hu⟩ := next_input_line_frame line n h.g
    simp only [hu]
    exact hst
  | send env line =>
    simp only [Hist.step] at hs
    split at hs
    · simp at hs
    · rename_i o g hq
      obtain ⟨_, _, _, hstop, _⟩ := send_query_spec env line h.g g o hq
      split at hs <;> (simp only [Option.some.injEq] at hs; subst hs; exact hstop.trans hst)
  | response id =>
    simp only [Hist.step, Option.some.injEq] at hs
    subst hs
    exact (register_response_frame _ h.g).1.trans hst
  | retire now =>
    simp only [Hist.step, Option.some.injEq] at hs
    subst hs
    exact (retire_old_queries_frame now h.g).1.trans hst
  | stamp_end now =>
    simp only [Hist.step, Option.some.injEq] at hs
    subst hs
    exact hst

theorem hist_run_stop (ops : List Op) (h h' : Hist) (hst : h.g.stop = true)
    (hr : Hist.run ops h = some h') : h'.g.stop = true := by
  induction ops generalizing h with
  | nil =>
    simp only [Hist.run, Option.some.injEq] at hr
    subst hr
    exact hst
  | cons op ops ih =>
    simp only [Hist.run] at hr
    split at hr
    · simp at hr
    · rename_i h1 hs
      exact ih h1 (hist_step_stop op h h1 hst hs) hr

theorem acct_completed (h : Hist) (ha : Acct h) (hlt : h.registered < 2 ^ 32) :
    h.g.num_queries_sent = h.registered ∧
    h.g.num_queries_sent
      = h.matched + h.g.num_queries_timed_out + h.g.num_queries_outstanding ∧
    (h.g.num_queries_outstanding = 0 →
      num_queries_completed h.g = h.matched ∧
      h.g.num_queries_timed_out ≤ h.g.num_queries_sent) := by
  obtain ⟨h1, h2⟩ := ha hlt
  refine ⟨h1, by omega, ?_⟩
  intro h0
  unfold num_queries_completed
  constructor
  · rw [h1, h2, h0]
    have : h.matched + h.g.num_queries_timed_out + 0 + 2 ^ 32 - h.g.num_queries_timed_out
        = h.matched + 2 ^ 32 := by omega
    rw [this, Nat.add_mod_right]
    apply Nat.mod_eq_of_lt
    omega
  · omega

theorem main_enter_WF (now : timeval) (sys : Sys) (opts : List (Char × List Char)) (m : Main)
    (h : main_enter now sys opts = some m) : WF m.g :=
  (main_enter_Fresh now sys opts m h).wf

theorem run_append (a b : List Env) (m : Main) :
    run (a ++ b) m = (run a m).bind (run b) := by
  induction a generalizing m with
  | nil => rfl
  | cons e a ih =>
    simp only [List.cons_append, run]
    cases main_step e m with
    | none => rfl
    | some m1 => exact ih m1

theorem run_cons (e : Env) (es : List Env) (m m1 : Main) (h : main_step e m = some m1) :
    run (e :: es) m = run es m1 := by
  simp only [run, h]

theorem next_bad (line rest : List Char) (s : State) (hu : s.unread = bad_line ++ rest) :
    next_input_line line MAX_INPUT_LEN s = (2, bad_line, { s with unread := rest }) := by
  unfold next_input_line
  rw [hu]
  have : (bad_line ++ rest).length + 1 = (rest.length + 2) + 1 := by
    simp [bad_line]
  rw [this]
  simp [next_input_line_loop, fgets, bad_line, MAX_INPUT_LEN, fgets_take, NEWLINE, COMMENT_CHAR, cstr, NUL]

theorem inner_bad (m : Main) (rest : List Char) (hpc : m.pc = Pc.inner)
    (heof : m.got_eof = false) (hstop : m.g.stop = false) (htl : m.g.use_timelimit = false)
    (hgate : m.g.num_queries_outstanding < m.g.max_queries_outstanding)
    (hu : m.g.unread = bad_line ++ rest) :
    main_step c3_env m =
      some { m with input_line := bad_line,
                    g := { m.g with unread := rest,
                                    use_query_id := (m.g.use_query_id + 1) % 65536 } } := by
  have hk : keep_sending c3_env.now m.got_eof m.g = (true, false, m.g) := by
    unfold keep_sending timelimit_reached
    simp [hstop, heof, htl]
  unfold main_step
  rw [hpc]
  simp only [hk, queries_outstanding, hgate, and_self, if_true]
  rw [next_bad m.input_line rest m.g hu]
  simp [bad_line, CONFIG_CHAR, cstr, NUL, NEWLINE, send_query, parse_query, strtok, strtok_next, WHITESPACE, TAB, heof]

theorem run_bad_lines (n : Nat) (m : Main) (rest : List Char) (hpc : m.pc = Pc.inner)
    (heof : m.got_eof = false) (hstop : m.g.stop = false) (htl : m.g.use_timelimit = false)
    (hgate : m.g.num_queries_outstanding < m.g.max_queries_outstanding)
    (hid : m.g.use_query_id < 65536)
    (hu : m.g.unread = (List.replicate n bad_line).flatten ++ rest) :
    ∃ m', run (List.replicate n c3_env) m = some m' ∧ m'.pc = Pc.inner ∧
      m'.got_eof = false ∧
      m'.g = { m.g with unread := rest, use_query_id := (m.g.use_query_id + n) % 65536 } := by
  induction n generalizing m with
  | zero =>
    refine ⟨m, rfl, hpc, heof, ?_⟩
    simp only [List.replicate, List.flatten_nil, List.nil_append] at hu
    rw [← hu, Nat.add_zero, Nat.mod_eq_of_lt hid]
  | succ n ih =>
    have hu' : m.g.unread = bad_line ++ ((List.replicate n bad_line).flatten ++ rest) := by
      rw [hu, List.replicate_succ, List.flatten_cons, List.append_assoc]
    have hstep := inner_bad m _ hpc heof hstop htl hgate hu'
    obtain ⟨m', hr, h1, h2, h3⟩ := ih
      { m with input_line := bad_line,
               g := { m.g with unread := (List.replicate n bad_line).flatten ++ rest,
                               use_query_id := (m.g.use_query_id + 1) % 65536 } }
      hpc heof hstop htl hgate (Nat.mod_lt _ (by norm_num)) rfl
    refine ⟨m', ?_, h1, h2, ?_⟩
    · simp only [List.replicate_succ, run, hstep]
      exact hr
    · rw [h3]
      have : ((m.g.use_query_id + 1) % 65536 + n) % 65536 = (m.g.use_query_id + (n + 1)) % 65536 := by
        omega
      simp only [this]

theorem next_good (line rest : List Char) (s : State) (hu : s.unread = ex_line ++ rest) :
    next_input_line line MAX_INPUT_LEN s = (4, ex_line, { s with unread := rest }) := by
  unfold next_input_line
  rw [hu]
  have : (ex_line ++ rest).length + 1 = (rest.length + 4) + 1 := by
    simp [ex_line]
  rw [this]
  simp [next_input_line_loop, fgets, ex_line, MAX_INPUT_LEN, fgets_take, NEWLINE, COMMENT_CHAR, cstr, NUL]

theorem outer_open (m : Main) (hpc : m.pc = Pc.outer)
    (heof : m.got_eof = false) (hstop : m.g.stop = false) (htl : m.g.use_timelimit = false) :
    main_step c3_env m = some { m with pc := Pc.inner } := by
  have hk : keep_sending c3_env.now m.got_eof m.g = (true, false, m.g) := by
    unfold keep_sending timelimit_reached
    simp [hstop, heof, htl]
  unfold main_step
  rw [hpc]
  simp only [hk, true_or, if_true]
  rw [← heof]

theorem inner_good (m : Main) (rest : List Char) (hpc : m.pc = Pc.inner)
    (heof : m.got_eof = false) (hstop : m.g.stop = false) (htl : m.g.use_timelimit = false)
    (hgate : m.g.num_queries_outstanding < m.g.max_queries_outstanding)
    (hu : m.g.unread = ex_line ++ rest) :
    main_step c3_env m =
      (send_query ex_send ex_line { m.g with unread := rest }).map
        (fun q => { m with input_line := ex_line, g := q.2 }) := by
  have hk : keep_sending c3_env.now m.got_eof m.g = (true, false, m.g) := by
    unfold keep_sending timelimit_reached
    simp [hstop, heof, htl]
  unfold main_step
  rw [hpc]
  simp only [hk, queries_outstanding, hgate, and_self, if_true]
  rw [next_good m.input_line rest m.g hu]
  have hc : cstr ex_line = ex_line := by decide
  have hh : ¬ (ex_line.head? = some CONFIG_CHAR) := by decide
  simp only [hc, hh, if_false, OfNat.ofNat_ne_zero, c3_env]
  cases send_query ex_send ex_line { m.g with unread := rest } with
  | none => rfl
  | some q => simp [heof]

theorem c3_enter : main_enter ⟨100, 0⟩ c3_sys [] = some c3_m0 := rfl

theorem c3_send2 : send_query ex_send ex_line
      { c3_m0.g with unread := (List.replicate 65535 bad_line).flatten ++ ex_line }
    = some (SendOutcome.registered, c3_g2) := rfl

theorem c3_send4 : send_query ex_send ex_line
      { c3_g2 with unread := [], use_query_id := (c3_g2.use_query_id + 65535) % 65536 }
    = some (SendOutcome.registered, c3_g4) := rfl

theorem c3_main :
    ∃ m', run c3_envs c3_m0 = some m' ∧ m'.g = c3_g4 := by
  have hs1 : main_step c3_env c3_m0 = some { c3_m0 with pc := Pc.inner } :=
    outer_open c3_m0 rfl rfl rfl rfl
  have hs2 := inner_good { c3_m0 with pc := Pc.inner }
    ((List.replicate 65535 bad_line).flatten ++ ex_line) rfl rfl rfl rfl (by decide) rfl
  rw [c3_send2] at hs2
  simp only [Option.map_some'] at hs2
  obtain ⟨m3, hr3, hpc3, heof3, hg3⟩ := run_bad_lines 65535
    { c3_m0 with pc := Pc.inner, input_line := ex_line, g := c3_g2 } ex_line
    rfl rfl rfl rfl (by decide) (by decide) rfl
  have hs4 := inner_good m3 [] hpc3 heof3 (by rw [hg3]; rfl) (by rw [hg3]; rfl)
    (by rw [hg3]; decide) (by rw [hg3]; rfl)
  rw [hg3] at hs4
  simp only at hs4
  rw [c3_send4] at hs4
  simp only [Option.map_some'] at hs4
  refine ⟨{ m3 with input_line := ex_line, g := c3_g4 }, ?_, rfl⟩
  unfold c3_envs
  rw [run_cons _ _ _ _ hs1, run_cons _ _ _ _ hs2, run_append, hr3, Option.some_bind,
    run_cons _ _ _ _ hs4]
  rfl

/-- One step of the search of `parse_query` through the table of query types. -/
theorem find_zip_cons (k : List Char) (c : Nat) (ks : List (List Char)) (cs : List Nat)
    (ty : List Char) :
    ((((k :: ks).zip (c :: cs)).find? (fun p => p.1 = ty)).map (fun p => p.2))
      = if ty = k then some c
        else (((ks.zip cs).find? (fun p => p.1 = ty)).map (fun p => p.2)) := by
  by_cases h : ty = k
  · subst h
    simp [List.find?]
  · have h' : ¬ k = ty := fun e => h e.symm
    simp only [List.zip_cons_cons, List.find?_cons, h', decide_False, if_neg h]

/-- The search of `parse_query` through `QTYPE_STRINGS` and `QTYPE_CODES` finds the code
the table of the specification gives. -/
theorem qtype_lookup (type_str : List Char) :
    ((QTYPE_STRINGS.zip QTYPE_CODES).find? (fun p => p.1 = type_str)).map (fun p => p.2)
      = spec_qtype type_str := by
  unfold spec_qtype QTYPE_STRINGS QTYPE_CODES
  iterate 22 rw [find_zip_cons]
  rfl

/-- A line `parse_query` rejects ends `send_query` in its first branch, with the id
counter advanced. -/
theorem send_query_rejected (env : SendEnv) (line : List Char) (s : State)
    (h : parse_query line MAX_DOMAIN_LEN = none) :
    send_query env line s =
      some (SendOutcome.parse_error, { s with use_query_id := (s.use_query_id + 1) % 65536 }) := by
  unfold send_query
  simp only [h]

/-- A table whose first `n` records are all in use has at least `n` records in use. -/
theorem prefix_in_use_count (st : List query_status) :
    ∀ (n : Nat), n ≤ st.length →
      (∀ j p, j < n → st[j]? = some p → p.in_use = true) → n ≤ in_use_count st := by
  induction st with
  | nil =>
    intro n hn _
    simp only [List.length_nil, Nat.le_zero_eq] at hn
    omega
  | cons q rest ih =>
    intro n hn h
    cases n with
    | zero => omega
    | succ k =>
      have hq : q.in_use = true := h 0 q (by omega) (by simp)
      have hk : k ≤ in_use_count rest := by
        apply ih k (by simpa using hn)
        intro j p hj hp
        exact h (j + 1) p (by omega) (by simpa using hp)
      have hc : in_use_count (q :: rest) = in_use_count rest + 1 := by
        unfold in_use_count
        exact List.countP_cons_of_pos _ _ hq
      omega

/-- Under the admission gate the slot search of `send_query` stops inside the table, below
the limit, at the first record that is not in use. -/
theorem slot_scan_gate (mx : Nat) (st : List query_status)
    (hgate : in_use_count st < mx) (hmax : mx ≤ st.length) :
    ∃ count q, slot_scan mx st 0 = some count ∧ count < mx ∧ st[count]? = some q ∧
      q.in_use = false ∧ ∀ j p, j < count → st[j]? = some p → p.in_use = true := by
  obtain ⟨n, hn⟩ := slot_scan_total mx st 0 (exists_free st (by omega))
  obtain ⟨_, q, hq, hstop, hlow⟩ := slot_scan_spec mx st 0 n hn
  simp only [Nat.sub_zero] at hq hlow
  have hlen : n < st.length := by
    rcases Nat.lt_or_ge n st.length with h | h
    · exact h
    · rw [List.getElem?_eq_none h] at hq
      exact absurd hq (by simp)
  have hpre := prefix_in_use_count st n (by omega) hlow
  have hfree : q.in_use = false := by
    cases hu : q.in_use with
    | false => rfl
    | true =>
      exfalso
      have hge : ¬ n < mx := fun h => hstop ⟨hu, h⟩
      omega
  exact ⟨n, q, hn, by omega, hq, hfree, hlow⟩

/-- What `parse_query` returns on a line with at least two tokens, from the first two
tokens alone. -/
theorem parse_query_tokens (input dom r1 ty r2 : List Char) (n : Nat)
    (h1 : strtok WHITESPACE input = some (dom, r1))
    (h2 : strtok WHITESPACE r1 = some (ty, r2)) :
    parse_query input n =
      if dom.length > n then none else (spec_qtype ty).map (fun c => (dom, c)) := by
  have hq := qtype_lookup ty
  unfold parse_query
  simp only [h1, strtok_next, h2]
  by_cases hlen : dom.length > n
  · rw [if_pos hlen, if_pos hlen]
  · rw [if_neg hlen, if_neg hlen]
    cases hf : (QTYPE_STRINGS.zip QTYPE_CODES).find? (fun p => p.1 = ty) with
    | none =>
      rw [hf] at hq
      rw [← hq]
      rfl
    | some p =>
      rw [hf] at hq
      rw [← hq]
      rfl

/-- `fgets_take` on a line that fits: the line is read up to and with its newline. -/
theorem fgets_take_line (body rest : List Char) :
    ∀ (k : Nat), NEWLINE ∉ body → body.length < k →
      fgets_take k (body ++ NEWLINE :: rest) = (body ++ [NEWLINE], rest) := by
  induction body with
  | nil =>
    intro k _ hk
    cases k with
    | zero => omega
    | succ k => simp [fgets_take]
  | cons x xs ih =>
    intro k hn hk
    cases k with
    | zero => simp at hk
    | succ k =>
      have hx : ¬ x = NEWLINE := fun h => hn (by simp [h])
      have hxs : NEWLINE ∉ xs := fun h => hn (by simp [h])
      have := ih k hxs (by simpa using hk)
      simp only [List.cons_append, fgets_take, if_neg hx]
      change (x :: (fgets_take k (xs ++ NEWLINE :: rest)).1,
        (fgets_take k (xs ++ NEWLINE :: rest)).2) = _
      rw [this]

/-- `fgets` reads a text line whole. -/
theorem fgets_text_line (l rest : List Char) (hl : text_line l) :
    fgets MAX_INPUT_LEN (l ++ rest) = some (l, rest) := by
  obtain ⟨body, rfl, hn, _, hlen⟩ := hl
  unfold fgets
  rw [if_neg (by simp)]
  have hk : body.length < MAX_INPUT_LEN - 1 := by
    simp only [List.length_append, List.length_singleton] at hlen
    omega
  have := fgets_take_line body rest (MAX_INPUT_LEN - 1) hn hk
  simp only [List.append_assoc, List.singleton_append]
  rw [this]

/-- A text line is not empty, and the test of `next_input_line` on its first character
holds exactly for the lines the specification skips. -/
theorem text_line_skipped (l : List Char) (hl : text_line l) :
    l ≠ [] ∧ ((l.head? = some COMMENT_CHAR ∨ l.head? = some NEWLINE) ↔ skipped_line l = true) := by
  obtain ⟨body, rfl, hn, _, _⟩ := hl
  refine ⟨by simp, ?_⟩
  unfold skipped_line
  cases body with
  | nil => simp
  | cons x xs =>
    have hx : ¬ x = NEWLINE := fun h => hn (by simp [h])
    have hne : ¬ COMMENT_CHAR = NEWLINE := by decide
    simp only [List.cons_append, List.head?_cons, Option.some.injEq, Bool.or_eq_true,
      decide_eq_true_eq, List.cons.injEq]
    constructor
    · rintro (h | h)
      · exact Or.inr h
      · exact absurd h hx
    · rintro (⟨h, _⟩ | h)
      · exact absurd h hx
      · exact Or.inl h

/-- A text line holds no NUL: as a C string it is the whole line. -/
theorem text_line_cstr (l : List Char) (hl : text_line l) : cstr l = l := by
  obtain ⟨body, rfl, _, hz, _⟩ := hl
  unfold cstr
  rw [List.takeWhile_eq_self_iff]
  intro c hc
  have hne : ¬ NEWLINE = NUL := by decide
  simp only [List.mem_append, List.mem_singleton] at hc
  rcases hc with hc | hc
  · simp only [ne_eq, decide_not, Bool.not_eq_eq_eq_not, Bool.not_true, decide_eq_false_iff_not]
    intro h
    exact hz (h ▸ hc)
  · subst hc
    simp [hne]

/-- The loop of `next_input_line` reads over lines that are skipped. -/
theorem loop_skips (skip : List (List Char)) :
    ∀ (fuel : Nat) (buf tailu : List Char), (∀ l ∈ skip, text_line l) →
      (∀ l ∈ skip, skipped_line l = true) → skip.length < fuel →
      next_input_line_loop MAX_INPUT_LEN fuel buf (skip.flatten ++ tailu)
        = next_input_line_loop MAX_INPUT_LEN (fuel - skip.length)
            (skip.getLast?.getD buf) tailu := by
  induction skip with
  | nil => intro fuel buf tailu _ _ _; simp
  | cons l ls ih =>
    intro fuel buf tailu ht hs hf
    cases fuel with
    | zero => simp at hf
    | succ fuel =>
      have hl := ht l (by simp)
      have hsk := (text_line_skipped l hl).2.mpr (hs l (by simp))
      have hfg := fgets_text_line l (ls.flatten ++ tailu) hl
      simp only [List.flatten_cons, List.append_assoc]
      rw [next_input_line_loop]
      simp only [hfg]
      rw [if_pos hsk]
      rw [ih fuel l tailu (fun x hx => ht x (by simp [hx])) (fun x hx => hs x (by simp [hx]))
        (by simpa using hf)]
      have hlast : (l :: ls).getLast?.getD buf = ls.getLast?.getD l := by
        cases ls with
        | nil => rfl
        | cons y ys =>
          rw [List.getLast?_cons_cons]
          cases h : (y :: ys).getLast? with
          | none => simp at h
          | some z => rfl
      rw [hlast]
      simp

/-- An input of text lines has at least as many characters as lines. -/
theorem flatten_length_ge (lines : List (List Char)) (h : ∀ l ∈ lines, l ≠ []) :
    lines.length ≤ lines.flatten.length := by
  induction lines with
  | nil => simp
  | cons l ls ih =>
    have hl : l ≠ [] := h l (by simp)
    have := ih (fun x hx => h x (by simp [hx]))
    have hpos : 0 < l.length := List.length_pos.mpr hl
    simp only [List.length_cons, List.flatten_cons, List.length_append]
    omega

/-- `fgets_take` on the unterminated end of the input reads all of it. -/
theorem fgets_take_rest (body : List Char) :
    ∀ (k : Nat), NEWLINE ∉ body → body.length ≤ k → fgets_take k body = (body, []) := by
  induction body with
  | nil =>
    intro k _ _
    cases k <;> rfl
  | cons x xs ih =>
    intro k hn hk
    cases k with
    | zero => simp at hk
    | succ k =>
      have hx : ¬ x = NEWLINE := fun h => hn (by simp [h])
      have hxs : NEWLINE ∉ xs := fun h => hn (by simp [h])
      have := ih k hxs (by simpa using hk)
      simp only [fgets_take, if_neg hx, this]

/-- `fgets` reads the unterminated end of a text input whole. -/
theorem fgets_text_rest (last : List Char) (hl : text_rest last) (hne : last ≠ []) :
    fgets MAX_INPUT_LEN last = some (last, []) := by
  obtain ⟨hn, _, hlen⟩ := hl
  unfold fgets
  rw [if_neg hne, fgets_take_rest last (MAX_INPUT_LEN - 1) hn (by omega)]

/-- The unterminated end of a text input holds no NUL. -/
theorem text_rest_cstr (last : List Char) (hl : text_rest last) : cstr last = last := by
  obtain ⟨_, hz, _⟩ := hl
  unfold cstr
  rw [List.takeWhile_eq_self_iff]
  intro c hc
  simp only [ne_eq, decide_not, Bool.not_eq_eq_eq_not, Bool.not_true, decide_eq_false_iff_not]
  intro h
  exact hz (h ▸ hc)

/-- What `next_input_line` does on a text input, from the lines skipped and what follows
them. -/
theorem next_input_line_lines (skip rest : List (List Char)) (last buf : List Char)
    (s : State) (ht : ∀ l ∈ skip, text_line l) (hs : ∀ l ∈ skip, skipped_line l = true)
    (hr : ∀ l ∈ rest, text_line l) (hlast : text_rest last)
    (hu : s.unread = (skip ++ rest).flatten ++ last) :
    (rest = [] → last = [] ∨ skipped_line last = true →
      (next_input_line buf MAX_INPUT_LEN s).1 = 0 ∧
      (next_input_line buf MAX_INPUT_LEN s).2.2 = { s with unread := [] }) ∧
    (∀ l tl, rest = l :: tl → skipped_line l = false →
      next_input_line buf MAX_INPUT_LEN s
        = (l.length, l, { s with unread := tl.flatten ++ last })) ∧
    (rest = [] → last ≠ [] → skipped_line last = false →
      next_input_line buf MAX_INPUT_LEN s = (last.length, last, { s with unread := [] })) := by
  have hall : ∀ l ∈ skip ++ rest, l ≠ [] := by
    intro l hl
    rcases List.mem_append.mp hl with h | h
    · exact (text_line_skipped l (ht l h)).1
    · exact (text_line_skipped l (hr l h)).1
  have hlen := flatten_length_ge (skip ++ rest) hall
  have hulen : s.unread.length = (skip ++ rest).flatten.length + last.length := by
    rw [hu, List.length_append]
  have hfuel : skip.length < s.unread.length + 1 := by
    simp only [List.length_append] at hlen
    omega
  have hloop := loop_skips skip (s.unread.length + 1) buf (rest.flatten ++ last) ht hs hfuel
  have hu' : s.unread = skip.flatten ++ (rest.flatten ++ last) := by
    rw [hu, List.flatten_append, List.append_assoc]
  rw [← hu'] at hloop
  refine ⟨?_, ?_, ?_⟩
  · intro hnil hl
    subst hnil
    obtain ⟨k, hk⟩ : ∃ k, s.unread.length + 1 - skip.length = k + 2 ∨
        (last = [] ∧ s.unread.length + 1 - skip.length = k + 1) := by
      cases last with
      | nil => exact ⟨s.unread.length - skip.length, Or.inr ⟨rfl, by omega⟩⟩
      | cons x xs =>
        refine ⟨s.unread.length - skip.length - 1, Or.inl ?_⟩
        simp only [List.length_append, List.length_cons, List.append_nil] at hlen hulen
        omega
    unfold next_input_line
    simp only
    rw [hloop]
    rcases hk with hk | ⟨hl0, hk⟩
    · rw [hk]
      rcases hl with hl | hl
      · subst hl
        simp [next_input_line_loop, fgets]
      · by_cases hne : last = []
        · subst hne
          simp [next_input_line_loop, fgets]
        · have hfg := fgets_text_rest last hlast hne
          have hsk : last.head? = some COMMENT_CHAR ∨ last.head? = some NEWLINE := by
            unfold skipped_line at hl
            simp only [Bool.or_eq_true, decide_eq_true_eq] at hl
            rcases hl with h | h
            · exact Or.inr (by rw [h]; rfl)
            · exact Or.inl h
          simp only [List.flatten_nil, List.nil_append]
          rw [next_input_line_loop]
          simp only [hfg]
          rw [if_pos hsk]
          simp [next_input_line_loop, fgets]
    · subst hl0
      rw [hk]
      simp [next_input_line_loop, fgets]
  · intro l tl hcons hnot
    subst hcons
    obtain ⟨k, hk⟩ : ∃ k, s.unread.length + 1 - skip.length = k + 1 :=
      ⟨s.unread.length - skip.length, by omega⟩
    have hl : text_line l := hr l (by simp)
    have hnsk : ¬ (l.head? = some COMMENT_CHAR ∨ l.head? = some NEWLINE) := by
      intro h
      rw [(text_line_skipped l hl).2.mp h] at hnot
      exact Bool.noConfusion hnot
    have hfg := fgets_text_line l (tl.flatten ++ last) hl
    unfold next_input_line
    simp only
    rw [hloop, hk]
    simp only [List.flatten_cons, List.append_assoc]
    rw [next_input_line_loop]
    simp only [hfg]
    rw [if_neg hnsk]
    simp only [Bool.false_eq_true, if_false, text_line_cstr l hl]
  · intro hnil hne hnot
    subst hnil
    obtain ⟨k, hk⟩ : ∃ k, s.unread.length + 1 - skip.length = k + 1 :=
      ⟨s.unread.length - skip.length, by omega⟩
    have hnsk : ¬ (last.head? = some COMMENT_CHAR ∨ last.head? = some NEWLINE) := by
      intro h
      rcases h with h | h
      · have : skipped_line last = true := by
          unfold skipped_line
          simp [h]
        rw [this] at hnot
        exact Bool.noConfusion hnot
      · apply hlast.1
        cases last with
        | nil => exact absurd rfl hne
        | cons x xs =>
          simp only [List.head?_cons, Option.some.injEq] at h
          simp [h]
    have hfg := fgets_text_rest last hlast hne
    unfold next_input_line
    simp only
    rw [hloop, hk]
    simp only [List.flatten_nil, List.nil_append]
    rw [next_input_line_loop]
    simp only [hfg]
    rw [if_neg hnsk]
    simp only [Bool.false_eq_true, if_false, text_rest_cstr last hlast]

/-- The lines of `c25_file` are text lines. -/
theorem c25_text_lines : ∀ l ∈ c25_lines, text_line l := by
  intro l hl
  simp only [c25_lines, List.mem_cons, List.mem_singleton, List.not_mem_nil, or_false] at hl
  rcases hl with rfl | rfl | rfl
  · exact ⟨[';', ' ', 'n', 'o', 't', 'e'], rfl, by decide, by decide, by decide⟩
  · exact ⟨[], rfl, by decide, by decide, by decide⟩
  · exact ⟨['e', 'x', 'a', 'm', 'p', 'l', 'e', '.', 'c', 'o', 'm', ' ', 'N', 'S'], rfl,
      by decide, by decide, by decide⟩

theorem is_digit_iff (c : Char) : is_digit c = true ↔ ('0' ≤ c ∧ c ≤ '9') := by
  unfold is_digit
  by_cases h : c < '0' ∨ c > '9'
  · rw [if_pos h]
    simp only [Bool.false_eq_true, false_iff, not_and, not_le]
    intro h0
    rcases h with h | h
    · exact absurd h (not_lt.mpr h0)
    · exact h
  · rw [if_neg h]
    simp only [true_iff]
    constructor
    · exact not_lt.mp (fun h1 => h (Or.inl h1))
    · exact not_lt.mp (fun h1 => h (Or.inr h1))

/-- On a string of digits `strtoul_digits` consumes everything and accumulates the
decimal value. -/
theorem strtoul_digits_all (str : List Char) :
    ∀ (acc : Nat), (∀ c ∈ str, '0' ≤ c ∧ c ≤ '9') →
      strtoul_digits str acc
        = (str.foldl (fun a c => a * 10 + (c.toNat - '0'.toNat)) acc, []) := by
  induction str with
  | nil => intro acc _; rfl
  | cons x xs ih =>
    intro acc h
    have hx : is_digit x = true := (is_digit_iff x).mpr (h x (by simp))
    unfold strtoul_digits
    rw [if_pos hx, ih _ (fun c hc => h c (by simp [hc]))]
    rfl

/-- On a string that holds a character that is no digit `strtoul_digits` stops before
the end. -/
theorem strtoul_digits_rest (str : List Char) :
    ∀ (acc : Nat), ¬ (∀ c ∈ str, '0' ≤ c ∧ c ≤ '9') → (strtoul_digits str acc).2 ≠ [] := by
  induction str with
  | nil => intro acc h; exact absurd (by simp) h
  | cons x xs ih =>
    intro acc h
    unfold strtoul_digits
    by_cases hx : is_digit x = true
    · rw [if_pos hx]
      apply ih
      intro hall
      apply h
      intro c hc
      rcases List.mem_cons.mp hc with rfl | hc
      · exact (is_digit_iff c).mp hx
      · exact hall c hc
    · rw [if_neg hx]
      simp

/-- With `errno` different from `ERANGE` at the call, `is_uint` does what the
specification asks. -/
theorem is_uint_spec (str : List Char) (r : Nat) (e : Int) (he : e ≠ ERANGE) :
    ((is_uint str r e).1, (is_uint str r e).2.1) = spec_is_uint str r := by
  cases str with
  | nil => simp [is_uint, spec_is_uint]
  | cons c cs =>
    by_cases hall : ∀ x ∈ c :: cs, '0' ≤ x ∧ x ≤ '9'
    · have hc : ¬ is_digit c = false := by
        rw [(is_digit_iff c).mpr (hall c (by simp))]
        simp
      have hd : strtoul_digits (c :: cs) 0 = (decimal_value (c :: cs), []) :=
        strtoul_digits_all (c :: cs) 0 hall
      unfold is_uint
      simp only
      rw [if_neg hc]
      unfold strtoul
      simp only [hd]
      by_cases hbig : decimal_value (c :: cs) > ULONG_MAX
      · rw [if_pos hbig]
        simp only [true_or, if_true]
        unfold spec_is_uint
        rw [if_neg]
        intro h
        unfold ULONG_MAX at hbig
        omega
      · rw [if_neg hbig]
        simp only [he, ne_eq, not_true_eq_false, false_or]
        by_cases hu : decimal_value (c :: cs) > UINT_MAX
        · rw [if_pos hu]
          unfold spec_is_uint
          rw [if_neg]
          intro h
          unfold UINT_MAX at hu
          omega
        · rw [if_neg hu]
          unfold spec_is_uint
          rw [if_pos]
          refine ⟨by simp, hall, ?_⟩
          unfold UINT_MAX at hu
          omega
    · have hspec : spec_is_uint (c :: cs) r = (false, r) := by
        unfold spec_is_uint
        rw [if_neg]
        intro h
        exact hall h.2.1
      rw [hspec]
      unfold is_uint
      simp only
      by_cases hc : is_digit c = false
      · rw [if_pos hc]
      · rw [if_neg hc]
        have hrest := strtoul_digits_rest (c :: cs) 0 hall
        have h2 : (strtoul (c :: cs) e).2.1 = (strtoul_digits (c :: cs) 0).2 := by
          unfold strtoul
          simp only
          split <;> rfl
        rw [if_pos (Or.inr (Or.inl (by rw [h2]; exact hrest)))]

theorem SameMode_refl (s : State) : SameMode s s := ⟨rfl, rfl, rfl, rfl⟩

theorem SameMode_trans (a b c : State) (h1 : SameMode a b) (h2 : SameMode b c) :
    SameMode a c :=
  ⟨h2.1.trans h1.1, h2.2.1.trans h1.2.1, h2.2.2.1.trans h1.2.2.1, h2.2.2.2.trans h1.2.2.2⟩

theorem next_input_line_mode (line : List Char) (n : Nat) (s : State) :
    SameMode s (next_input_line line n s).2.2 := by
  obtain ⟨u, hu⟩ := next_input_line_frame line n s
  rw [hu]
  exact ⟨rfl, rfl, rfl, rfl⟩

theorem update_config_mode (sys : Sys) (line : List Char) (s t : State)
    (ht : update_config sys line s = some t) : SameMode s t := by
  apply update_config_ind sys line s t (fun t => SameMode s t) ?_ ?_ ?_ ?_ ?_ ?_ ht
  · exact SameMode_refl s
  · intro v
    unfold set_server
    split
    · exact SameMode_refl s
    · split
      · exact SameMode_refl s
      · split
        · exact ⟨rfl, rfl, rfl, rfl⟩
        · split <;> exact ⟨rfl, rfl, rfl, rfl⟩
  · intro e
    exact ⟨rfl, rfl, rfl, rfl⟩
  · intro e v _
    unfold set_server_port
    split <;> exact ⟨rfl, rfl, rfl, rfl⟩
  · intro e v r _ _ hr
    rcases set_max_queries_cases sys v _ r hr with ⟨h2, _⟩ | ⟨h2, _⟩ <;> rw [h2] <;>
      exact ⟨rfl, rfl, rfl, rfl⟩
  · intro e v _
    exact ⟨rfl, rfl, rfl, rfl⟩

theorem send_query_mode (env : SendEnv) (line : List Char) (s t : State) (o : SendOutcome)
    (h : send_query env line s = some (o, t)) : SameMode s t := by
  unfold send_query at h
  simp only at h
  split at h
  · simp only [Option.some.injEq, Prod.mk.injEq] at h
    obtain ⟨_, rfl⟩ := h
    exact ⟨rfl, rfl, rfl, rfl⟩
  · split at h
    · simp only [Option.some.injEq, Prod.mk.injEq] at h
      obtain ⟨_, rfl⟩ := h
      exact ⟨rfl, rfl, rfl, rfl⟩
    · split at h
      · exact absurd h (by simp)
      · split at h
        · exact absurd h (by simp)
        · split at h
          · simp only [Option.some.injEq, Prod.mk.injEq] at h
            obtain ⟨_, rfl⟩ := h
            split <;> exact ⟨rfl, rfl, rfl, rfl⟩
          · simp only [Option.some.injEq, Prod.mk.injEq] at h
            obtain ⟨_, rfl⟩ := h
            split <;> exact ⟨rfl, rfl, rfl, rfl⟩

theorem retire_old_queries_mode (now : timeval) (s : State) :
    SameMode s (retire_old_queries now s) := ⟨rfl, rfl, rfl, rfl⟩

theorem register_response_mode (id : Nat) (s : State) :
    SameMode s (register_response id s).2 := by
  unfold SameMode
  rcases register_response_spec id s with ⟨_, h2, _⟩ | ⟨_, _, h2⟩ <;> rw [h2] <;> simp

theorem process_single_response_mode (recv : Option (List Nat)) (s : State) :
    SameMode s (process_single_response recv s) := by
  cases recv with
  | none => exact SameMode_refl s
  | some buf => exact register_response_mode (get_uint16 buf) s

/-- What a call of `keep_sending` does to the stop latch, `got_eof` and the pass counter:
it returns TRUE only with the latch and `got_eof` clear, FALSE only with the latch set;
an end of input it has not seen yet is counted, once; a stop without an end of input is
a time limit reached. -/
theorem keep_sending_pass (now : timeval) (eof : Bool) (s : State) :
    (keep_sending now eof s).2.2.run_only_once = s.run_only_once ∧
    (keep_sending now eof s).2.2.use_timelimit = s.use_timelimit ∧
    ((keep_sending now eof s).1 = true →
      (keep_sending now eof s).2.1 = false ∧ (keep_sending now eof s).2.2.stop = false) ∧
    ((keep_sending now eof s).1 = false → (keep_sending now eof s).2.2.stop = true) ∧
    (s.stop = true → keep_sending now eof s = (false, eof, s)) ∧
    (s.stop = false →
      ((keep_sending now eof s).1 = true ∧
        (keep_sending now eof s).2.2.runs_through_file
          = (if eof = true then (s.runs_through_file + 1) % 2 ^ 32 else s.runs_through_file) ∧
        (eof = true → s.run_only_once = false)) ∨
      ((keep_sending now eof s).1 = false ∧ (keep_sending now eof s).2.1 = eof ∧
        (keep_sending now eof s).2.2.runs_through_file
          = (if eof = true then (s.runs_through_file + 1) % 2 ^ 32 else s.runs_through_file) ∧
        (eof = false → timelimit_reached now s = true))) := by
  cases hs : s.stop with
  | true =>
    rw [keep_sending_stopped now eof s hs]
    simp [hs]
  | false =>
    have hs' : ¬ s.stop = true := by simp [hs]
    unfold keep_sending
    rw [if_neg hs']
    by_cases h1 : eof = false ∧ timelimit_reached now s = false
    · rw [if_pos h1]
      simp [hs, h1.1]
    · rw [if_neg h1]
      by_cases h2 : eof = true ∧ s.run_only_once = false ∧ timelimit_reached now s = false
      · rw [if_pos h2]
        simp [hs, h2.1, h2.2.1]
      · rw [if_neg h2]
        cases eof with
        | true => simp
        | false =>
          simp only [Bool.false_eq_true, if_false, true_and, not_true_eq_false] at h1 ⊢
          simp [h1]

/-- The steps of `main` by what they do to `got_eof` and the fields of `SameMode`: a test
of a loop condition that reads no end of input, a turn of the inner loop that reads one,
or a step outside the two tests. -/
theorem main_step_pass_cases (e : Env) (m m' : Main) (hs : main_step e m = some m') :
    ((m.pc = Pc.outer ∨ m.pc = Pc.inner) ∧ reads_eof e m = false ∧
      m'.got_eof = (keep_sending e.now m.got_eof m.g).2.1 ∧
      SameMode (keep_sending e.now m.got_eof m.g).2.2 m'.g ∧ m'.pc ≠ Pc.exited ∧
      (m'.pc = Pc.finish → (keep_sending e.now m.got_eof m.g).1 = false)) ∨
    (m.pc = Pc.inner ∧ reads_eof e m = true ∧
      (keep_sending e.now m.got_eof m.g).1 = true ∧ m'.got_eof = true ∧
      SameMode (keep_sending e.now m.got_eof m.g).2.2 m'.g ∧ m'.pc = Pc.inner) ∨
    (m.pc ≠ Pc.outer ∧ m.pc ≠ Pc.inner ∧ reads_eof e m = false ∧
      m'.got_eof = m.got_eof ∧ SameMode m.g m'.g ∧
      (m'.pc = Pc.finish ∨ m'.pc = Pc.exited → m.pc = Pc.finish ∨ m.pc = Pc.exited)) := by
  obtain ⟨K, hK⟩ : ∃ K, K = keep_sending e.now m.got_eof m.g := ⟨_, rfl⟩
  unfold reads_eof
  rw [← hK]
  unfold main_step at hs
  rw [← hK] at hs
  cases hpc : m.pc with
  | outer =>
    rw [hpc] at hs
    simp only at hs
    left
    split at hs
    · simp only [Option.some.injEq] at hs
      subst hs
      refine ⟨Or.inl rfl, by simp, rfl, SameMode_refl _, by simp, by simp⟩
    · rename_i hc
      simp only [Option.some.injEq] at hs
      subst hs
      refine ⟨Or.inl rfl, by simp, rfl, SameMode_refl _, by simp, ?_⟩
      intro _
      cases h : K.1 with
      | false => rfl
      | true => exact absurd (Or.inl h) hc
  | inner =>
    rw [hpc] at hs
    simp only at hs
    by_cases hc : K.1 = true ∧ queries_outstanding K.2.2 < K.2.2.max_queries_outstanding
    · rw [if_pos hc] at hs
      have hmode := next_input_line_mode m.input_line MAX_INPUT_LEN K.2.2
      by_cases h0 : (next_input_line m.input_line MAX_INPUT_LEN K.2.2).1 = 0
      · rw [if_pos h0] at hs
        simp only [Option.some.injEq] at hs
        subst hs
        right; left
        exact ⟨rfl, by simp [hc.1, hc.2, h0], hc.1, rfl, hmode, rfl⟩
      · rw [if_neg h0] at hs
        left
        split at hs
        · split at hs
          · exact absurd hs (by simp)
          · rename_i g hgc
            simp only [Option.some.injEq] at hs
            subst hs
            exact ⟨Or.inr rfl, by simp [h0], rfl,
              SameMode_trans _ _ _ hmode (update_config_mode _ _ _ g hgc), by simp [hpc],
              by simp [hpc]⟩
        · split at hs
          · exact absurd hs (by simp)
          · rename_i q hq
            simp only [Option.some.injEq] at hs
            subst hs
            exact ⟨Or.inr rfl, by simp [h0], rfl,
              SameMode_trans _ _ _ hmode (send_query_mode _ _ _ q.2 q.1 hq), by simp [hpc],
              by simp [hpc]⟩
    · rw [if_neg hc] at hs
      simp only [Option.some.injEq] at hs
      subst hs
      left
      refine ⟨Or.inr rfl, ?_, rfl, SameMode_refl _, by simp, by simp⟩
      simp only [Bool.and_eq_false_imp, Bool.and_eq_true, decide_eq_true_eq,
        decide_eq_false_iff_not]
      intro h
      exact absurd ⟨h.1.2, h.2⟩ hc
  | retire =>
    rw [hpc] at hs
    simp only [Option.some.injEq] at hs
    subst hs
    right; right
    exact ⟨by simp, by simp, by simp, rfl, retire_old_queries_mode _ _, by simp⟩
  | respond =>
    rw [hpc] at hs
    simp only at hs
    right; right
    split at hs
    · simp only [Option.some.injEq] at hs
      subst hs
      exact ⟨by simp, by simp, by simp, rfl, SameMode_refl _, by simp⟩
    · simp only [Option.some.injEq] at hs
      subst hs
      exact ⟨by simp, by simp, by simp, rfl, process_single_response_mode _ _, by simp [hpc]⟩
  | finish =>
    rw [hpc] at hs
    simp only [Option.some.injEq] at hs
    subst hs
    right; right
    exact ⟨by simp, by simp, by simp, rfl, ⟨rfl, rfl, rfl, rfl⟩, by simp⟩
  | exited =>
    rw [hpc] at hs
    simp only [Option.some.injEq] at hs
    subst hs
    right; right
    exact ⟨by simp, by simp, by simp, rfl, SameMode_refl _, by simp [hpc]⟩

/-- The function `parse_args` leaves the pass counter and the stop latch as they were. -/
theorem parse_args_pass (sys : Sys) (opts : List (Char × List Char)) (s : State)
    (r : Int × State) (hr : parse_args sys opts s = some r) :
    r.2.runs_through_file = s.runs_through_file ∧ r.2.stop = s.stop := by
  induction opts generalizing s with
  | nil =>
    unfold parse_args at hr
    simp only [Option.some.injEq] at hr
    subst hr
    simp only
    split <;> exact ⟨rfl, rfl⟩
  | cons o rest ih =>
    obtain ⟨c, optarg⟩ := o
    have key : ∀ t : State, t.runs_through_file = s.runs_through_file ∧ t.stop = s.stop →
        parse_args sys rest t = some r →
        r.2.runs_through_file = s.runs_through_file ∧ r.2.stop = s.stop :=
      fun t ht h => ⟨(ih t h).1.trans ht.1, (ih t h).2.trans ht.2⟩
    have fail : ∀ t : State, t.runs_through_file = s.runs_through_file ∧ t.stop = s.stop →
        some ((-1 : Int), t) = some r →
        r.2.runs_through_file = s.runs_through_file ∧ r.2.stop = s.stop := by
      intro t ht h
      simp only [Option.some.injEq] at h
      subst h
      exact ht
    unfold parse_args at hr
    by_cases hq : c = 'q'
    · rw [if_pos hq] at hr
      simp only at hr
      by_cases hv : (is_uint optarg 0 s.errno).1 = true
      · rw [if_pos hv] at hr
        split at hr
        · exact absurd hr (by simp)
        · rename_i p hp
          have hf := set_max_queries_frame sys _ _ p hp
          exact key _ (by exact ⟨hf.2.2.2.2.2.1, hf.2.2.2.1⟩) hr
      · rw [if_neg hv] at hr; exact fail _ (by exact ⟨rfl, rfl⟩) hr
    rw [if_neg hq] at hr
    by_cases ht : c = 't'
    · rw [if_pos ht] at hr
      simp only at hr
      by_cases hv : (is_uint optarg 0 s.errno).1 = true
      · rw [if_pos hv] at hr; exact key _ (by exact ⟨rfl, rfl⟩) hr
      · rw [if_neg hv] at hr; exact fail _ (by exact ⟨rfl, rfl⟩) hr
    rw [if_neg ht] at hr
    by_cases hn : c = 'n'
    · rw [if_pos hn] at hr; exact key _ (by exact ⟨rfl, rfl⟩) hr
    rw [if_neg hn] at hr
    by_cases hd : c = 'd'
    · rw [if_pos hd] at hr
      have hw : (set_datafile sys optarg s).2.runs_through_file = s.runs_through_file ∧
          (set_datafile sys optarg s).2.stop = s.stop := by
        unfold set_datafile
        split
        · exact ⟨rfl, rfl⟩
        · split <;> exact ⟨rfl, rfl⟩
      simp only at hr
      split at hr
      · exact fail _ (by exact hw) hr
      · exact key _ (by exact hw) hr
    rw [if_neg hd] at hr
    by_cases hs : c = 's'
    · rw [if_pos hs] at hr
      have hw : (set_server sys optarg s).2.runs_through_file = s.runs_through_file ∧
          (set_server sys optarg s).2.stop = s.stop := by
        unfold set_server
        split
        · exact ⟨rfl, rfl⟩
        · split
          · exact ⟨rfl, rfl⟩
          · split
            · exact ⟨rfl, rfl⟩
            · split <;> exact ⟨rfl, rfl⟩
      simp only at hr
      split at hr
      · exact fail _ (by exact hw) hr
      · exact key _ (by exact hw) hr
    rw [if_neg hs] at hr
    by_cases hp : c = 'p'
    · rw [if_pos hp] at hr
      simp only at hr
      split at hr
      · refine key _ ?_ hr
        unfold set_server_port
        split <;> exact ⟨rfl, rfl⟩
      · exact fail _ (by exact ⟨rfl, rfl⟩) hr
    rw [if_neg hp] at hr
    by_cases h1 : c = '1'
    · rw [if_pos h1] at hr; exact key _ (by exact ⟨rfl, rfl⟩) hr
    rw [if_neg h1] at hr
    by_cases hl : c = 'l'
    · rw [if_pos hl] at hr
      simp only at hr
      split at hr
      · exact key _ (by exact ⟨rfl, rfl⟩) hr
      · exact fail _ (by exact ⟨rfl, rfl⟩) hr
    rw [if_neg hl] at hr
    by_cases hb : c = 'b'
    · rw [if_pos hb] at hr
      simp only at hr
      split at hr
      · exact key _ (by exact ⟨rfl, rfl⟩) hr
      · exact fail _ (by exact ⟨rfl, rfl⟩) hr
    rw [if_neg hb] at hr
    exact fail _ (by exact ⟨rfl, rfl⟩) hr

/-- The function `setup` leaves the pass counter and the stop latch as they were. -/
theorem setup_pass (sys : Sys) (opts : List (Char × List Char)) (s : State)
    (r : Int × State) (hr : setup sys opts s = some r) :
    r.2.runs_through_file = s.runs_through_file ∧ r.2.stop = s.stop := by
  have fail : ∀ t : State, t.runs_through_file = s.runs_through_file ∧ t.stop = s.stop →
      ∀ c : Int, some (c, t) = some r →
      r.2.runs_through_file = s.runs_through_file ∧ r.2.stop = s.stop := by
    intro t ht c h
    simp only [Option.some.injEq] at h
    subst h
    exact ht
  unfold setup at hr
  simp only at hr
  split at hr
  · exact absurd hr (by simp)
  · rename_i r1 hr1
    have hf := set_max_queries_frame sys _ _ r1 hr1
    have h1 : r1.2.runs_through_file = s.runs_through_file ∧ r1.2.stop = s.stop :=
      ⟨hf.2.2.2.2.2.1, hf.2.2.2.1⟩
    have h2 : (set_server sys DEF_SERVER_TO_QUERY r1.2).2.runs_through_file
          = s.runs_through_file ∧
        (set_server sys DEF_SERVER_TO_QUERY r1.2).2.stop = s.stop := by
      have hw : (set_server sys DEF_SERVER_TO_QUERY r1.2).2.runs_through_file
            = r1.2.runs_through_file ∧
          (set_server sys DEF_SERVER_TO_QUERY r1.2).2.stop = r1.2.stop := by
        unfold set_server
        split
        · exact ⟨rfl, rfl⟩
        · split
          · exact ⟨rfl, rfl⟩
          · split
            · exact ⟨rfl, rfl⟩
            · split <;> exact ⟨rfl, rfl⟩
      exact ⟨hw.1.trans h1.1, hw.2.trans h1.2⟩
    have h3 : (set_server_port DEF_SERVER_PORT
          (set_server sys DEF_SERVER_TO_QUERY r1.2).2).2.runs_through_file
          = s.runs_through_file ∧
        (set_server_port DEF_SERVER_PORT
          (set_server sys DEF_SERVER_TO_QUERY r1.2).2).2.stop = s.stop := by
      have hw : ∀ u : State, (set_server_port DEF_SERVER_PORT u).2.runs_through_file
            = u.runs_through_file ∧ (set_server_port DEF_SERVER_PORT u).2.stop = u.stop := by
        intro u
        unfold set_server_port
        split <;> exact ⟨rfl, rfl⟩
      exact ⟨(hw _).1.trans h2.1, (hw _).2.trans h2.2⟩
    split at hr
    · exact fail _ (by exact h1) _ hr
    · split at hr
      · exact fail _ (by exact h2) _ hr
      · split at hr
        · exact fail _ (by exact h3) _ hr
        · split at hr
          · exact absurd hr (by simp)
          · rename_i r4 hr4
            have hp := parse_args_pass sys opts _ r4 hr4
            have h4 : r4.2.runs_through_file = s.runs_through_file ∧ r4.2.stop = s.stop :=
              ⟨hp.1.trans h3.1, hp.2.trans h3.2⟩
            have h5 : (open_datafile sys r4.2).2.runs_through_file = s.runs_through_file ∧
                (open_datafile sys r4.2).2.stop = s.stop := by
              unfold open_datafile
              split
              · exact h4
              · split
                · exact h4
                · split
                  · exact h4
                  · exact h4
            split at hr
            · exact fail _ (by exact h4) _ hr
            · split at hr
              · exact fail _ (by exact h5) _ hr
              · split at hr
                · exact fail _ (by exact h5) _ hr
                · exact fail _ (by exact h5) _ hr

/-- The state in which `main` enters its loop: at the test of the outer loop, `got_eof`
and the stop latch clear, no pass counted. -/
theorem main_enter_pass (now : timeval) (sys : Sys) (opts : List (Char × List Char))
    (m : Main) (h : main_enter now sys opts = some m) :
    m.pc = Pc.outer ∧ m.got_eof = false ∧ m.g.stop = false ∧ m.g.runs_through_file = 0 := by
  unfold main_enter at h
  simp only at h
  split at h
  · simp at h
  · rename_i r hr
    split at h
    · simp at h
    · simp only [Option.some.injEq] at h
      subst h
      have hp := setup_pass sys opts _ r hr
      exact ⟨rfl, rfl, hp.2, hp.1⟩

theorem timelimit_reached_in_use (now : timeval) (s : State)
    (h : timelimit_reached now s = true) : s.use_timelimit = true := by
  cases hu : s.use_timelimit with
  | true => rfl
  | false =>
    unfold timelimit_reached at h
    rw [if_pos hu] at h
    exact absurd h (by simp)

/-- A call of `keep_sending` keeps the pass counter below 2^32 and keeps its sum with the
end of input not seen yet, modulo 2^32. -/
theorem keep_sending_count (now : timeval) (eof : Bool) (s : State)
    (hlt : s.runs_through_file < 2 ^ 32) :
    (keep_sending now eof s).2.2.runs_through_file < 2 ^ 32 ∧
    ((keep_sending now eof s).2.2.runs_through_file +
        (if (keep_sending now eof s).2.1 = true ∧ (keep_sending now eof s).2.2.stop = false
          then 1 else 0)) % 2 ^ 32
      = (s.runs_through_file + (if eof = true ∧ s.stop = false then 1 else 0)) % 2 ^ 32 := by
  obtain ⟨_, _, ht, hf, hstop, hgo⟩ := keep_sending_pass now eof s
  cases hs : s.stop with
  | true =>
    rw [hstop hs]
    refine ⟨hlt, ?_⟩
    simp [hs]
  | false =>
    obtain ⟨K, hK⟩ : ∃ K, K = keep_sending now eof s := ⟨_, rfl⟩
    rw [← hK] at ht hf hgo ⊢
    have hmod : (s.runs_through_file + 1) % 2 ^ 32 < 2 ^ 32 := Nat.mod_lt _ (by norm_num)
    rcases hgo hs with ⟨h1, h2, _⟩ | ⟨h1, _, h2, _⟩
    · obtain ⟨h3, h4⟩ := ht h1
      rw [h2, h3]
      cases eof with
      | true => exact ⟨by simpa using hmod, by simp⟩
      | false => exact ⟨by simpa using hlt, by simp⟩
    · have h4 := hf h1
      rw [h2, h4]
      cases eof with
      | true => exact ⟨by simpa using hmod, by simp⟩
      | false => exact ⟨by simpa using hlt, by simp⟩

/-- In a run restricted to one pass a call of `keep_sending` keeps the relation between
the pass counter, `got_eof` and the stop latch. -/
theorem keep_sending_once (now : timeval) (eof : Bool) (s : State)
    (honce : s.run_only_once = true)
    (hruns : s.runs_through_file = if eof = true ∧ s.stop = true then 1 else 0)
    (hcause : s.stop = true → eof = true ∨ s.use_timelimit = true) :
    (keep_sending now eof s).2.2.runs_through_file
      = (if (keep_sending now eof s).2.1 = true ∧ (keep_sending now eof s).2.2.stop = true
          then 1 else 0) ∧
    ((keep_sending now eof s).2.2.stop = true →
      (keep_sending now eof s).2.1 = true ∨
      (keep_sending now eof s).2.2.use_timelimit = true) := by
  obtain ⟨_, htl, ht, hf, hstop, hgo⟩ := keep_sending_pass now eof s
  cases hs : s.stop with
  | true =>
    rw [hstop hs]
    exact ⟨hruns, hcause⟩
  | false =>
    obtain ⟨K, hK⟩ : ∃ K, K = keep_sending now eof s := ⟨_, rfl⟩
    rw [← hK] at ht hf hgo htl ⊢
    have h0 : s.runs_through_file = 0 := by
      rw [hruns, hs]
      simp
    rcases hgo hs with ⟨h1, h2, h3⟩ | ⟨h1, h5, h2, h3⟩
    · obtain ⟨h4, h6⟩ := ht h1
      have he : eof = false := by
        cases eof with
        | false => rfl
        | true =>
          rw [h3 rfl] at honce
          exact absurd honce (by simp)
      rw [h2, h4, h6, he, h0]
      simp
    · have h4 := hf h1
      rw [h2, h4, h5, h0, htl]
      cases eof with
      | true => simp
      | false =>
        simp only [Bool.false_eq_true, if_false, false_and, false_or, true_implies]
        exact ⟨trivial, timelimit_reached_in_use now s (h3 rfl)⟩

theorem main_step_PassInv (e : Env) (m m' : Main) (c : Nat)
    (hs : main_step e m = some m') (hi : PassInv c m) :
    PassInv (c + (if reads_eof e m = true then 1 else 0)) m' := by
  obtain ⟨_, _, ht, hf, _, _⟩ := keep_sending_pass e.now m.got_eof m.g
  obtain ⟨hk1, hk2⟩ := keep_sending_count e.now m.got_eof m.g hi.lt
  have hc := hi.count
  unfold pending_eof at hc
  rw [← hk2] at hc
  obtain ⟨K, hK⟩ : ∃ K, K = keep_sending e.now m.got_eof m.g := ⟨_, rfl⟩
  rcases main_step_pass_cases e m m' hs with
    ⟨_, hr, hg, hm, hne, hfin⟩ | ⟨_, hr, hk, hg, hm, hpc⟩ | ⟨_, _, hr, hg, hm, hleft⟩
  · rw [← hK] at hg hm hfin ht hf hk1 hc
    refine ⟨?_, ?_, ?_⟩
    · rw [hm.2.2.2]; exact hk1
    · rw [hr]
      unfold pending_eof
      rw [hm.2.2.2, hm.2.2.1, hg]
      simpa using hc
    · intro h
      rcases h with h | h
      · rw [hm.2.2.1]
        exact hf (hfin h)
      · exact absurd h hne
  · rw [← hK] at hk hm ht hk1 hc
    obtain ⟨h3, h4⟩ := ht hk
    rw [h3] at hc
    simp only [Bool.false_eq_true, false_and, if_false, Nat.add_zero] at hc
    refine ⟨?_, ?_, ?_⟩
    · rw [hm.2.2.2]; exact hk1
    · rw [hr]
      unfold pending_eof
      rw [hm.2.2.2, hm.2.2.1, hg, h4]
      simp only [and_self, if_true]
      omega
    · intro h
      rw [hpc] at h
      rcases h with h | h <;> exact absurd h (by simp)
  · have hc' := hi.count
    refine ⟨?_, ?_, ?_⟩
    · rw [hm.2.2.2]; exact hi.lt
    · rw [hr]
      unfold pending_eof at hc' ⊢
      rw [hm.2.2.2, hm.2.2.1, hg]
      simpa using hc'
    · intro h
      rw [hm.2.2.1]
      exact hi.left (hleft h)

theorem run_PassInv (envs : List Env) :
    ∀ (m m' : Main) (c : Nat), run envs m = some m' → PassInv c m →
      PassInv (c + eof_count envs m) m' := by
  induction envs with
  | nil =>
    intro m m' c hr hi
    simp only [run, Option.some.injEq] at hr
    subst hr
    exact hi
  | cons e es ih =>
    intro m m' c hr hi
    unfold run at hr
    unfold eof_count
    cases hs : main_step e m with
    | none =>
      rw [hs] at hr
      exact absurd hr (by simp)
    | some m1 =>
      rw [hs] at hr
      simp only at hr ⊢
      have := ih m1 m' _ hr (main_step_PassInv e m m1 c hs hi)
      rw [Nat.add_assoc] at this
      exact this

theorem main_step_OnceInv (e : Env) (m m' : Main)
    (hs : main_step e m = some m') (hi : OnceInv m) : OnceInv m' := by
  obtain ⟨honce, htl, ht, hf, _, _⟩ := keep_sending_pass e.now m.got_eof m.g
  obtain ⟨hk1, hk2⟩ := keep_sending_once e.now m.got_eof m.g hi.once hi.runs hi.cause
  obtain ⟨K, hK⟩ : ∃ K, K = keep_sending e.now m.got_eof m.g := ⟨_, rfl⟩
  rcases main_step_pass_cases e m m' hs with
    ⟨_, _, hg, hm, _, _⟩ | ⟨_, _, hk, hg, hm, _⟩ | ⟨_, _, _, hg, hm, _⟩
  · rw [← hK] at hg hm honce htl hk1 hk2
    refine ⟨?_, ?_, ?_⟩
    · rw [hm.1, honce]; exact hi.once
    · rw [hm.2.2.2, hm.2.2.1, hg]; exact hk1
    · rw [hm.2.2.1, hm.2.1, hg]; exact hk2
  · rw [← hK] at hk hm honce ht hk1
    obtain ⟨h3, h4⟩ := ht hk
    refine ⟨?_, ?_, ?_⟩
    · rw [hm.1, honce]; exact hi.once
    · rw [hm.2.2.2, hm.2.2.1, hg, h4, hk1, h3]
      simp
    · rw [hm.2.2.1, h4]
      intro h
      exact absurd h (by simp)
  · refine ⟨?_, ?_, ?_⟩
    · rw [hm.1]; exact hi.once
    · rw [hm.2.2.2, hm.2.2.1, hg]; exact hi.runs
    · rw [hm.2.2.1, hm.2.1, hg]; exact hi.cause

theorem run_OnceInv (envs : List Env) :
    ∀ (m m' : Main), run envs m = some m' → OnceInv m → OnceInv m' := by
  induction envs with
  | nil =>
    intro m m' hr hi
    simp only [run, Option.some.injEq] at hr
    subst hr
    exact hi
  | cons e es ih =>
    intro m m' hr hi
    unfold run at hr
    cases hs : main_step e m with
    | none =>
      rw [hs] at hr
      exact absurd hr (by simp)
    | some m1 =>
      rw [hs] at hr
      exact ih m1 m' hr (main_step_OnceInv e m m1 hs hi)

/-! ## Arithmetic on `double` values -/

theorem bit_length_zero (fuel : Nat) : bit_length fuel 0 = 0 := by
  cases fuel <;> simp [bit_length]

/-- The number `bit_length fuel n` is the number of binary digits of `n` when `fuel` is
large enough. -/
theorem bit_length_spec (fuel n : Nat) (h : n < 2 ^ fuel) (hn : n ≠ 0) :
    2 ^ (bit_length fuel n - 1) ≤ n ∧ n < 2 ^ bit_length fuel n ∧ 1 ≤ bit_length fuel n := by
  induction fuel generalizing n with
  | zero =>
    simp only [pow_zero, Nat.lt_one_iff] at h
    exact absurd h hn
  | succ f ih =>
    unfold bit_length
    rw [if_neg hn]
    by_cases h2 : n / 2 = 0
    · rw [h2, bit_length_zero]
      have : n = 1 := by omega
      subst this
      simp
    · have hlt : n / 2 < 2 ^ f := by
        rw [pow_succ] at h
        omega
      obtain ⟨h1, h3, h4⟩ := ih (n / 2) hlt h2
      refine ⟨?_, ?_, by omega⟩
      · have e : bit_length f (n / 2) + 1 - 1 = (bit_length f (n / 2) - 1) + 1 := by omega
        rw [e, pow_succ]
        omega
      · rw [pow_succ]
        omega

theorem bit_length_unique (n a : Nat) (h1 : 2 ^ (a - 1) ≤ n) (h2 : n < 2 ^ a) (ha : 1 ≤ a) :
    bit_length n n = a := by
  have hn : n ≠ 0 := by
    have := Nat.pos_pow_of_pos (a - 1) (show 0 < 2 by norm_num)
    omega
  obtain ⟨s1, s2, s3⟩ := bit_length_spec n n (Nat.lt_two_pow n) hn
  by_contra hne
  rcases Nat.lt_or_gt_of_ne hne with hlt | hgt
  · have : 2 ^ bit_length n n ≤ 2 ^ (a - 1) := Nat.pow_le_pow_right (by norm_num) (by omega)
    omega
  · have : 2 ^ a ≤ 2 ^ (bit_length n n - 1) := Nat.pow_le_pow_right (by norm_num) (by omega)
    omega

theorem bit_length_shift (n k : Nat) (hn : n ≠ 0) :
    bit_length (n * 2 ^ k) (n * 2 ^ k) = bit_length n n + k := by
  obtain ⟨s1, s2, s3⟩ := bit_length_spec n n (Nat.lt_two_pow n) hn
  apply bit_length_unique
  · have e : bit_length n n + k - 1 = (bit_length n n - 1) + k := by omega
    rw [e, pow_add]
    exact Nat.mul_le_mul_right _ s1
  · rw [pow_add]
    exact Nat.mul_lt_mul_of_pos_right s2 (Nat.pos_pow_of_pos k (by norm_num))
  · omega

theorem round_half_even_scale (a b c : Nat) (hc : 0 < c) :
    round_half_even (a * c) (b * c) = round_half_even a b := by
  unfold round_half_even
  rw [Nat.mul_div_mul_right a b hc, Nat.mul_mod_mul_right]
  have e1 : (2 * (a % b * c) < b * c) ↔ (2 * (a % b) < b) := by
    rw [← mul_assoc]
    exact Nat.mul_lt_mul_right hc
  have e2 : (b * c < 2 * (a % b * c)) ↔ (b < 2 * (a % b)) := by
    rw [← mul_assoc]
    exact Nat.mul_lt_mul_right hc
  simp only [e1, e2]

/-- Rounding depends on the quotient only: a common factor `2^k` changes nothing. -/
theorem round_scale (neg : Bool) (n d k : Nat) (hd : d ≠ 0) :
    double.round neg (n * 2 ^ k) (d * 2 ^ k) = double.round neg n d := by
  have hk : 0 < 2 ^ k := Nat.pos_pow_of_pos k (by norm_num)
  by_cases hn : n = 0
  · subst hn
    simp [double.round]
  · have hn' : n * 2 ^ k ≠ 0 := Nat.mul_ne_zero hn (by omega)
    unfold double.round double.pack double.exponent
    rw [if_neg hn, if_neg hn', bit_length_shift n k hn, bit_length_shift d k hd]
    have he : ((bit_length n n + k : Nat) : Int) - ((bit_length d d + k : Nat) : Int) - 53
        = (bit_length n n : Int) - (bit_length d d : Int) - 53 := by
      push_cast
      ring
    rw [he]
    have test : ∀ e : Int, (2 ^ 53 * (d * 2 ^ k * pow2_num e) ≤ n * 2 ^ k * pow2_den e)
        ↔ (2 ^ 53 * (d * pow2_num e) ≤ n * pow2_den e) := by
      intro e
      have a1 : 2 ^ 53 * (d * 2 ^ k * pow2_num e) = (2 ^ 53 * (d * pow2_num e)) * 2 ^ k := by
        ring
      have a2 : n * 2 ^ k * pow2_den e = (n * pow2_den e) * 2 ^ k := by ring
      rw [a1, a2]
      exact ⟨fun h => Nat.le_of_mul_le_mul_right h hk, fun h => Nat.mul_le_mul_right _ h⟩
    have key : ∀ e : Int, round_half_even (n * 2 ^ k * pow2_den e) (d * 2 ^ k * pow2_num e)
        = round_half_even (n * pow2_den e) (d * pow2_num e) := by
      intro e
      have a1 : n * 2 ^ k * pow2_den e = (n * pow2_den e) * 2 ^ k := by ring
      have a2 : d * 2 ^ k * pow2_num e = (d * pow2_num e) * 2 ^ k := by ring
      rw [a1, a2]
      exact round_half_even_scale _ _ _ hk
    simp only [test, key]

theorem round_half_even_one (n : Nat) : round_half_even n 1 = n := by
  simp [round_half_even, Nat.mod_one]

/-- Conversion of a whole number below 2^53 is exact: the significand is the number
shifted to 53 digits. -/
theorem round_whole (neg : Bool) (n : Nat) (h0 : n ≠ 0) (h : n < 2 ^ 53) :
    double.round neg n 1
      = double.finite neg (n * 2 ^ (53 - bit_length n n)) ((bit_length n n : Int) - 53) := by
  obtain ⟨s1, s2, s3⟩ := bit_length_spec n n (Nat.lt_two_pow n) h0
  have hL : bit_length n n ≤ 53 := by
    by_contra hc
    have : 2 ^ 53 ≤ 2 ^ (bit_length n n - 1) := Nat.pow_le_pow_right (by norm_num) (by omega)
    omega
  obtain ⟨L, hLdef⟩ : ∃ L, L = bit_length n n := ⟨_, rfl⟩
  rw [← hLdef] at s1 s2 s3 hL ⊢
  have h1 : bit_length 1 1 = 1 := by decide
  have hm : n * 2 ^ (53 - L) < 2 ^ 53 := by
    have : 2 ^ L * 2 ^ (53 - L) = 2 ^ 53 := by
      rw [← pow_add]
      congr 1
      omega
    rw [← this]
    exact Nat.mul_lt_mul_of_pos_right s2 (Nat.pos_pow_of_pos _ (by norm_num))
  have hge : 2 ^ 53 ≤ n * 2 ^ (54 - L) := by
    have : 2 ^ (L - 1) * 2 ^ (54 - L) = 2 ^ 53 := by
      rw [← pow_add]
      congr 1
      omega
    rw [← this]
    exact Nat.mul_le_mul_right _ s1
  unfold double.round double.pack double.exponent
  rw [if_neg h0, ← hLdef, h1]
  have d0 : pow2_den ((L : Int) - ((1 : Nat) : Int) - 53) = 2 ^ (54 - L) := by
    unfold pow2_den
    congr 1
    omega
  have n0 : pow2_num ((L : Int) - ((1 : Nat) : Int) - 53) = 1 := by
    unfold pow2_num
    have : ((L : Int) - ((1 : Nat) : Int) - 53).toNat = 0 := by omega
    rw [this]
    rfl
  have d1 : pow2_den ((L : Int) - ((1 : Nat) : Int) - 53 + 1) = 2 ^ (53 - L) := by
    unfold pow2_den
    congr 1
    omega
  have n1 : pow2_num ((L : Int) - ((1 : Nat) : Int) - 53 + 1) = 1 := by
    unfold pow2_num
    have : ((L : Int) - ((1 : Nat) : Int) - 53 + 1).toNat = 0 := by omega
    rw [this]
    rfl
  simp only [d0, n0, mul_one]
  rw [if_pos hge]
  have hc : ¬ ((L : Int) - ((1 : Nat) : Int) - 53 + 1 < -1074) := by omega
  simp only [if_neg hc, d1, n1, mul_one, round_half_even_one]
  rw [if_neg (by omega), if_neg (by omega)]
  congr 1
  omega

theorem bit_length_le (n a : Nat) (h : n < 2 ^ a) : bit_length n n ≤ a := by
  by_cases hn : n = 0
  · subst hn
    rw [bit_length_zero]
    omega
  · obtain ⟨s1, _, _⟩ := bit_length_spec n n (Nat.lt_two_pow n) hn
    by_contra hc
    have : 2 ^ a ≤ 2 ^ (bit_length n n - 1) := Nat.pow_le_pow_right (by norm_num) (by omega)
    omega

/-- Rounding a quotient whose numerator is below 2^1000 gives a finite value. -/
theorem round_finite (neg : Bool) (n d : Nat) (hd : d ≠ 0) (hn : n < 2 ^ 1000) :
    ∃ m e, double.round neg n d = double.finite neg m e := by
  have h1 := bit_length_le n 1000 hn
  obtain ⟨_, _, h2⟩ := bit_length_spec d d (Nat.lt_two_pow d) hd
  unfold double.round double.pack double.exponent
  simp only
  split_ifs <;> first | exact ⟨_, _, rfl⟩ | omega

theorem of_int_zero : double.of_int 0 = double.finite false 0 (-1074) := by decide

theorem of_int_whole (n : Nat) (h0 : n ≠ 0) (h : n < 2 ^ 53) :
    double.of_int (n : Int)
      = double.finite false (n * 2 ^ (53 - bit_length n n)) ((bit_length n n : Int) - 53) := by
  unfold double.of_int
  have hneg : decide ((n : Int) < 0) = false := by simp
  rw [hneg, Int.natAbs_ofNat]
  exact round_whole false n h0 h

theorem pow2_num_nonpos (e : Int) (h : e ≤ 0) : pow2_num e = 1 := by
  unfold pow2_num
  have : e.toNat = 0 := by omega
  rw [this]
  rfl

theorem pow2_den_whole (L : Nat) (h : L ≤ 53) : pow2_den ((L : Int) - 53) = 2 ^ (53 - L) := by
  unfold pow2_den
  congr 1
  omega

/-- The product of two whole numbers, when below 2^53, is computed exactly. -/
theorem mul_whole (a b : Nat) (ha : a ≠ 0) (hb : b ≠ 0) (h : a * b < 2 ^ 53) :
    double.mul (double.of_int (a : Int)) (double.of_int (b : Int))
      = double.of_int ((a * b : Nat) : Int) := by
  have ha53 : a < 2 ^ 53 := lt_of_le_of_lt (Nat.le_mul_of_pos_right a (by omega)) h
  have hb53 : b < 2 ^ 53 := lt_of_le_of_lt (Nat.le_mul_of_pos_left b (by omega)) h
  have hab : a * b ≠ 0 := Nat.mul_ne_zero ha hb
  have la := bit_length_le a 53 ha53
  have lb := bit_length_le b 53 hb53
  rw [of_int_whole a ha ha53, of_int_whole b hb hb53, of_int_whole (a * b) hab h]
  unfold double.mul double.num
  simp only
  rw [pow2_num_nonpos _ (by omega), pow2_num_nonpos _ (by omega), pow2_den_whole _ la,
    pow2_den_whole _ lb]
  have e1 : a * 2 ^ (53 - bit_length a a) * 1 * (b * 2 ^ (53 - bit_length b b) * 1)
      = (a * b) * 2 ^ ((53 - bit_length a a) + (53 - bit_length b b)) := by
    rw [pow_add]
    ring
  have e2 : 2 ^ (53 - bit_length a a) * 2 ^ (53 - bit_length b b)
      = 1 * 2 ^ ((53 - bit_length a a) + (53 - bit_length b b)) := by
    rw [pow_add]
    ring
  rw [e1, e2, round_scale _ _ _ _ (by norm_num)]
  exact round_whole _ _ hab h

/-- The quotient of two whole numbers below 2^53 is the quotient rounded once. -/
theorem div_whole (a b : Nat) (ha : a ≠ 0) (hb : b ≠ 0) (ha53 : a < 2 ^ 53)
    (hb53 : b < 2 ^ 53) :
    double.div (double.of_int (a : Int)) (double.of_int (b : Int))
      = double.round false a b := by
  have la := bit_length_le a 53 ha53
  have lb := bit_length_le b 53 hb53
  rw [of_int_whole a ha ha53, of_int_whole b hb hb53]
  unfold double.div double.num
  simp only
  have hm : ¬ b * 2 ^ (53 - bit_length b b) = 0 :=
    Nat.mul_ne_zero hb (Nat.pos_iff_ne_zero.mp (Nat.pos_pow_of_pos _ (by norm_num)))
  rw [if_neg hm, pow2_num_nonpos _ (by omega), pow2_num_nonpos _ (by omega),
    pow2_den_whole _ la, pow2_den_whole _ lb]
  have e1 : a * 2 ^ (53 - bit_length a a) * 1 * 2 ^ (53 - bit_length b b)
      = a * 2 ^ ((53 - bit_length a a) + (53 - bit_length b b)) := by
    rw [pow_add]
    ring
  have e2 : 2 ^ (53 - bit_length a a) * (b * 2 ^ (53 - bit_length b b) * 1)
      = b * 2 ^ ((53 - bit_length a a) + (53 - bit_length b b)) := by
    rw [pow_add]
    ring
  rw [e1, e2, round_scale _ _ _ _ hb]
  rfl

theorem div_zero_whole (b : Nat) (hb : b ≠ 0) (hb53 : b < 2 ^ 53) :
    double.div (double.finite false 0 (-1074)) (double.of_int (b : Int))
      = double.finite false 0 (-1074) := by
  rw [of_int_whole b hb hb53]
  unfold double.div double.num
  simp only
  have hm : ¬ b * 2 ^ (53 - bit_length b b) = 0 :=
    Nat.mul_ne_zero hb (Nat.pos_iff_ne_zero.mp (Nat.pos_pow_of_pos _ (by norm_num)))
  rw [if_neg hm]
  simp [double.round]

theorem mul_zero_right (a : Nat) (ha : a ≠ 0) (ha53 : a < 2 ^ 53) :
    double.mul (double.of_int (a : Int)) (double.finite false 0 (-1074))
      = double.finite false 0 (-1074) := by
  rw [of_int_whole a ha ha53]
  unfold double.mul double.num
  simp [double.round]

/-- Subtracting zero from a whole number below 2^53 leaves it as it is. -/
theorem sub_zero_whole (a : Nat) (ha : a ≠ 0) (ha53 : a < 2 ^ 53) :
    double.sub (double.of_int (a : Int)) (double.finite false 0 (-1074))
      = double.of_int (a : Int) := by
  have la := bit_length_le a 53 ha53
  rw [of_int_whole a ha ha53]
  unfold double.sub double.neg double.add double.num
  simp only [Bool.not_false, zero_mul, Bool.false_eq_true, if_false]
  have hm : ¬ a * 2 ^ (53 - bit_length a a) = 0 :=
    Nat.mul_ne_zero ha (Nat.pos_iff_ne_zero.mp (Nat.pos_pow_of_pos _ (by norm_num)))
  have hp : 0 < pow2_den (-1074) := Nat.pos_pow_of_pos _ (by norm_num)
  rw [pow2_num_nonpos _ (by omega), pow2_den_whole _ la, mul_one]
  have hne : ¬ a * 2 ^ (53 - bit_length a a) * pow2_den (-1074) = 0 :=
    Nat.mul_ne_zero hm (by omega)
  rw [if_neg hne, if_pos (by omega), Nat.sub_zero]
  have hd : pow2_den (-1074) = 2 ^ 1074 := by
    unfold pow2_den
    congr 1
  have e1 : a * 2 ^ (53 - bit_length a a) * pow2_den (-1074)
      = a * 2 ^ ((53 - bit_length a a) + 1074) := by
    rw [hd, pow_add, mul_assoc]
  have e2 : 2 ^ (53 - bit_length a a) * pow2_den (-1074)
      = 1 * 2 ^ ((53 - bit_length a a) + 1074) := by
    rw [hd, pow_add, one_mul]
  rw [e1, e2, round_scale _ _ _ _ (by norm_num)]
  exact round_whole _ _ ha ha53

theorem pow2_ratio (e : Int) : (pow2_num e : ℚ) / (pow2_den e : ℚ) = (2 : ℚ) ^ e := by
  unfold pow2_num pow2_den
  push_cast
  rcases le_total 0 e with h | h
  · have h1 : (-e).toNat = 0 := by omega
    have h2 : ((e.toNat : Nat) : Int) = e := by omega
    rw [h1, pow_zero, div_one, ← zpow_natCast, h2]
  · have h1 : e.toNat = 0 := by omega
    have h2 : (((-e).toNat : Nat) : Int) = -e := by omega
    rw [h1, pow_zero, one_div, ← zpow_natCast, h2, zpow_neg, inv_inv]

theorem pow2_num_pos (e : Int) : (0 : ℚ) < (pow2_num e : ℚ) := by
  unfold pow2_num
  positivity

theorem pow2_den_pos (e : Int) : (0 : ℚ) < (pow2_den e : ℚ) := by
  unfold pow2_den
  positivity

/-- Rounding a quotient to a whole number moves it by at most one half. -/
theorem round_half_even_error (a b : Nat) (hb : 0 < b) :
    |((round_half_even a b : Nat) : ℚ) - (a : ℚ) / (b : ℚ)| ≤ 1 / 2 := by
  have hbq : (0 : ℚ) < (b : ℚ) := by exact_mod_cast hb
  have hdm : (a : ℚ) = (b : ℚ) * ((a / b : Nat) : ℚ) + ((a % b : Nat) : ℚ) := by
    exact_mod_cast (Nat.div_add_mod a b).symm
  obtain ⟨x, hx⟩ : ∃ x : ℚ, x = ((a % b : Nat) : ℚ) / (b : ℚ) := ⟨_, rfl⟩
  have hxb : x * (b : ℚ) = ((a % b : Nat) : ℚ) := by
    rw [hx]
    exact div_mul_cancel₀ _ hbq.ne'
  have hq : (a : ℚ) / (b : ℚ) = ((a / b : Nat) : ℚ) + x := by
    rw [hx, hdm]
    field_simp
    ring
  have hx0 : 0 ≤ x := by
    rw [hx]
    positivity
  have hx1 : x < 1 := by
    have hr : ((a % b : Nat) : ℚ) < (b : ℚ) := by exact_mod_cast Nat.mod_lt a hb
    apply lt_of_mul_lt_mul_right _ hbq.le
    rw [hxb, one_mul]
    exact hr
  unfold round_half_even
  rw [abs_le, hq]
  split_ifs with h1 h2 h3
  · have h1' : 2 * ((a % b : Nat) : ℚ) < (b : ℚ) := by exact_mod_cast h1
    have : 2 * x < 1 := by
      apply lt_of_mul_lt_mul_right _ hbq.le
      rw [mul_assoc, hxb, one_mul]
      exact h1'
    constructor <;> linarith
  · have h2' : (b : ℚ) < 2 * ((a % b : Nat) : ℚ) := by exact_mod_cast h2
    have : 1 < 2 * x := by
      apply lt_of_mul_lt_mul_right _ hbq.le
      rw [mul_assoc, hxb, one_mul]
      exact h2'
    push_cast
    constructor <;> linarith
  · have he : 2 * ((a % b : Nat) : ℚ) = (b : ℚ) := by
      have : 2 * (a % b) = b := by omega
      exact_mod_cast this
    have : 2 * x = 1 := by
      apply mul_right_cancel₀ hbq.ne'
      rw [mul_assoc, hxb, one_mul]
      exact he
    constructor <;> linarith
  · have he : 2 * ((a % b : Nat) : ℚ) = (b : ℚ) := by
      have : 2 * (a % b) = b := by omega
      exact_mod_cast this
    have : 2 * x = 1 := by
      apply mul_right_cancel₀ hbq.ne'
      rw [mul_assoc, hxb, one_mul]
      exact he
    push_cast
    constructor <;> linarith

/-- The exponent `double.round` works with: -1074, or an exponent `k` with
`2^(k+52) ≤ n / d`; and it is small when the quotient is. -/
theorem exponent_spec (n d : Nat) (hn : n ≠ 0) (hd : d ≠ 0) :
    (double.exponent n d = -1074 ∨
      (2 : ℚ) ^ (double.exponent n d + 52) ≤ (n : ℚ) / (d : ℚ)) ∧
    -1074 ≤ double.exponent n d ∧
    (∀ a : Nat, n < d * 2 ^ a → double.exponent n d ≤ max ((a : Int) - 52) (-1074)) := by
  obtain ⟨n1, n2, n3⟩ := bit_length_spec n n (Nat.lt_two_pow n) hn
  obtain ⟨d1, d2, d3⟩ := bit_length_spec d d (Nat.lt_two_pow d) hd
  obtain ⟨Ln, hLn⟩ : ∃ L, L = bit_length n n := ⟨_, rfl⟩
  obtain ⟨Ld, hLd⟩ : ∃ L, L = bit_length d d := ⟨_, rfl⟩
  rw [← hLn] at n1 n2 n3
  rw [← hLd] at d1 d2 d3
  have hdq : (0 : ℚ) < (d : ℚ) := by
    have : 0 < d := Nat.pos_of_ne_zero hd
    exact_mod_cast this
  have two : (2 : ℚ) ≠ 0 := by norm_num
  unfold double.exponent
  rw [← hLn, ← hLd]
  simp only
  obtain ⟨e0, he0⟩ : ∃ e0 : Int, e0 = (Ln : Int) - (Ld : Int) - 53 := ⟨_, rfl⟩
  rw [← he0]
  have hlow : (2 : ℚ) ^ (e0 + 52) ≤ (n : ℚ) / (d : ℚ) := by
    have e : e0 + 52 = ((Ln - 1 : Nat) : Int) - (Ld : Int) := by omega
    rw [e, zpow_sub₀ two, zpow_natCast, zpow_natCast]
    have h1 : ((2 : ℚ) ^ (Ln - 1)) ≤ (n : ℚ) := by exact_mod_cast n1
    have h2 : (d : ℚ) ≤ (2 : ℚ) ^ Ld := by exact_mod_cast d2.le
    exact div_le_div₀ (by positivity) h1 hdq h2
  refine ⟨?_, ?_, ?_⟩
  · by_cases ht : 2 ^ 53 * (d * pow2_num e0) ≤ n * pow2_den e0
    · rw [if_pos ht]
      by_cases hc : e0 + 1 < -1074
      · rw [if_pos hc]
        exact Or.inl rfl
      · rw [if_neg hc]
        right
        have htq : (2 : ℚ) ^ 53 * ((d : ℚ) * (pow2_num e0 : ℚ)) ≤ (n : ℚ) * (pow2_den e0 : ℚ) := by
          exact_mod_cast ht
        have hr := pow2_ratio e0
        have hN := pow2_num_pos e0
        have hD := pow2_den_pos e0
        have e : e0 + 1 + 52 = e0 + 53 := by omega
        rw [e, zpow_add₀ two, ← hr, le_div_iff₀ hdq]
        have e2 : (pow2_num e0 : ℚ) / (pow2_den e0 : ℚ) * (2 : ℚ) ^ (53 : Int) * (d : ℚ)
            = ((2 : ℚ) ^ 53 * ((d : ℚ) * (pow2_num e0 : ℚ))) / (pow2_den e0 : ℚ) := by
          have : (2 : ℚ) ^ (53 : Int) = (2 : ℚ) ^ (53 : Nat) := by norm_cast
          rw [this]
          field_simp
          ring
        rw [e2, div_le_iff₀ hD]
        exact htq
    · rw [if_neg ht]
      by_cases hc : e0 < -1074
      · rw [if_pos hc]
        exact Or.inl rfl
      · rw [if_neg hc]
        exact Or.inr hlow
  · split_ifs <;> omega
  · intro a ha
    have hla : Ln ≤ Ld + a := by
      rw [hLn]
      apply bit_length_le
      calc n < d * 2 ^ a := ha
        _ ≤ 2 ^ Ld * 2 ^ a := Nat.mul_le_mul_right _ d2.le
        _ = 2 ^ (Ld + a) := (pow_add 2 Ld a).symm
    split_ifs <;> omega

/-- What `double.round` returns for a quotient that is not zero and not large: a finite
value within half a unit of its exponent `k` of the quotient, where `k` is -1074 or has
`2^(k+52) ≤ n / d`. -/
theorem round_error (neg : Bool) (n d : Nat) (hn : n ≠ 0) (hd : d ≠ 0)
    (hlt : n < d * 2 ^ 100) :
    ∃ (m : Nat) (e k : Int), double.round neg n d = double.finite neg m e ∧
      |(m : ℚ) * (2 : ℚ) ^ e - (n : ℚ) / (d : ℚ)| ≤ (2 : ℚ) ^ (k - 1) ∧
      (k = -1074 ∨ (2 : ℚ) ^ (k + 52) ≤ (n : ℚ) / (d : ℚ)) := by
  obtain ⟨hk, hk1, hk2⟩ := exponent_spec n d hn hd
  have hk3 := hk2 100 hlt
  obtain ⟨k, hkdef⟩ : ∃ k, k = double.exponent n d := ⟨_, rfl⟩
  rw [← hkdef] at hk hk1 hk3
  have two : (2 : ℚ) ≠ 0 := by norm_num
  have hdq : (0 : ℚ) < (d : ℚ) := by
    have : 0 < d := Nat.pos_of_ne_zero hd
    exact_mod_cast this
  have hN := pow2_num_pos k
  have hD := pow2_den_pos k
  have hB : 0 < d * pow2_num k := by
    have : (0 : ℚ) < ((d * pow2_num k : Nat) : ℚ) := by
      push_cast
      positivity
    exact_mod_cast this
  have herr := round_half_even_error (n * pow2_den k) (d * pow2_num k) hB
  obtain ⟨mr, hmr⟩ : ∃ mr, mr = round_half_even (n * pow2_den k) (d * pow2_num k) := ⟨_, rfl⟩
  rw [← hmr] at herr
  have hpk : (0 : ℚ) < (2 : ℚ) ^ k := by positivity
  have hq : ((n * pow2_den k : Nat) : ℚ) / ((d * pow2_num k : Nat) : ℚ)
      = (n : ℚ) / (d : ℚ) / (2 : ℚ) ^ k := by
    rw [← pow2_ratio k]
    push_cast
    field_simp
  rw [hq] at herr
  have hval : |(mr : ℚ) * (2 : ℚ) ^ k - (n : ℚ) / (d : ℚ)| ≤ (2 : ℚ) ^ (k - 1) := by
    have e1 : (mr : ℚ) * (2 : ℚ) ^ k - (n : ℚ) / (d : ℚ)
        = ((mr : ℚ) - (n : ℚ) / (d : ℚ) / (2 : ℚ) ^ k) * (2 : ℚ) ^ k := by
      field_simp
      ring
    have e2 : (2 : ℚ) ^ (k - 1) = 1 / 2 * (2 : ℚ) ^ k := by
      rw [zpow_sub₀ two, zpow_one]
      ring
    rw [e1, e2, abs_mul, abs_of_pos hpk]
    exact mul_le_mul_of_nonneg_right herr hpk.le
  unfold double.round
  rw [if_neg hn]
  simp only
  rw [← hkdef, ← hmr]
  unfold double.pack
  by_cases h53 : mr = 2 ^ 53
  · rw [if_pos h53, if_neg (by omega)]
    refine ⟨2 ^ 52, k + 1, k, rfl, ?_, hk⟩
    have e : ((2 ^ 52 : Nat) : ℚ) * (2 : ℚ) ^ (k + 1) = (mr : ℚ) * (2 : ℚ) ^ k := by
      rw [h53, zpow_add₀ two, zpow_one]
      push_cast
      ring
    rw [e]
    exact hval
  · rw [if_neg h53, if_neg (by omega)]
    exact ⟨mr, k, k, rfl, hval, hk⟩

theorem half_unit_small (k : Int) (y : ℚ) (hy : y < 128)
    (hk : k = -1074 ∨ (2 : ℚ) ^ (k + 52) ≤ y) : (2 : ℚ) ^ (k - 1) ≤ (2 : ℚ) ^ (-47 : Int) := by
  apply zpow_le_zpow_right₀ (by norm_num)
  rcases hk with hk | hk
  · omega
  · by_contra hc
    have h1 : (7 : Int) ≤ k + 52 := by omega
    have h2 : (2 : ℚ) ^ (7 : Int) ≤ (2 : ℚ) ^ (k + 52) := zpow_le_zpow_right₀ (by norm_num) h1
    have h3 : (2 : ℚ) ^ (7 : Int) = 128 := by norm_num
    linarith

theorem of_int_hundred : double.of_int 100 = double.finite false 7036874417766400 (-46) := by
  set_option maxRecDepth 8192 in decide

/-- The difference `100.0 - x` for a finite `x ≥ 0` not above 101 is within `2^-47` of
the exact difference. -/
theorem sub_hundred_error (m : Nat) (e : Int) (h : (m : ℚ) * (2 : ℚ) ^ e ≤ 101) :
    |double.value (double.sub (double.of_int 100) (double.finite false m e))
        + (m : ℚ) * (2 : ℚ) ^ e - 100| ≤ (2 : ℚ) ^ (-47 : Int) := by
  have two : (2 : ℚ) ≠ 0 := by norm_num
  have hN := pow2_num_pos e
  have hD := pow2_den_pos e
  have hr := pow2_ratio e
  have h46n : pow2_num (-46) = 1 := pow2_num_nonpos _ (by norm_num)
  have h46d : pow2_den (-46) = 2 ^ 46 := by
    unfold pow2_den
    congr 1
  obtain ⟨a, ha⟩ : ∃ a, a = 7036874417766400 * pow2_den e := ⟨_, rfl⟩
  obtain ⟨b, hb⟩ : ∃ b, b = m * pow2_num e * 2 ^ 46 := ⟨_, rfl⟩
  obtain ⟨dd, hdd⟩ : ∃ dd, dd = 2 ^ 46 * pow2_den e := ⟨_, rfl⟩
  have hddq : (0 : ℚ) < (dd : ℚ) := by
    rw [hdd]
    push_cast
    positivity
  have hdd0 : dd ≠ 0 := by
    intro h0
    rw [h0] at hddq
    simp at hddq
  have haq : (a : ℚ) / (dd : ℚ) = 100 := by
    rw [ha, hdd]
    push_cast
    field_simp
    ring
  have hbq : (b : ℚ) / (dd : ℚ) = (m : ℚ) * (2 : ℚ) ^ e := by
    rw [hb, hdd, ← hr]
    push_cast
    field_simp
    ring
  have hzero : (2 : ℚ) ^ (-47 : Int) ≥ 0 := by positivity
  rw [of_int_hundred]
  unfold double.sub double.neg double.add double.num
  simp only [h46n, h46d, mul_one, Bool.not_false, Bool.false_eq_true, if_false]
  rw [← ha, ← hb, ← hdd]
  by_cases hab : a = b
  · rw [if_pos hab]
    have : (m : ℚ) * (2 : ℚ) ^ e = 100 := by rw [← hbq, ← hab, haq]
    rw [this]
    simp only [double.value, Bool.false_eq_true, if_false, one_mul, Nat.cast_zero, zero_mul,
      zero_add, sub_self, abs_zero]
    exact hzero
  · rw [if_neg hab]
    by_cases hlt : b < a
    · rw [if_pos hlt]
      have hn0 : a - b ≠ 0 := by omega
      have hbig : a - b < dd * 2 ^ 100 := by
        have h1 : (a : ℚ) = 100 * (dd : ℚ) := by
          rw [← haq]
          field_simp
        have h2 : a = 100 * dd := by exact_mod_cast h1
        have h3 : dd * 100 < dd * 2 ^ 100 :=
          Nat.mul_lt_mul_of_pos_left (by norm_num) (Nat.pos_of_ne_zero hdd0)
        omega
      obtain ⟨mc, ec, kc, hround, herr, hk⟩ := round_error false (a - b) dd hn0 hdd0 hbig
      have hcast : ((a - b : Nat) : ℚ) / (dd : ℚ) = 100 - (m : ℚ) * (2 : ℚ) ^ e := by
        rw [Nat.cast_sub hlt.le, sub_div, haq, hbq]
      rw [hcast] at herr hk
      have hm0 : (0 : ℚ) ≤ (m : ℚ) * (2 : ℚ) ^ e := by positivity
      have hsmall := half_unit_small kc _ (by linarith) hk
      rw [hround]
      simp only [double.value, Bool.false_eq_true, if_false, one_mul]
      have e1 : (mc : ℚ) * (2 : ℚ) ^ ec + (m : ℚ) * (2 : ℚ) ^ e - 100
          = (mc : ℚ) * (2 : ℚ) ^ ec - (100 - (m : ℚ) * (2 : ℚ) ^ e) := by ring
      rw [e1]
      exact le_trans herr hsmall
    · rw [if_neg hlt]
      have hba : a < b := by omega
      have hn0 : b - a ≠ 0 := by omega
      have hb101 : b ≤ 101 * dd := by
        have h1 : (b : ℚ) ≤ 101 * (dd : ℚ) := by
          have := hbq ▸ h
          rw [div_le_iff₀ hddq] at this
          exact this
        exact_mod_cast h1
      have hbig : b - a < dd * 2 ^ 100 := by
        have h3 : dd * 101 < dd * 2 ^ 100 :=
          Nat.mul_lt_mul_of_pos_left (by norm_num) (Nat.pos_of_ne_zero hdd0)
        omega
      obtain ⟨mc, ec, kc, hround, herr, hk⟩ := round_error true (b - a) dd hn0 hdd0 hbig
      have hcast : ((b - a : Nat) : ℚ) / (dd : ℚ) = (m : ℚ) * (2 : ℚ) ^ e - 100 := by
        rw [Nat.cast_sub hba.le, sub_div, haq, hbq]
      rw [hcast] at herr hk
      have hsmall := half_unit_small kc _ (by linarith) hk
      rw [hround]
      simp only [double.value, if_true]
      have e1 : -1 * ((mc : ℚ) * (2 : ℚ) ^ ec) + (m : ℚ) * (2 : ℚ) ^ e - 100
          = -((mc : ℚ) * (2 : ℚ) ^ ec - ((m : ℚ) * (2 : ℚ) ^ e - 100)) := by ring
      rw [e1, abs_neg]
      exact le_trans herr hsmall

/-- The difference `difftv` computes between a time and itself is `0.0`. -/
theorem difftv_double_self (tv : timeval) : difftv_double tv tv = double.zero := by
  have h6 : double.of_int 1000000 = double.of_int ((1000000 : Nat) : Int) := rfl
  unfold difftv_double
  simp only [sub_self]
  rw [of_int_zero, h6, div_zero_whole 1000000 (by norm_num) (by norm_num)]
  unfold double.add double.num double.zero
  simp [double.round]

/-- The value `0.0` is printed with all digits 0. -/
theorem printf_lf_zero (digits : Nat) : printf_lf digits double.zero = some (false, 0) := by
  have hp : 0 < pow2_den (-1074) := Nat.pos_pow_of_pos _ (by norm_num)
  unfold double.zero printf_lf double.num round_half_even
  simp only [zero_mul, Nat.zero_mod, Nat.zero_div, mul_zero]
  rw [if_pos hp]

/-- The percentage lost that `print_statistics` computes when some query completed is the
exact quotient `100 * timed_out / sent` rounded once: the product is exact. -/
theorem per_lost_round (s : State) (hle : s.num_queries_timed_out ≤ s.num_queries_sent)
    (hlt : s.num_queries_sent < 2 ^ 32) (hne : ¬ num_queries_completed s = 0) :
    (print_statistics s).per_lost
      = double.round false (100 * s.num_queries_timed_out) s.num_queries_sent := by
  have hc : num_queries_completed s = s.num_queries_sent - s.num_queries_timed_out := by
    unfold num_queries_completed
    omega
  have hs : s.num_queries_sent ≠ 0 := by omega
  have h100 : double.of_int 100 = double.of_int ((100 : Nat) : Int) := rfl
  simp only [print_statistics]
  rw [if_neg hne, h100]
  by_cases ht : s.num_queries_timed_out = 0
  · rw [ht, Nat.cast_zero, of_int_zero, mul_zero_right 100 (by norm_num) (by norm_num),
      div_zero_whole _ hs (by omega)]
    simp [double.round]
  · rw [mul_whole 100 _ (by norm_num) ht (by omega),
      div_whole _ _ (by omega) hs (by omega) (by omega)]

/-- The percentage lost that `print_statistics` computes is a finite value, not negative,
when `num_queries_timed_out` is at most `num_queries_sent`. -/
theorem per_lost_finite (s : State) (hle : s.num_queries_timed_out ≤ s.num_queries_sent)
    (hlt : s.num_queries_sent < 2 ^ 32) :
    ∃ m e, (print_statistics s).per_lost = double.finite false m e := by
  by_cases hne : num_queries_completed s = 0
  · refine ⟨0, -1074, ?_⟩
    simp only [print_statistics]
    rw [if_pos hne]
    rfl
  · have hc : num_queries_completed s = s.num_queries_sent - s.num_queries_timed_out := by
      unfold num_queries_completed
      omega
    rw [per_lost_round s hle hlt hne]
    apply round_finite
    · omega
    · have : (2 : Nat) ^ 39 ≤ 2 ^ 200 := Nat.pow_le_pow_right (by norm_num) (by norm_num)
      omega

/-! ## The claims -/

/-- C1: accounting invariant. From any state in which nothing has been sent, after any
sequence of calls of `set_max_queries`, `update_config`, `keep_sending`,
`next_input_line`, `send_query`, `register_response` and `retire_old_queries` that
registered fewer than 2^32 queries, `num_queries_sent` is the number of queries registered
and equals the number of matched responses plus `num_queries_timed_out` plus
`num_queries_outstanding`; so when no query is outstanding the completed count of
`print_statistics` is the number of matched responses and its subtraction does not wrap.
Every run of the loop of `main` after `setup` is such a sequence of calls, and the loop is
left only with no query outstanding. -/
theorem C1_accounting :
    (∀ (g0 : State), Fresh g0 → ∀ (ops : List Op) (h : Hist),
      Hist.run ops (Hist.start g0) = some h → h.registered < 2 ^ 32 →
      h.g.num_queries_sent = h.registered ∧
      h.g.num_queries_sent
        = h.matched + h.g.num_queries_timed_out + h.g.num_queries_outstanding ∧
      (h.g.num_queries_outstanding = 0 →
        num_queries_completed h.g = h.matched ∧
        h.g.num_queries_timed_out ≤ h.g.num_queries_sent)) ∧
    (∀ (now : timeval) (sys : Sys) (opts : List (Char × List Char)) (es : List Env)
      (m m' : Main), main_enter now sys opts = some m → run es m = some m' →
      m'.pc = Pc.finish ∨ m'.pc = Pc.exited →
      ∃ (ops : List Op) (h : Hist), Hist.run ops (Hist.start m.g) = some h ∧ h.g = m'.g ∧
        m'.g.num_queries_outstanding = 0 ∧
        (h.registered < 2 ^ 32 →
          num_queries_completed m'.g = h.matched ∧
          m'.g.num_queries_timed_out ≤ m'.g.num_queries_sent)) := by
  constructor
  · intro g0 hg ops h hr hlt
    obtain ⟨_, ha, _⟩ := hist_run_acct ops (Hist.start g0) h hg.wf (start_acct g0 hg) hr
    exact acct_completed h ha hlt
  · intro now sys opts es m m' h0 hr hpc
    have hf := main_enter_Fresh now sys opts m h0
    obtain ⟨ops, h, hh, hg⟩ := run_hist es m m' hr (Hist.start m.g) rfl
    have hpc0 : m.pc = Pc.finish ∨ m.pc = Pc.exited → m.g.num_queries_outstanding = 0 :=
      fun _ => hf.out0
    have hout := run_exit es m m' hr hpc0 hpc
    refine ⟨ops, h, hh, hg, hout, ?_⟩
    intro hlt
    obtain ⟨_, ha, _⟩ := hist_run_acct ops (Hist.start m.g) h hf.wf (start_acct m.g hf) hh
    have := (acct_completed h ha hlt).2.2 (by rw [hg]; exact hout)
    rw [hg] at this
    exact this

/-- Witness of C1: a history in which the table is allocated and one query is sent and
answered, and a complete run of `main` on one query line, which ends with 1 query sent
and 1 completed. -/
theorem C1_accounting_witness :
    (Fresh initial ∧ Hist.run ex_ops (Hist.start initial) = some ex_hist ∧
     ex_hist.registered < 2 ^ 32 ∧
     (ex_hist.g.num_queries_sent = ex_hist.registered ∧
      ex_hist.g.num_queries_sent
        = ex_hist.matched + ex_hist.g.num_queries_timed_out
            + ex_hist.g.num_queries_outstanding ∧
      (ex_hist.g.num_queries_outstanding = 0 →
        num_queries_completed ex_hist.g = ex_hist.matched ∧
        ex_hist.g.num_queries_timed_out ≤ ex_hist.g.num_queries_sent))) ∧
    (main_enter ⟨100, 0⟩ run1_sys [] = some run1_start ∧
     run run1_envs run1_start = some run1_end ∧ run1_end.pc = Pc.exited ∧
     run1_end.g.num_queries_sent = 1 ∧ num_queries_completed run1_end.g = 1 ∧
     ∃ (ops : List Op) (h : Hist),
       Hist.run ops (Hist.start run1_start.g) = some h ∧ h.g = run1_end.g ∧
       run1_end.g.num_queries_outstanding = 0 ∧
       (h.registered < 2 ^ 32 →
         num_queries_completed run1_end.g = h.matched ∧
         run1_end.g.num_queries_timed_out ≤ run1_end.g.num_queries_sent)) :=
  ⟨⟨initial_Fresh, rfl, by decide,
    C1_accounting.1 initial initial_Fresh ex_ops ex_hist rfl (by decide)⟩,
   rfl, rfl, rfl, rfl, rfl,
   C1_accounting.2 ⟨100, 0⟩ run1_sys [] run1_envs run1_start run1_end rfl rfl (Or.inr rfl)⟩

/-- C2: `num_queries_outstanding` is the number of records in use over the whole allocated
table, in every state a sequence of calls of `set_max_queries`, `update_config`,
`keep_sending`, `next_input_line`, `send_query`, `register_response` and
`retire_old_queries` reaches from a well-formed state, and in every state a run of the
loop of `main` after `setup` reaches. Such a run is defined up to a step that hands
`update_config` a directive on which it has no defined result, and that is a
`maxqueries` directive whose value is above the capacity with a byte count that wraps. -/
theorem C2_outstanding_counts_in_use :
    (∀ (g0 : State), WF g0 → ∀ (ops : List Op) (h : Hist),
        Hist.run ops (Hist.start g0) = some h →
        h.g.num_queries_outstanding = in_use_count h.g.status) ∧
    (∀ (now : timeval) (sys : Sys) (opts : List (Char × List Char)) (es : List Env)
        (m : Main), main_enter now sys opts = some m →
        (∀ m', run es m = some m' →
          m'.g.num_queries_outstanding = in_use_count m'.g.status) ∧
        (run es m = none →
          ∃ (es1 : List Env) (e : Env) (es2 : List Env) (m1 : Main) (d : List Char × State),
            es = es1 ++ e :: es2 ∧ run es1 m = some m1 ∧ step_directive e m1 = some d ∧
            update_config e.sys d.1 d.2 = none ∧
            ∃ v, d.2.query_status_allocated < v ∧ 2 ^ 32 ≤ v * size_qs)) := by
  constructor
  · intro g0 hw ops h hr
    exact (hist_run_WF ops (Hist.start g0) h hw hr).out
  · intro now sys opts es m h0
    have hw := main_enter_WF now sys opts m h0
    constructor
    · intro m' hr
      exact (run_WF es m m' hw hr).out
    · intro hn
      obtain ⟨es1, e, es2, m1, d, hes, hr, hd, hu⟩ := run_total es m hw hn
      obtain ⟨v, c, _, _, hv⟩ := update_config_none e.sys d.1 d.2 hu
      exact ⟨es1, e, es2, m1, d, hes, hr, hd, hu, v,
        set_max_queries_none e.sys v { d.2 with errno := c } hv⟩

/-- Witness of C2: after two queries are sent the counter and the table agree on two
records in use. -/
theorem C2_outstanding_counts_in_use_witness :
    WF initial ∧ Hist.run ex_two_ops (Hist.start initial) = some ex_two ∧
    ex_two.g.num_queries_outstanding = 2 ∧
    ex_two.g.num_queries_outstanding = in_use_count ex_two.g.status :=
  ⟨initial_WF, rfl, rfl,
   C2_outstanding_counts_in_use.1 initial initial_WF ex_two_ops ex_two rfl⟩

/-- C3, counterexample: `main` without options reads the query `a A`, 65535 malformed
lines and the query `a A` again in one pass of its inner loop; the id counter has then
wrapped, and records 0 and 1 are both in use and both hold id 1. The same calls as a
history: 65537 calls of `send_query`. -/
theorem C3_counterexample :
    (∃ m m', main_enter ⟨100, 0⟩ c3_sys [] = some m ∧ run c3_envs m = some m' ∧
      m'.g.status[0]? = some ⟨QUERY_STATUS_MAGIC, true, 1, ⟨100, 0⟩⟩ ∧
      m'.g.status[1]? = some ⟨QUERY_STATUS_MAGIC, true, 1, ⟨100, 0⟩⟩ ∧
      ¬ UniqueIds m'.g.status) ∧
    (∃ h, Hist.run c3_ops (Hist.start initial) = some h ∧ h.calls = 65537 ∧
      h.g.status[0]? = some ⟨QUERY_STATUS_MAGIC, true, 1, ⟨100, 0⟩⟩ ∧
      h.g.status[1]? = some ⟨QUERY_STATUS_MAGIC, true, 1, ⟨100, 0⟩⟩ ∧
      ¬ UniqueIds h.g.status) := by
  constructor
  · obtain ⟨m', hr, hg⟩ := c3_main
    refine ⟨c3_m0, m', c3_enter, hr, by rw [hg]; rfl, by rw [hg]; rfl, ?_⟩
    intro hu
    rw [hg] at hu
    exact hu 0 1 _ _ (by decide) rfl rfl rfl rfl rfl
  · have h1 : Hist.run [Op.set_max ex_sys 20, Op.send ex_send ex_line] (Hist.start initial)
        = some ((Hist.run [Op.set_max ex_sys 20, Op.send ex_send ex_line]
            (Hist.start initial)).getD (Hist.start initial)) := rfl
    have hrun : Hist.run c3_ops (Hist.start initial) =
        Hist.run [Op.send ex_send ex_line]
          { (Hist.run [Op.set_max ex_sys 20, Op.send ex_send ex_line]
              (Hist.start initial)).getD (Hist.start initial) with
            g := { ex_sent with use_query_id := (ex_sent.use_query_id + 65535) % 65536 },
            calls := 1 + 65535 } := by
      unfold c3_ops
      rw [hist_run_append, h1, Option.some_bind, hist_run_append,
        run_bad 65535 _ (by decide), Option.some_bind]
      rfl
    rw [hrun]
    refine ⟨_, rfl, rfl, rfl, rfl, ?_⟩
    intro hu
    exact hu 0 1 _ _ (by decide) rfl rfl rfl rfl rfl

/-- C3, amended: from any state in which nothing has been sent, after any sequence of
calls, two different records in use hold different ids whenever both were registered
within the last 65536 calls of `send_query` (calls for malformed lines count); in
particular no two records in use hold the same id in a state reached with at most 65536
calls of `send_query`. -/
theorem C3_unique_ids_amended (g0 : State) (hg : Fresh g0) (ops : List Op) (h : Hist)
    (hr : Hist.run ops (Hist.start g0) = some h) :
    (∀ (i j : Nat) (p q : query_status) (bi bj : Nat), i ≠ j →
      h.g.status[i]? = some p → h.g.status[j]? = some q →
      p.in_use = true → q.in_use = true →
      h.born[i]? = some bi → h.born[j]? = some bj →
      h.calls < bi + 65536 → h.calls < bj + 65536 → p.id ≠ q.id) ∧
    (h.calls ≤ 65536 → UniqueIds h.g.status) := by
  have hi := hist_run_IdInv ops (Hist.start g0) h (start_IdInv g0 hg) hr
  have main : ∀ (i j : Nat) (p q : query_status) (bi bj : Nat), i ≠ j →
      h.g.status[i]? = some p → h.g.status[j]? = some q →
      p.in_use = true → q.in_use = true →
      h.born[i]? = some bi → h.born[j]? = some bj →
      h.calls < bi + 65536 → h.calls < bj + 65536 → p.id ≠ q.id := by
    intro i j p q bi bj hij hp hq hpu hqu hbi hbj hci hcj
    obtain ⟨b1, hb1, _, h1c, h1id⟩ := hi.idb i p hp hpu
    obtain ⟨b2, hb2, _, h2c, h2id⟩ := hi.idb j q hq hqu
    have hne := hi.inj i j p q b1 hij hp hq hpu hqu hb1
    rw [hb1] at hbi
    rw [hb2] at hbj hne
    simp only [Option.some.injEq] at hbi hbj
    simp only [ne_eq, Option.some.injEq] at hne
    subst hbi
    subst hbj
    rw [h1id, h2id]
    omega
  refine ⟨main, ?_⟩
  intro hc i j p q hij hp hq hpu hqu
  obtain ⟨b1, hb1, h1p, _, _⟩ := hi.idb i p hp hpu
  obtain ⟨b2, hb2, h2p, _, _⟩ := hi.idb j q hq hqu
  exact main i j p q b1 b2 hij hp hq hpu hqu hb1 hb2 (by omega) (by omega)

/-- Witness of C3 amended: after two queries are sent, records 0 and 1 are in use with
the ids 1 and 2, and the ids in the table are pairwise different. -/
theorem C3_unique_ids_amended_witness :
    Fresh initial ∧ Hist.run ex_two_ops (Hist.start initial) = some ex_two ∧
    ex_two.calls ≤ 65536 ∧
    ex_two.g.status[0]? = some ⟨QUERY_STATUS_MAGIC, true, 1, ⟨100, 0⟩⟩ ∧
    ex_two.g.status[1]? = some ⟨QUERY_STATUS_MAGIC, true, 2, ⟨100, 0⟩⟩ ∧
    UniqueIds ex_two.g.status :=
  ⟨initial_Fresh, rfl, by decide, rfl, rfl,
   (C3_unique_ids_amended initial initial_Fresh ex_two_ops ex_two rfl).2 (by decide)⟩

/-- C4, counterexample: `main` without options reads two queries and then the directive
`#maxqueries 1`; it is then at the test of the inner loop, about to evaluate
`keep_sending(&got_eof) == TRUE && queries_outstanding() < max_queries_outstanding`, with
2 queries outstanding and a limit of 1. -/
theorem C4_counterexample :
    c4_run.map (fun m => (m.pc, m.g.num_queries_outstanding, m.g.max_queries_outstanding))
      = some (Pc.inner, 2, 1) := by
  rfl

/-- C4, amended: in every state the loop of `main` reaches after `setup`,
`num_queries_outstanding` is at most `query_status_allocated`; the bound
`num_queries_outstanding <= max_queries_outstanding` holds when the loop is entered, and
every step of the loop keeps it unless the step is a turn of the inner loop that lowers
`max_queries_outstanding`. -/
theorem C4_gate_bound_amended (now : timeval) (sys : Sys) (opts : List (Char × List Char))
    (es : List Env) (m m' : Main) (h0 : main_enter now sys opts = some m)
    (hr : run es m = some m') :
    m.g.num_queries_outstanding ≤ m.g.max_queries_outstanding ∧
    m'.g.num_queries_outstanding ≤ m'.g.query_status_allocated ∧
    (∀ (e : Env) (m'' : Main), main_step e m' = some m'' →
      m'.g.num_queries_outstanding ≤ m'.g.max_queries_outstanding →
      (m'.pc = Pc.inner ∧ m''.g.max_queries_outstanding < m'.g.max_queries_outstanding) ∨
      m''.g.num_queries_outstanding ≤ m''.g.max_queries_outstanding) := by
  have hf := main_enter_Fresh now sys opts m h0
  have hw := run_WF es m m' hf.wf hr
  refine ⟨by rw [hf.out0]; exact Nat.zero_le _, ?_, ?_⟩
  · rw [hw.out]; exact in_use_count_le _
  · intro e m'' hs hb
    exact main_step_gate e m' m'' hw hs hb

/-- Witness of C4 amended: on the run `c4_run` the number outstanding, 2, is within the
capacity of 20. -/
theorem C4_gate_bound_amended_witness :
    ∃ m m', main_enter ⟨100, 0⟩ c4_sys [] = some m ∧
      run [c4_env, c4_env, c4_env, c4_env] m = some m' ∧
      m'.g.num_queries_outstanding = 2 ∧ m'.g.query_status_allocated = 20 ∧
      m'.g.num_queries_outstanding ≤ m'.g.query_status_allocated :=
  ⟨(main_enter ⟨100, 0⟩ c4_sys []).getD (main_start initial),
   c4_run.getD (main_start initial), rfl, rfl, rfl, rfl,
   (C4_gate_bound_amended ⟨100, 0⟩ c4_sys [] [c4_env, c4_env, c4_env, c4_env]
      ((main_enter ⟨100, 0⟩ c4_sys []).getD (main_start initial))
      (c4_run.getD (main_start initial)) rfl rfl).2.1⟩

/-- C5: capacity invariant. A successful `set_max_queries(n)` sets the limit to `n` and the
capacity to the larger of the old capacity and `n`, so the capacity is at least the limit
and did not decrease; a failed call changes nothing; and along every sequence of calls
from a well-formed state the capacity never decreases and stays at least the limit. A
call within the capacity, or above it with a byte count `n * size_qs` that fits an
`unsigned int` and a `realloc` that succeeds, is successful; a call above the capacity
whose byte count wraps has no defined result when `realloc` returns a block. -/
theorem C5_capacity :
    (∀ (sys : Sys) (n : Nat) (s t : State), set_max_queries sys n s = some (0, t) →
      t.query_status_allocated = max s.query_status_allocated n ∧
      t.max_queries_outstanding = n ∧
      t.max_queries_outstanding ≤ t.query_status_allocated ∧
      s.query_status_allocated ≤ t.query_status_allocated) ∧
    (∀ (sys : Sys) (n : Nat) (s t : State) (c : Int),
      set_max_queries sys n s = some (c, t) → c ≠ 0 → t = s) ∧
    (∀ (g0 : State), WF g0 → ∀ (ops : List Op) (h : Hist),
      Hist.run ops (Hist.start g0) = some h →
      g0.query_status_allocated ≤ h.g.query_status_allocated ∧
      h.g.max_queries_outstanding ≤ h.g.query_status_allocated) ∧
    (∀ (sys : Sys) (n : Nat) (s : State),
      n ≤ s.query_status_allocated ∨ (n * size_qs < 2 ^ 32 ∧ sys.realloc_ok = true) →
      ∃ t, set_max_queries sys n s = some (0, t)) ∧
    (∀ (sys : Sys) (n : Nat) (s : State),
      s.query_status_allocated < n → 2 ^ 32 ≤ n * size_qs → sys.realloc_ok = true →
      set_max_queries sys n s = none) := by
  refine ⟨?_, ?_, ?_, ?_, ?_⟩
  · intro sys n s t h
    rcases set_max_queries_cases sys n s _ h with ⟨h1, _, _⟩ | ⟨h2, _⟩
    · have h0 : (0 : Int) = -1 := congrArg Prod.fst h1
      exact absurd h0 (by decide)
    · have h3 := congrArg Prod.snd h2
      simp only at h3
      rw [h3]
      simp only [State.query_status_allocated, List.length_append, fresh_slots_length]
      refine ⟨?_, trivial, ?_, ?_⟩ <;> omega
  · intro sys n s t c h hc
    rcases set_max_queries_cases sys n s _ h with ⟨h1, _, _⟩ | ⟨h2, _⟩
    · exact congrArg Prod.snd h1
    · exact absurd (congrArg Prod.fst h2) hc
  · intro g0 hw ops h hr
    exact ⟨hist_run_length ops (Hist.start g0) h hr, (hist_run_WF ops (Hist.start g0) h hw hr).lim⟩
  · intro sys n s h
    exact ⟨_, set_max_queries_ok sys n s h⟩
  · intro sys n s hgt hwrap hok
    cases hr : set_max_queries sys n s with
    | none => rfl
    | some r =>
      rcases set_max_queries_cases sys n s r hr with ⟨_, h2, _⟩ | ⟨_, h2⟩
      · rw [hok] at h2
        exact absurd h2 (by decide)
      · rcases h2 with h2 | h2
        · exact absurd h2 (by simp only [State.query_status_allocated] at hgt; omega)
        · exact absurd h2 (by omega)

/-- Witness of C5: raising the limit of the initial state to 20 allocates 20 records, the
example history keeps them, and a limit of 2^27 + 1 records, whose byte count wraps to
32, has no defined result. -/
theorem C5_capacity_witness :
    (∃ t, set_max_queries ex_sys 20 initial = some (0, t) ∧
      t.query_status_allocated = max initial.query_status_allocated 20 ∧
      t.query_status_allocated = 20) ∧
    (WF initial ∧ Hist.run ex_ops (Hist.start initial) = some ex_hist ∧
      initial.query_status_allocated ≤ ex_hist.g.query_status_allocated ∧
      ex_hist.g.max_queries_outstanding ≤ ex_hist.g.query_status_allocated) ∧
    (134217729 * size_qs) % 2 ^ 32 = 32 ∧
    set_max_queries ex_sys 134217729 initial = none :=
  ⟨⟨_, rfl, (C5_capacity.1 ex_sys 20 initial _ rfl).1, rfl⟩,
   ⟨initial_WF, rfl, C5_capacity.2.2.1 initial initial_WF ex_ops ex_hist rfl⟩,
   by decide,
   C5_capacity.2.2.2.2 ex_sys 134217729 initial (by decide) (by decide) rfl⟩

/-- C6: `register_response(id)`. When record `i` is the lowest record in use that holds
`id`, the call clears `in_use` of exactly that record and decrements
`num_queries_outstanding`, every other record and every other variable keeps its value,
and in a well-formed state the counter goes down by exactly one; `i` may be any index of
the allocated table, also one at or above `max_queries_outstanding`. When no record in use
holds `id` the state is unchanged. -/
theorem C6_register_response (id : Nat) (s : State) :
    (∀ (i : Nat) (q : query_status), s.status[i]? = some q → q.in_use = true → q.id = id →
      (∀ (j : Nat) (p : query_status), j < i → s.status[j]? = some p →
        ¬ (p.in_use = true ∧ p.id = id)) →
      register_response id s =
        (true, { s with
                   status := s.status.set i { q with in_use := false }
                   num_queries_outstanding :=
                     (s.num_queries_outstanding + 2 ^ 32 - 1) % 2 ^ 32 }) ∧
      (WF s → (register_response id s).2.num_queries_outstanding + 1
                = s.num_queries_outstanding)) ∧
    ((∀ q ∈ s.status, ¬ (q.in_use = true ∧ q.id = id)) →
      register_response id s = (false, s)) := by
  constructor
  · intro i q hi hu hid hlow
    have hscan := scan_found_first id s.status i q hi ⟨hu, hid⟩ hlow
    have heq : register_response id s =
        (true, { s with
                   status := s.status.set i { q with in_use := false }
                   num_queries_outstanding :=
                     (s.num_queries_outstanding + 2 ^ 32 - 1) % 2 ^ 32 }) := by
      unfold register_response
      simp only [hscan, if_true]
    refine ⟨heq, ?_⟩
    intro hw
    rw [heq]
    have hf : (register_response_scan id s.status).1 = true := by rw [hscan]
    have hpos := count_pos_of_found id s.status hf
    have hout := hw.out
    have hle := in_use_count_le s.status
    have hcap := hw.cap
    simp only
    rw [u32_pred _ (by omega) (by omega)]
    omega
  · intro hnone
    rcases register_response_spec id s with ⟨h1, h2, _⟩ | ⟨_, hf, _⟩
    · exact Prod.ext h1 h2
    · obtain ⟨q, hq, hq2⟩ := (scan_found_iff id s.status).mp hf
      exact absurd hq2 (hnone q hq)

/-- Witness of C6: the response with id 1 releases record 0 of `ex_sent`, and a response
with id 7 changes nothing. -/
theorem C6_register_response_witness :
    (ex_sent.status[0]? = some ⟨QUERY_STATUS_MAGIC, true, 1, ⟨100, 0⟩⟩ ∧
     register_response 1 ex_sent =
        (true, { ex_sent with
                   status := ex_sent.status.set 0 ⟨QUERY_STATUS_MAGIC, false, 1, ⟨100, 0⟩⟩
                   num_queries_outstanding :=
                     (ex_sent.num_queries_outstanding + 2 ^ 32 - 1) % 2 ^ 32 })) ∧
    register_response 7 ex_sent = (false, ex_sent) :=
  ⟨⟨rfl, ((C6_register_response 1 ex_sent).1 0 ⟨QUERY_STATUS_MAGIC, true, 1, ⟨100, 0⟩⟩ rfl rfl rfl
      (fun j p hj => absurd hj (Nat.not_lt_zero j))).1⟩,
   (C6_register_response 7 ex_sent).2 (by decide)⟩

/-- C7: `retire_old_queries` at clock reading `now`, in a well-formed state. The table
keeps its length; every record in use whose age `now - sent_timestamp` is at least
`query_timeout` has `in_use` cleared and every other record is unchanged;
`num_queries_outstanding` goes down by the number `k` of cleared records and
`num_queries_timed_out` goes up by `k` (as an `unsigned int`, so by exactly `k` when that
does not pass 2^32); `num_queries_sent` is unchanged; afterwards no record in use has
reached the timeout. -/
theorem C7_retire_old_queries (now : timeval) (s : State) (hw : WF s) :
    (retire_old_queries now s).status.length = s.status.length ∧
    (∀ (i : Nat) (q : query_status), s.status[i]? = some q →
      (retire_old_queries now s).status[i]? =
        some (if q.in_use = true ∧ difftv now q.sent_timestamp ≥ seconds s.query_timeout
              then { q with in_use := false } else q)) ∧
    (retire_old_queries now s).num_queries_outstanding
        + s.status.countP (timed_out now s.query_timeout) = s.num_queries_outstanding ∧
    (retire_old_queries now s).num_queries_timed_out
        = (s.num_queries_timed_out + s.status.countP (timed_out now s.query_timeout))
            % 2 ^ 32 ∧
    (s.num_queries_timed_out + s.status.countP (timed_out now s.query_timeout) < 2 ^ 32 →
      (retire_old_queries now s).num_queries_timed_out
        = s.num_queries_timed_out + s.status.countP (timed_out now s.query_timeout)) ∧
    (retire_old_queries now s).num_queries_sent = s.num_queries_sent ∧
    (∀ q ∈ (retire_old_queries now s).status,
      ¬ (q.in_use = true ∧ difftv now q.sent_timestamp ≥ seconds s.query_timeout)) := by
  have hk := timed_out_count_le now s.query_timeout s.status
  have hout := hw.out
  rw [retire_old_queries_spec now s hw]
  refine ⟨by simp, ?_, ?_, rfl, ?_, rfl, ?_⟩
  · intro i q hi
    simp only [List.getElem?_map, hi, Option.map_some', retire_slot, timed_out]
    congr 1
    split <;> simp_all
  · show s.num_queries_outstanding - _ + _ = s.num_queries_outstanding
    omega
  · intro hlt
    exact Nat.mod_eq_of_lt hlt
  · intro q hq
    simp only [List.mem_map] at hq
    obtain ⟨p, _, rfl⟩ := hq
    have := retire_slot_not_timed_out now s.query_timeout p
    unfold timed_out at this
    intro hc
    rw [if_pos hc] at this
    exact absurd this (by decide)

/-- Witness of C7: at second 105 the query of `ex_sent`, sent at second 100 with the
default timeout of 5 seconds, is retired. -/
theorem C7_retire_old_queries_witness :
    WF ex_sent ∧ ex_sent.status.countP (timed_out ⟨105, 0⟩ ex_sent.query_timeout) = 1 ∧
    (retire_old_queries ⟨105, 0⟩ ex_sent).status.length = ex_sent.status.length ∧
    (retire_old_queries ⟨105, 0⟩ ex_sent).num_queries_outstanding
        + ex_sent.status.countP (timed_out ⟨105, 0⟩ ex_sent.query_timeout)
      = ex_sent.num_queries_outstanding :=
  have hw : WF ex_sent :=
    ⟨by decide, by decide, by decide, by decide, by decide⟩
  ⟨hw, by decide, (C7_retire_old_queries ⟨105, 0⟩ ex_sent hw).1,
    (C7_retire_old_queries ⟨105, 0⟩ ex_sent hw).2.2.1⟩

/-- C8: stray after release. When at most one record in use holds id `X` and a first
`register_response(X)` has run, or when every record in use that holds `X` has reached
the timeout and `retire_old_queries` has run, then after any further calls, calls of
`send_query` included, none of which registers a query under id `X`, a call
`register_response(X)` finds no record and returns the state unchanged: table,
`num_queries_outstanding`, `num_queries_timed_out` and `num_queries_sent` keep their
values. -/
theorem C8_stray_after_release (X : Nat) (s : State) (ops : List Op) (h : Hist) :
    (s.status.countP (fun q => q.in_use && decide (q.id = X)) ≤ 1 →
      Hist.admits X ops (Hist.around (register_response X s).2) = false →
      Hist.run ops (Hist.around (register_response X s).2) = some h →
      register_response X h.g = (false, h.g)) ∧
    (∀ now : timeval,
      (∀ q ∈ s.status, q.in_use = true → q.id = X →
        difftv now q.sent_timestamp ≥ seconds s.query_timeout) →
      Hist.admits X ops (Hist.around (retire_old_queries now s)) = false →
      Hist.run ops (Hist.around (retire_old_queries now s)) = some h →
      register_response X h.g = (false, h.g)) := by
  constructor
  · intro h1 hna hr
    apply no_holder_stray
    apply hist_run_no_holder X ops _ h hna hr
    show ∀ q ∈ (register_response X s).2.status, _
    rcases register_response_spec X s with ⟨_, h2, h3⟩ | ⟨_, _, h2⟩
    · rw [h2]; exact h3
    · rw [h2]; exact scan_clears X s.status h1
  · intro now hto hna hr
    apply no_holder_stray
    apply hist_run_no_holder X ops _ h hna hr
    show ∀ q ∈ (retire_old_queries now s).status, _
    unfold retire_old_queries
    simp only
    rw [retire_scan_table]
    intro q hq hc
    simp only [List.mem_map] at hq
    obtain ⟨p, hp, rfl⟩ := hq
    unfold retire_slot at hc
    split at hc
    · simp at hc
    · rename_i hn
      apply hn
      unfold timed_out
      rw [if_pos ⟨hc.1, hto p hp hc.1 hc.2⟩]

/-- Witness of C8: in `ex_sent` record 0 is the only one that holds id 1. After the
response, or after the timeout at second 105, two further queries are sent (under ids 2
and 3, the first into the released record), a directive is read and the response to
query 2 arrives; a response with id 1 is then a stray. -/
theorem C8_stray_after_release_witness :
    ex_sent.status.countP (fun q => q.in_use && decide (q.id = 1)) ≤ 1 ∧
    (c8_ops.map (fun op => op.is_send)) = [true, true, false, false] ∧
    Hist.admits 1 c8_ops (Hist.around (register_response 1 ex_sent).2) = false ∧
    Hist.run c8_ops (Hist.around (register_response 1 ex_sent).2) = some c8_late ∧
    c8_late.g.num_queries_sent = 3 ∧ c8_late.g.num_queries_outstanding = 1 ∧
    register_response 1 c8_late.g = (false, c8_late.g) ∧
    Hist.admits 1 c8_ops (Hist.around (retire_old_queries ⟨105, 0⟩ ex_sent)) = false ∧
    Hist.run c8_ops (Hist.around (retire_old_queries ⟨105, 0⟩ ex_sent)) = some c8_retired ∧
    c8_retired.g.num_queries_timed_out = 1 ∧
    register_response 1 c8_retired.g = (false, c8_retired.g) :=
  ⟨by decide, rfl, rfl, rfl, rfl, rfl,
   (C8_stray_after_release 1 ex_sent c8_ops c8_late).1 (by decide) rfl rfl,
   rfl, rfl, rfl,
   (C8_stray_after_release 1 ex_sent c8_ops c8_retired).2 ⟨105, 0⟩ (by decide) rfl rfl⟩

/-- C9: stop latch. A call of `keep_sending` that returns FALSE leaves `stop` set; with
`stop` set a call returns FALSE and changes nothing, neither the state nor
`*reached_end_input`, whatever the clock and the flag are; no sequence of calls of the
other functions clears `stop`; a test of a loop condition of `main` in which
`keep_sending` returns FALSE leaves `stop` set; and from a state of `main` with `stop`
set every run of the loop keeps `stop` set, `got_eof`, the read position,
`runs_through_file`, the limit, the id counter and `num_queries_sent` unchanged, and
reserves no record. -/
theorem C9_stop_latch :
    (∀ (now : timeval) (eof : Bool) (s : State), (keep_sending now eof s).1 = false →
      (keep_sending now eof s).2.2.stop = true) ∧
    (∀ (now : timeval) (eof : Bool) (s : State), s.stop = true →
      keep_sending now eof s = (false, eof, s)) ∧
    (∀ (ops : List Op) (h h' : Hist), h.g.stop = true → Hist.run ops h = some h' →
      h'.g.stop = true) ∧
    (∀ (e : Env) (m m' : Main), main_step e m = some m' →
      m.pc = Pc.outer ∨ m.pc = Pc.inner → (keep_sending e.now m.got_eof m.g).1 = false →
      m'.g.stop = true) ∧
    (∀ (es : List Env) (m m' : Main), m.g.stop = true → run es m = some m' →
      Stopped m m') :=
  ⟨keep_sending_false, keep_sending_stopped, hist_run_stop, main_step_latches, run_stopped⟩

/-- Witness of C9: with the latch set and one query outstanding, three steps of the loop
(outer test, inner test, `retire_old_queries`) send nothing. -/
theorem C9_stop_latch_witness :
    ex_stopped.g.stop = true ∧
    keep_sending ⟨101, 0⟩ false ex_stopped.g = (false, false, ex_stopped.g) ∧
    (∃ m', run [ex_env, ex_env, ex_env] ex_stopped = some m' ∧ m'.pc = Pc.respond ∧
      Stopped ex_stopped m') :=
  ⟨rfl, C9_stop_latch.2.1 ⟨101, 0⟩ false ex_stopped.g rfl,
   ⟨(run [ex_env, ex_env, ex_env] ex_stopped).getD ex_stopped, rfl, rfl,
    C9_stop_latch.2.2.2.2 [ex_env, ex_env, ex_env] ex_stopped _ rfl rfl⟩⟩

/-- C11 (the code departs from it): with `-l 4294967291` the `unsigned int` sum
`run_timelimit + HARD_TIMEOUT_EXTRA` wraps to 0, and `timelimit_reached` returns TRUE in
setup phase at the very clock reading of the program start, long before
`run_timelimit + 5` seconds have passed; the run ends without reading the query on its
input. Where the sum does not wrap, and in the other two cases of the claim, the function
does what the claim says. -/
theorem C11_timelimit_sum_wraps :
    (main_enter ⟨100, 0⟩ run1_sys c11_opts).isSome = true ∧
    c11_m0.g.use_timelimit = true ∧ c11_m0.g.setup_phase = true ∧
    c11_m0.g.run_timelimit = 4294967291 ∧
    c11_m0.g.time_of_program_start = ⟨100, 0⟩ ∧
    difftv ⟨100, 0⟩ c11_m0.g.time_of_program_start
      < seconds c11_m0.g.run_timelimit + seconds 5 ∧
    timelimit_reached ⟨100, 0⟩ c11_m0.g = true ∧
    (run [run1_env none, run1_env none] c11_m0).map
      (fun m => (m.pc, m.g.num_queries_sent, m.g.unread)) = some (Pc.exited, 0, ex_line) ∧
    (∀ (now : timeval) (s : State), s.use_timelimit = false →
      timelimit_reached now s = false) ∧
    (∀ (now : timeval) (s : State), s.use_timelimit = true → s.setup_phase = false →
      (timelimit_reached now s = true ↔
        difftv now s.time_of_first_query ≥ seconds s.run_timelimit)) ∧
    (∀ (now : timeval) (s : State), s.use_timelimit = true → s.setup_phase = true →
      s.run_timelimit + HARD_TIMEOUT_EXTRA < 2 ^ 32 →
      (timelimit_reached now s = true ↔
        difftv now s.time_of_program_start ≥ seconds s.run_timelimit + seconds 5)) := by
  refine ⟨by decide, by decide, by decide, by decide, by decide, by decide, by decide,
    by decide, ?_, ?_, ?_⟩
  · intro now s h
    unfold timelimit_reached
    rw [if_pos h]
  · intro now s h hp
    unfold timelimit_reached
    rw [if_neg (by simp [h]), if_neg (by simp [hp])]
    by_cases hlt : difftv now s.time_of_first_query < seconds s.run_timelimit
    · rw [if_pos hlt]
      simp only [Bool.false_eq_true, false_iff, ge_iff_le, not_le]
      exact hlt
    · rw [if_neg hlt]
      simp only [true_iff, ge_iff_le]
      exact not_lt.mp hlt
  · intro now s h hp hsum
    have hmod : (s.run_timelimit + HARD_TIMEOUT_EXTRA) % 2 ^ 32
        = s.run_timelimit + HARD_TIMEOUT_EXTRA := Nat.mod_eq_of_lt hsum
    have hsec : seconds (s.run_timelimit + HARD_TIMEOUT_EXTRA)
        = seconds s.run_timelimit + seconds 5 := by
      unfold seconds HARD_TIMEOUT_EXTRA
      push_cast
      ring
    unfold timelimit_reached
    rw [if_neg (by simp [h]), if_pos hp, hmod, hsec]
    by_cases hlt : difftv now s.time_of_program_start < seconds s.run_timelimit + seconds 5
    · rw [if_pos hlt]
      simp only [Bool.false_eq_true, false_iff, ge_iff_le, not_le]
      exact hlt
    · rw [if_neg hlt]
      simp only [true_iff, ge_iff_le]
      exact not_lt.mp hlt

/-- C14 (the code departs from it): `is_uint` tests `errno == ERANGE` without clearing
`errno` before `strtoul`, so after the line `#maxqueries 99999999999999999999` has set
`errno` to ERANGE every later numeric directive is rejected, valid or not. In a run of
`main` without options that has read that line, `#maxqueries 3`, `#port 80` and
`#maxwait 9` leave the limit at 20, the port at 53 and the timeout at 5, although each
is applied when the overflowing line does not precede it. -/
theorem C14_valid_value_rejected_after_overflow :
    run1_start.g.ignore_config_changes = false ∧ run1_start.g.setup_phase = true ∧
    run1_start.g.queriesset = false ∧ run1_start.g.portset = false ∧
    run1_start.g.timeoutset = false ∧ run1_start.g.errno = 0 ∧
    (update_config ex_sys maxqueries_3 run1_start.g).map (fun g => g.max_queries_outstanding)
      = some 3 ∧
    (update_config ex_sys port_80 run1_start.g).map (fun g => g.server_port) = some 80 ∧
    (update_config ex_sys maxwait_9 run1_start.g).map (fun g => g.query_timeout) = some 9 ∧
    c14_g1.errno = ERANGE ∧
    c14_g1.max_queries_outstanding = 20 ∧ c14_g1.server_port = 53 ∧
    c14_g1.query_timeout = 5 ∧
    is_uint ['3'] 0 c14_g1.errno = (false, 0, ERANGE) ∧
    (update_config ex_sys maxqueries_3 c14_g1).map (fun g => g.max_queries_outstanding)
      = some 20 ∧
    (update_config ex_sys port_80 c14_g1).map (fun g => g.server_port) = some 53 ∧
    (update_config ex_sys maxwait_9 c14_g1).map (fun g => g.query_timeout) = some 5 := by
  decide

/-- C15 (counterexample): a query line whose second token is `A` and whose first token
is 256 characters long is rejected by `parse_query`. -/
theorem C15_counterexample :
    (strtok_next WHITESPACE (strtok WHITESPACE c15_line)).map (fun t => t.1) = some ['A'] ∧
    (strtok WHITESPACE c15_line).map (fun t => t.1.length) = some 256 ∧
    parse_query c15_line MAX_DOMAIN_LEN = none := by
  set_option maxRecDepth 8192 in decide

/-- C15 (amended): for every query line whose first token is at most 255 characters long,
`parse_query` succeeds exactly when the second token is in the table of the
specification (`spec_qtype`), with the first token as the name and the code of the table
as the type; for every other second token it returns -1 and `send_query` ends in its
parse-error branch, before any datagram is built or sent. -/
theorem C15_query_type_table_amended (input dom r1 ty r2 : List Char)
    (h1 : strtok WHITESPACE input = some (dom, r1))
    (h2 : strtok WHITESPACE r1 = some (ty, r2))
    (hlen : dom.length ≤ MAX_DOMAIN_LEN) :
    parse_query input MAX_DOMAIN_LEN = (spec_qtype ty).map (fun c => (dom, c)) ∧
    (spec_qtype ty = none →
      parse_query input MAX_DOMAIN_LEN = none ∧
      ∀ (env : SendEnv) (s : State), ∃ t,
        send_query env input s = some (SendOutcome.parse_error, t) ∧
        t.status = s.status ∧ t.num_queries_sent = s.num_queries_sent ∧
        t.num_queries_outstanding = s.num_queries_outstanding) := by
  have hp : parse_query input MAX_DOMAIN_LEN = (spec_qtype ty).map (fun c => (dom, c)) := by
    have hq := qtype_lookup ty
    unfold parse_query
    simp only [h1, strtok_next, h2]
    rw [if_neg (by omega)]
    cases hf : (QTYPE_STRINGS.zip QTYPE_CODES).find? (fun p => p.1 = ty) with
    | none =>
      rw [hf] at hq
      rw [← hq]
      rfl
    | some p =>
      rw [hf] at hq
      rw [← hq]
      rfl
  refine ⟨hp, ?_⟩
  intro hnone
  have hrej : parse_query input MAX_DOMAIN_LEN = none := by rw [hp, hnone]; rfl
  refine ⟨hrej, ?_⟩
  intro env s
  exact ⟨_, send_query_rejected env input s hrej, rfl, rfl, rfl⟩

/-- Witness of C15: the line `a A` gives the name `a` and the type 1; the line `a a`, its
type in lower case, is rejected. -/
theorem C15_query_type_table_amended_witness :
    parse_query ex_line MAX_DOMAIN_LEN = some (['a'], 1) ∧
    spec_qtype ['a'] = none ∧ parse_query lower_line MAX_DOMAIN_LEN = none :=
  ⟨(C15_query_type_table_amended ex_line ['a'] ['A', NEWLINE] ['A'] [] (by decide) (by decide)
      (by decide)).1,
   by decide,
   ((C15_query_type_table_amended lower_line ['a'] ['a', NEWLINE] ['a'] [] (by decide)
      (by decide) (by decide)).2 (by decide)).1⟩

/-- C16 (counterexample): a call of `send_query` on the malformed line `x` changes the id
counter from 1 to 2, and the next valid query is registered with id 3, where without the
malformed line it is registered with id 2. -/
theorem C16_counterexample :
    parse_query bad_line MAX_DOMAIN_LEN = none ∧
    ex_sent.use_query_id = 1 ∧
    (send_query ex_send bad_line ex_sent).map (fun r => r.2.use_query_id) = some 2 ∧
    ((send_query ex_send bad_line ex_sent).bind (fun r => send_query ex_send ex_line r.2)).map
      (fun r => (r.1, r.2.status[1]?.map (fun q => q.id)))
      = some (SendOutcome.registered, some 3) ∧
    (send_query ex_send ex_line ex_sent).map
      (fun r => (r.1, r.2.status[1]?.map (fun q => q.id)))
      = some (SendOutcome.registered, some 2) := by
  decide

/-- C16 (amended): for every query line that `parse_query` rejects, `send_query` advances
the id counter `use_query_id` by one (modulo 65536) and leaves everything else, the slot
table, `num_queries_sent` and `num_queries_outstanding` included, unchanged; the call of
`send_query` that follows ends with the id counter two above its value before the
malformed line, one more than without that line. -/
theorem C16_malformed_line_amended (env : SendEnv) (line : List Char) (s : State)
    (h : parse_query line MAX_DOMAIN_LEN = none) :
    send_query env line s =
      some (SendOutcome.parse_error,
        { s with use_query_id := (s.use_query_id + 1) % 65536 }) ∧
    (∀ (env2 : SendEnv) (next : List Char) (o : SendOutcome) (u : State),
      send_query env2 next { s with use_query_id := (s.use_query_id + 1) % 65536 }
        = some (o, u) →
      u.use_query_id = (s.use_query_id + 2) % 65536) ∧
    (∀ (env2 : SendEnv) (next : List Char) (o : SendOutcome) (u : State),
      send_query env2 next s = some (o, u) →
      u.use_query_id = (s.use_query_id + 1) % 65536) := by
  refine ⟨send_query_rejected env line s h, ?_, ?_⟩
  · intro env2 next o u hu
    have := (send_query_spec env2 next _ u o hu).1
    rw [this]
    show ((s.use_query_id + 1) % 65536 + 1) % 65536 = (s.use_query_id + 2) % 65536
    omega
  · intro env2 next o u hu
    exact (send_query_spec env2 next _ u o hu).1

/-- Witness of C16: the malformed line `x` in the state `ex_sent`. -/
theorem C16_malformed_line_amended_witness :
    parse_query bad_line MAX_DOMAIN_LEN = none ∧
    send_query ex_send bad_line ex_sent =
      some (SendOutcome.parse_error,
        { ex_sent with use_query_id := (ex_sent.use_query_id + 1) % 65536 }) :=
  ⟨by decide, (C16_malformed_line_amended ex_send bad_line ex_sent (by decide)).1⟩

/-- C17 (counterexample): when `sendto` reports 5 bytes sent of a datagram of 12,
`send_query` registers the query all the same: record 0 is reserved, `num_queries_sent`
and `num_queries_outstanding` become 1 and the setup phase ends. -/
theorem C17_counterexample :
    (dispatch_query c17_net 1 ['a'] 1).2.map (fun p => (c17_net.sendto p, p.length))
      = some (5, 12) ∧
    run1_start.g.setup_phase = true ∧ run1_start.g.num_queries_sent = 0 ∧
    run1_start.g.num_queries_outstanding = 0 ∧
    (send_query c17_send ex_line run1_start.g).map
      (fun r => (r.1, r.2.status[0]?.map (fun q => q.in_use), r.2.num_queries_sent,
        r.2.num_queries_outstanding, r.2.setup_phase))
      = some (SendOutcome.registered, some true, 1, 1, false) := by
  decide

/-- C17 (amended): whenever the packet cannot be built or `sendto` returns -1,
`send_query` reserves no slot and leaves `num_queries_sent`, `num_queries_outstanding`
and `setup_phase` unchanged (only the id counter has advanced); any other return value of
`sendto`, a byte count below the packet length included, makes `dispatch_query` return 0,
and the query is then registered as sent. -/
theorem C17_send_failure_amended (env : SendEnv) (line dom : List Char) (qt : Nat) (s : State)
    (hp : parse_query line MAX_DOMAIN_LEN = some (dom, qt))
    (hfail : env.net.res_mkquery dom qt = none ∨
      ∃ buf, env.net.res_mkquery dom qt = some buf ∧
        env.net.sendto ((buf.set 0 ((s.use_query_id + 1) % 65536 / 256)).set 1
          ((s.use_query_id + 1) % 65536 % 256)) = -1) :
    send_query env line s =
      some (SendOutcome.send_error,
        { s with use_query_id := (s.use_query_id + 1) % 65536 }) ∧
    (∀ (net : Net) (id : Nat) (buf : List Nat), net.res_mkquery dom qt = some buf →
      net.sendto ((buf.set 0 (id / 256)).set 1 (id % 256)) ≠ -1 →
      (dispatch_query net id dom qt).1 = 0) := by
  constructor
  · have hd : (dispatch_query env.net ((s.use_query_id + 1) % 65536) dom qt).1 = -1 := by
      unfold dispatch_query
      rcases hfail with h | ⟨buf, h, hs⟩
      · simp only [h]
      · simp only [h, hs, if_pos]
    unfold send_query
    simp only [hp]
    rw [if_pos hd]
  · intro net id buf hb hs
    unfold dispatch_query
    simp only [hb]
    rw [if_neg hs]

/-- Witness of C17: a network whose `sendto` fails, in the state in which `main` enters
its loop. -/
theorem C17_send_failure_amended_witness :
    send_query { ex_send with net := { ex_net with sendto := fun _ => -1 } } ex_line
        run1_start.g =
      some (SendOutcome.send_error,
        { run1_start.g with use_query_id := (run1_start.g.use_query_id + 1) % 65536 }) :=
  (C17_send_failure_amended { ex_send with net := { ex_net with sendto := fun _ => -1 } }
    ex_line ['a'] 1 run1_start.g (by decide) (Or.inr ⟨List.replicate 12 0, rfl, rfl⟩)).1

/-- C18: for every 16-bit id and every message of at least two bytes that `res_mkquery`
builds, the datagram `dispatch_query` hands to `sendto` holds `id / 256` at offset 0 and
`id mod 256` at offset 1, both below 256, and the message elsewhere, and `get_uint16` of
that datagram is the id; and `get_uint16` of any buffer that starts with the bytes `b0`
and `b1` is `b0 * 256 + b1`, whatever follows them. -/
theorem C18_id_round_trip (net : Net) (id : Nat) (dom : List Char) (qt : Nat)
    (buf : List Nat) (hid : id < 65536) (hb : net.res_mkquery dom qt = some buf)
    (hlen : 2 ≤ buf.length) :
    (∃ packet, (dispatch_query net id dom qt).2 = some packet ∧
      packet[0]? = some (id / 256) ∧ packet[1]? = some (id % 256) ∧
      id / 256 < 256 ∧ id % 256 < 256 ∧
      (∀ i, 2 ≤ i → packet[i]? = buf[i]?) ∧
      get_uint16 packet = id) ∧
    (∀ (b0 b1 : Nat) (rest : List Nat), b0 < 256 → b1 < 256 →
      get_uint16 (b0 :: b1 :: rest) = b0 * 256 + b1) := by
  constructor
  · refine ⟨(buf.set 0 (id / 256)).set 1 (id % 256), ?_, ?_, ?_, ?_, ?_, ?_, ?_⟩
    · unfold dispatch_query
      simp only [hb]
      split <;> rfl
    · match buf, hlen with
      | b0 :: b1 :: rest, _ => simp
    · match buf, hlen with
      | b0 :: b1 :: rest, _ => simp
    · omega
    · omega
    · intro i hi
      match buf, hlen with
      | b0 :: b1 :: rest, _ =>
        match i, hi with
        | j + 2, _ => simp
    · match buf, hlen with
      | b0 :: b1 :: rest, _ =>
        show (id / 256 * 256 + id % 256) % 65536 = id
        omega
  · intro b0 b1 rest h0 h1
    show (b0 * 256 + b1) % 65536 = b0 * 256 + b1
    omega

/-- Witness of C18: the id 513 in a message of 12 bytes is sent as the bytes 2 and 1. -/
theorem C18_id_round_trip_witness :
    (∃ packet, (dispatch_query ex_net 513 ['a'] 1).2 = some packet ∧
      packet[0]? = some 2 ∧ packet[1]? = some 1 ∧ get_uint16 packet = 513) ∧
    get_uint16 [2, 1, 7, 7] = 513 := by
  obtain ⟨⟨packet, h1, h2, h3, _, _, _, h4⟩, h5⟩ :=
    C18_id_round_trip ex_net 513 ['a'] 1 (List.replicate 12 0) (by decide) rfl (by decide)
  exact ⟨⟨packet, h1, h2, h3, h4⟩, h5 2 1 [7, 7] (by decide) (by decide)⟩

/-- C19 (the code departs from it): `parse_args` accepts the value 0 for `-q`, `-t`, `-l`
and `-b`: it returns 0 and stores the 0, and `main` enters its loop with a limit,
timeout, time limit or buffer size of 0. `set_max_queries` returns 0 when asked for a
maximum of 0: its test `new_max < 0` is on an unsigned value and never holds. -/
theorem C19_zero_value_accepted :
    (parse_args ex_sys [('q', ['0'])] run1_start.g).map (fun r => r.1) = some 0 ∧
    (parse_args ex_sys [('q', ['0'])] run1_start.g).map
      (fun r => r.2.max_queries_outstanding) = some 0 ∧
    (parse_args ex_sys [('t', ['0'])] run1_start.g).map (fun r => r.1) = some 0 ∧
    (parse_args ex_sys [('t', ['0'])] run1_start.g).map (fun r => r.2.query_timeout) = some 0 ∧
    (parse_args ex_sys [('l', ['0'])] run1_start.g).map (fun r => r.1) = some 0 ∧
    (parse_args ex_sys [('l', ['0'])] run1_start.g).map (fun r => r.2.run_timelimit) = some 0 ∧
    (parse_args ex_sys [('l', ['0'])] run1_start.g).map (fun r => r.2.use_timelimit)
      = some true ∧
    (parse_args ex_sys [('b', ['0'])] run1_start.g).map (fun r => r.1) = some 0 ∧
    (parse_args ex_sys [('b', ['0'])] run1_start.g).map (fun r => r.2.socket_bufsize) = some 0 ∧
    (main_enter ⟨100, 0⟩ run1_sys [('q', ['0'])]).map
      (fun m => (m.g.max_queries_outstanding, m.g.queriesset)) = some (0, true) ∧
    (∀ (sys : Sys) (s : State),
      set_max_queries sys 0 s = some (0, { s with max_queries_outstanding := 0 })) := by
  refine ⟨by decide, by decide, by decide, by decide, by decide, by decide, by decide,
    by decide, by decide, by decide, ?_⟩
  intro sys s
  unfold set_max_queries
  rw [if_neg (by omega), if_neg (by omega)]

/-- The two percentages `print_statistics` computes when some query completed sum to 100
within `2^-47`, the rounding of the subtraction. -/
theorem percent_sum (s : State) (hle : s.num_queries_timed_out ≤ s.num_queries_sent)
    (hlt : s.num_queries_sent < 2 ^ 32) (hne : ¬ num_queries_completed s = 0) :
    |double.value (print_statistics s).per_completed
        + double.value (print_statistics s).per_lost - 100| ≤ (2 : ℚ) ^ (-47 : Int) := by
  have hc : num_queries_completed s = s.num_queries_sent - s.num_queries_timed_out := by
    unfold num_queries_completed
    omega
  have hs : s.num_queries_sent ≠ 0 := by omega
  have hp : (print_statistics s).per_completed
      = double.sub (double.of_int 100) (print_statistics s).per_lost := by
    simp only [print_statistics]
    rw [if_neg hne]
  have hl := per_lost_round s hle hlt hne
  have hfin : ∃ (m : Nat) (e : Int), (print_statistics s).per_lost = double.finite false m e ∧
      (m : ℚ) * (2 : ℚ) ^ e ≤ 101 := by
    by_cases ht : s.num_queries_timed_out = 0
    · refine ⟨0, -1074, ?_, ?_⟩
      · rw [hl, ht]
        simp [double.round]
      · simp
    · have hbig : 100 * s.num_queries_timed_out < s.num_queries_sent * 2 ^ 100 := by
        have h1 : s.num_queries_sent * 1 ≤ s.num_queries_sent * 2 ^ 100 :=
          Nat.mul_le_mul_left _ (Nat.one_le_two_pow)
        have h2 : (2 : Nat) ^ 39 ≤ 2 ^ 100 := Nat.pow_le_pow_right (by norm_num) (by norm_num)
        have h3 : 1 * 2 ^ 100 ≤ s.num_queries_sent * 2 ^ 100 :=
          Nat.mul_le_mul_right _ (by omega)
        omega
      obtain ⟨m, e, k, hround, herr, hk⟩ := round_error false
        (100 * s.num_queries_timed_out) s.num_queries_sent (by omega) hs hbig
      have hsq : (0 : ℚ) < (s.num_queries_sent : ℚ) := by
        have : 0 < s.num_queries_sent := by omega
        exact_mod_cast this
      have hq : ((100 * s.num_queries_timed_out : Nat) : ℚ) / (s.num_queries_sent : ℚ) ≤ 100 := by
        rw [div_le_iff₀ hsq]
        have : 100 * s.num_queries_timed_out ≤ 100 * s.num_queries_sent := by omega
        exact_mod_cast this
      have hsmall := half_unit_small k _ (by linarith) hk
      have h47 : (2 : ℚ) ^ (-47 : Int) ≤ 1 := by
        have : (2 : ℚ) ^ (-47 : Int) ≤ (2 : ℚ) ^ (0 : Int) :=
          zpow_le_zpow_right₀ (by norm_num) (by norm_num)
        simpa using this
      refine ⟨m, e, hl.trans hround, ?_⟩
      have := (abs_le.mp herr).2
      linarith
  obtain ⟨m, e, hm, hbound⟩ := hfin
  rw [hp, hm]
  have := sub_hundred_error m e hbound
  simpa [double.value] using this

/-- C20 (the code departs from it): the division for the queries per second has no guard
for a run time of zero. In the complete run of `main` on the input `a A` in which every
clock reading is second 100, one query is sent and answered, `time_of_end_of_run` equals
`time_of_first_query`, and `print_statistics` divides the number of completed queries
by a `run_time` of 0: the rate it prints is an infinity. The division for the loss
percentage is guarded: whenever `num_queries_timed_out` is at most `num_queries_sent`,
its divisor is not zero and its result is a finite value. -/
theorem C20_run_time_divisor_zero :
    (main_enter ⟨100, 0⟩ run1_sys []).isSome = true ∧
    (run run1_envs run1_start).isSome = true ∧
    run1_end.pc = Pc.exited ∧
    run1_end.g.num_queries_sent = 1 ∧ run1_end.g.num_queries_timed_out = 0 ∧
    run1_end.g.num_queries_outstanding = 0 ∧
    run1_end.g.time_of_end_of_run = run1_end.g.time_of_first_query ∧
    (print_statistics run1_end.g).run_time = double.zero ∧
    (print_statistics run1_end.g).queries_per_sec = double.inf false ∧
    (∀ (s : State), s.num_queries_timed_out ≤ s.num_queries_sent →
      s.num_queries_sent < 2 ^ 32 →
      (num_queries_completed s ≠ 0 → s.num_queries_sent ≠ 0) ∧
      ∃ m e, (print_statistics s).per_lost = double.finite false m e) := by
  have hs : ¬ run1_end.g.num_queries_sent = 0 := by decide
  have hq : num_queries_completed run1_end.g = 1 := by decide
  have ht : run1_end.g.time_of_end_of_run = run1_end.g.time_of_first_query := by decide
  have h1 : (print_statistics run1_end.g).run_time = double.zero := by
    simp only [print_statistics]
    rw [if_neg hs, ht]
    exact difftv_double_self _
  have h2 : (print_statistics run1_end.g).queries_per_sec = double.inf false := by
    simp only [print_statistics]
    rw [if_neg hs, ht, difftv_double_self, hq]
    set_option maxRecDepth 8192 in decide
  refine ⟨by decide, by decide, by decide, by decide, by decide, by decide, ht,
    h1, h2, ?_⟩
  intro s hle hlt
  refine ⟨?_, per_lost_finite s hle hlt⟩
  intro hc h0
  apply hc
  unfold num_queries_completed
  have : s.num_queries_timed_out = 0 := by omega
  rw [h0, this]
  rfl

/-- C21 (counterexample): the two percentages need not sum to 100. After three queries
are sent, two are answered and one times out, the percentage lost is the `double`
`4691249611844267 * 2^-47` and the percentage completed is `4691249611844266 * 2^-46`,
whose sum is `100 - 2^-47`. With 4000 queries sent and 3 timed out the percentages are
printed as `99.92` and `0.07`. -/
theorem C21_counterexample :
    c21_third.num_queries_sent = 3 ∧ c21_third.num_queries_timed_out = 1 ∧
    (print_statistics c21_third).per_lost = double.finite false 4691249611844267 (-47) ∧
    (print_statistics c21_third).per_completed
      = double.finite false 4691249611844266 (-46) ∧
    double.value (print_statistics c21_third).per_completed
      + double.value (print_statistics c21_third).per_lost = 100 - (2 : ℚ) ^ (-47 : Int) ∧
    double.value (print_statistics c21_third).per_completed
      + double.value (print_statistics c21_third).per_lost ≠ 100 ∧
    c21_many.num_queries_sent = 4000 ∧ c21_many.num_queries_timed_out = 3 ∧
    printf_lf 2 (print_statistics c21_many).per_completed = some (false, 9992) ∧
    printf_lf 2 (print_statistics c21_many).per_lost = some (false, 7) := by
  have h1 : (print_statistics c21_third).per_lost
      = double.finite false 4691249611844267 (-47) := by
    set_option maxRecDepth 8192 in decide
  have h2 : (print_statistics c21_third).per_completed
      = double.finite false 4691249611844266 (-46) := by
    set_option maxRecDepth 8192 in decide
  have h3 : double.value (print_statistics c21_third).per_completed
      + double.value (print_statistics c21_third).per_lost = 100 - (2 : ℚ) ^ (-47 : Int) := by
    rw [h1, h2]
    simp only [double.value, Bool.false_eq_true, if_false, one_mul]
    norm_num
  have h4 : (0 : ℚ) < (2 : ℚ) ^ (-47 : Int) := by positivity
  refine ⟨by decide, by decide, h1, h2, h3, ?_, by decide, by decide, ?_, ?_⟩
  · rw [h3]
    linarith
  · set_option maxRecDepth 8192 in decide
  · set_option maxRecDepth 8192 in decide

/-- C21 (amended): for counters with `num_queries_timed_out` at most `num_queries_sent`
(both `unsigned int`), `print_statistics` computes `num_queries_completed` as their
difference; when it is 0, also with queries sent and all of them timed out, both
percentages are 0; otherwise the percentage lost is the `double` nearest to
`100 * timed_out / sent`, a finite value, and the percentage completed is the `double`
difference of 100 and the percentage lost, so that the two sum to 100 within `2^-47`;
with no timeout the percentage completed is exactly 100 and the percentage lost exactly
0, printed as `100.00` and `0.00`. -/
theorem C21_percentages_amended (s : State)
    (hle : s.num_queries_timed_out ≤ s.num_queries_sent)
    (hlt : s.num_queries_sent < 2 ^ 32) :
    (print_statistics s).queries_completed = s.num_queries_sent - s.num_queries_timed_out ∧
    (s.num_queries_sent - s.num_queries_timed_out = 0 →
      (print_statistics s).per_lost = double.zero ∧
      (print_statistics s).per_completed = double.zero) ∧
    (s.num_queries_sent - s.num_queries_timed_out ≠ 0 →
      (print_statistics s).per_lost
        = double.round false (100 * s.num_queries_timed_out) s.num_queries_sent ∧
      (∃ m e, (print_statistics s).per_lost = double.finite false m e) ∧
      (print_statistics s).per_completed
        = double.sub (double.of_int 100) (print_statistics s).per_lost ∧
      |double.value (print_statistics s).per_completed
          + double.value (print_statistics s).per_lost - 100| ≤ (2 : ℚ) ^ (-47 : Int) ∧
      (s.num_queries_timed_out = 0 →
        (print_statistics s).per_completed = double.of_int 100 ∧
        (print_statistics s).per_lost = double.zero ∧
        printf_lf 2 (print_statistics s).per_completed = some (false, 10000) ∧
        printf_lf 2 (print_statistics s).per_lost = some (false, 0))) := by
  have hc : num_queries_completed s = s.num_queries_sent - s.num_queries_timed_out := by
    unfold num_queries_completed
    omega
  refine ⟨hc, ?_, ?_⟩
  · intro h0
    have h0' : num_queries_completed s = 0 := by rw [hc]; exact h0
    simp only [print_statistics, if_pos h0']
    exact ⟨trivial, trivial⟩
  · intro hne
    have hne' : ¬ num_queries_completed s = 0 := by rw [hc]; exact hne
    have hl := per_lost_round s hle hlt hne'
    have hp : (print_statistics s).per_completed
        = double.sub (double.of_int 100) (print_statistics s).per_lost := by
      simp only [print_statistics]
      rw [if_neg hne']
    refine ⟨hl, per_lost_finite s hle hlt, hp, percent_sum s hle hlt hne', ?_⟩
    intro ht
    have hz : (print_statistics s).per_lost = double.zero := by
      rw [hl, ht]
      simp [double.round, double.zero]
    have hh : (print_statistics s).per_completed = double.of_int 100 := by
      rw [hp, hz]
      exact sub_zero_whole 100 (by norm_num) (by norm_num)
    refine ⟨hh, hz, ?_, ?_⟩
    · rw [hh]
      set_option maxRecDepth 8192 in decide
    · rw [hz]
      exact printf_lf_zero 2

/-- Witness of C21: the complete run on the input `a A`, one query sent and answered,
reports 100 percent completed and 0 percent lost. -/
theorem C21_percentages_amended_witness :
    run1_end.g.num_queries_sent = 1 ∧ run1_end.g.num_queries_timed_out = 0 ∧
    (print_statistics run1_end.g).queries_completed = 1 ∧
    (print_statistics run1_end.g).per_completed = double.of_int 100 ∧
    (print_statistics run1_end.g).per_lost = double.zero ∧
    printf_lf 2 (print_statistics run1_end.g).per_completed = some (false, 10000) ∧
    printf_lf 2 (print_statistics run1_end.g).per_lost = some (false, 0) :=
  ⟨by decide, by decide,
   (C21_percentages_amended run1_end.g (by decide) (by decide)).1,
   ((C21_percentages_amended run1_end.g (by decide) (by decide)).2.2 (by decide)).2.2.2.2
     (by decide)⟩

/-- C22: in a state whose `num_queries_outstanding` is the number of records in use of a
table of fewer than 2^32 records, with `num_queries_outstanding < max_queries_outstanding
<= query_status_allocated`, a call of `send_query` whose line parses and whose datagram is
sent has a defined result (the search reads inside the table), the search stops at the
first record not in use, that index is below the limit, the call ends in the registering
branch and not in the "run out of status[] space" branch, the record becomes in use with
the new id and the clock reading, every other record is unchanged,
`num_queries_outstanding` grows by one and `num_queries_sent` grows by one as an
`unsigned int` (by one exactly below `UINT_MAX`). -/
theorem C22_slot_reservation (env : SendEnv) (line dom : List Char) (qt : Nat) (s : State)
    (hout : s.num_queries_outstanding = in_use_count s.status)
    (hgate : s.num_queries_outstanding < s.max_queries_outstanding)
    (hmax : s.max_queries_outstanding ≤ s.query_status_allocated)
    (hcap : s.query_status_allocated < 2 ^ 32)
    (hp : parse_query line MAX_DOMAIN_LEN = some (dom, qt))
    (hd : (dispatch_query env.net ((s.use_query_id + 1) % 65536) dom qt).1 ≠ -1) :
    ∃ count q t,
      slot_scan s.max_queries_outstanding s.status 0 = some count ∧
      count < s.max_queries_outstanding ∧ count < s.query_status_allocated ∧
      s.status[count]? = some q ∧ q.in_use = false ∧
      (∀ j p, j < count → s.status[j]? = some p → p.in_use = true) ∧
      send_query env line s = some (SendOutcome.registered, t) ∧
      t.status = s.status.set count
        { q with in_use := true, id := (s.use_query_id + 1) % 65536,
                 sent_timestamp := env.now_sent } ∧
      (∀ j, j ≠ count → t.status[j]? = s.status[j]?) ∧
      t.num_queries_outstanding = s.num_queries_outstanding + 1 ∧
      t.num_queries_sent = (s.num_queries_sent + 1) % 2 ^ 32 ∧
      (s.num_queries_sent < UINT_MAX → t.num_queries_sent = s.num_queries_sent + 1) := by
  unfold State.query_status_allocated at hmax hcap ⊢
  obtain ⟨count, q, hscan, hlt, hq, hfree, hlow⟩ :=
    slot_scan_gate s.max_queries_outstanding s.status (by omega) hmax
  have hget : s.status.get? count = some q := by simpa using hq
  have hfree' : ¬ q.in_use = true := by simp [hfree]
  have ho : (s.num_queries_outstanding + 1) % 2 ^ 32 = s.num_queries_outstanding + 1 :=
    Nat.mod_eq_of_lt (by omega)
  have hsend : ∃ t, send_query env line s = some (SendOutcome.registered, t) ∧
      t.status = s.status.set count
        { q with in_use := true, id := (s.use_query_id + 1) % 65536,
                 sent_timestamp := env.now_sent } ∧
      t.num_queries_outstanding = (s.num_queries_outstanding + 1) % 2 ^ 32 ∧
      t.num_queries_sent = (s.num_queries_sent + 1) % 2 ^ 32 := by
    unfold send_query
    simp only [hp]
    rw [if_neg hd]
    cases hsp : s.setup_phase with
    | true =>
      simp only [if_true, hscan, hget]
      rw [if_neg hfree']
      exact ⟨_, rfl, rfl, rfl, rfl⟩
    | false =>
      simp only [Bool.false_eq_true, if_false, hscan, hget]
      rw [if_neg hfree']
      exact ⟨_, rfl, rfl, rfl, rfl⟩
  obtain ⟨t, ht, hst, hto, hts⟩ := hsend
  refine ⟨count, q, t, hscan, hlt, by omega, hq, hfree, hlow, ht, hst, ?_, ?_, hts, ?_⟩
  · intro j hj
    rw [hst, List.getElem?_set_ne (fun h => hj h.symm)]
  · rw [hto, ho]
  · intro hu
    rw [hts]
    unfold UINT_MAX at hu
    exact Nat.mod_eq_of_lt (by omega)

/-- Witness of C22: in the state `ex_sent`, record 0 in use, the query `a A` is registered
in record 1 with id 2. -/
theorem C22_slot_reservation_witness :
    ∃ count q t,
      slot_scan ex_sent.max_queries_outstanding ex_sent.status 0 = some count ∧
      count < ex_sent.max_queries_outstanding ∧ count < ex_sent.query_status_allocated ∧
      ex_sent.status[count]? = some q ∧ q.in_use = false ∧
      (∀ j p, j < count → ex_sent.status[j]? = some p → p.in_use = true) ∧
      send_query ex_send ex_line ex_sent = some (SendOutcome.registered, t) ∧
      t.status = ex_sent.status.set count
        { q with in_use := true, id := (ex_sent.use_query_id + 1) % 65536,
                 sent_timestamp := ex_send.now_sent } ∧
      (∀ j, j ≠ count → t.status[j]? = ex_sent.status[j]?) ∧
      t.num_queries_outstanding = ex_sent.num_queries_outstanding + 1 ∧
      t.num_queries_sent = (ex_sent.num_queries_sent + 1) % 2 ^ 32 ∧
      (ex_sent.num_queries_sent < UINT_MAX →
        t.num_queries_sent = ex_sent.num_queries_sent + 1) :=
  C22_slot_reservation ex_send ex_line ['a'] 1 ex_sent (by decide) (by decide) (by decide)
    (by decide) (by decide) (by decide)

/-- C23: a call `set_max_queries(n)` that returns 0 leaves every record below the previous
capacity as it was (also records in use above a lowered limit), leaves
`num_queries_sent`, `num_queries_outstanding` and `num_queries_timed_out` unchanged, gives
every added record, at the indices from the previous capacity up to `n - 1`, the mark
not in use and the magic number, sets `max_queries_outstanding` to `n`, and never shrinks
the table; and it is a call within the capacity or one whose byte count `n * size_qs`
fits an `unsigned int`. -/
theorem C23_resize_frame (sys : Sys) (n : Nat) (s t : State)
    (h : set_max_queries sys n s = some (0, t)) :
    (∀ i, i < s.query_status_allocated → t.status[i]? = s.status[i]?) ∧
    t.num_queries_sent = s.num_queries_sent ∧
    t.num_queries_outstanding = s.num_queries_outstanding ∧
    t.num_queries_timed_out = s.num_queries_timed_out ∧
    (∀ i, s.query_status_allocated ≤ i → i < n →
      ∃ q, t.status[i]? = some q ∧ q.in_use = false ∧ q.magic = QUERY_STATUS_MAGIC) ∧
    t.max_queries_outstanding = n ∧
    t.query_status_allocated = max s.query_status_allocated n ∧
    (n ≤ s.query_status_allocated ∨ n * size_qs < 2 ^ 32) := by
  have hf := set_max_queries_frame sys n s _ h
  rcases set_max_queries_cases sys n s _ h with ⟨h1, _⟩ | ⟨h2, hroom⟩
  · have h0 : (0 : Int) = -1 := congrArg Prod.fst h1
    exact absurd h0 (by decide)
  · have h3 := congrArg Prod.snd h2
    simp only at h3
    unfold State.query_status_allocated
    refine ⟨?_, hf.2.1, hf.1, hf.2.2.1, ?_, ?_, ?_, hroom⟩
    · intro i hi
      rw [h3]
      exact List.getElem?_append_left hi
    · intro i hlo hhi
      rw [h3]
      show ∃ q, (s.status ++ fresh_slots sys s.status.length n)[i]? = some q ∧ _
      rw [List.getElem?_append_right hlo]
      have hlen : i - s.status.length < (fresh_slots sys s.status.length n).length := by
        rw [fresh_slots_length]
        omega
      refine ⟨(fresh_slots sys s.status.length n)[i - s.status.length],
        List.getElem?_eq_getElem hlen, ?_, ?_⟩
      · exact fresh_slots_free sys _ _ _ (List.getElem_mem _)
      · simp [fresh_slots]
    · rw [h3]
    · rw [h3]
      show (s.status ++ fresh_slots sys s.status.length n).length = _
      rw [List.length_append, fresh_slots_length]
      omega

/-- Witness of C23: with records 0 and 1 in use, lowering the limit to 1 leaves record 1
in use; raising the limit of `ex_sent` to 25 adds record 24, not in use. -/
theorem C23_resize_frame_witness :
    (∃ t, set_max_queries ex_sys 1 ex_two.g = some (0, t) ∧
      t.status[1]? = ex_two.g.status[1]? ∧
      ex_two.g.status[1]?.map (fun q => q.in_use) = some true ∧
      t.max_queries_outstanding = 1) ∧
    (∃ t, set_max_queries ex_sys 25 ex_sent = some (0, t) ∧
      (∃ q, t.status[24]? = some q ∧ q.in_use = false ∧ q.magic = QUERY_STATUS_MAGIC) ∧
      t.query_status_allocated = 25) :=
  ⟨⟨_, rfl, (C23_resize_frame ex_sys 1 ex_two.g _ rfl).1 1 (by decide), by decide,
     (C23_resize_frame ex_sys 1 ex_two.g _ rfl).2.2.2.2.2.1⟩,
   ⟨_, rfl, (C23_resize_frame ex_sys 25 ex_sent _ rfl).2.2.2.2.1 24 (by decide) (by decide),
     rfl⟩⟩

/-- C24 (counterexample): the line `example.com A extra` has three tokens, and
`parse_query` accepts it, with the name `example.com` and the type 1; `send_query`
registers the query as sent. -/
theorem C24_counterexample :
    (strtok_next WHITESPACE (strtok_next WHITESPACE (strtok WHITESPACE c24_line))).map
      (fun t => t.1) = some ['e', 'x', 't', 'r', 'a'] ∧
    parse_query c24_line MAX_DOMAIN_LEN
      = some (['e', 'x', 'a', 'm', 'p', 'l', 'e', '.', 'c', 'o', 'm'], 1) ∧
    (send_query ex_send c24_line run1_start.g).map (fun r => (r.1, r.2.num_queries_sent))
      = some (SendOutcome.registered, 1) := by
  decide

/-- C24 (amended): a query line is accepted only if it has at least two tokens separated
by whitespace. For every line with fewer than two tokens `parse_query` returns -1 and
`send_query` ends in its parse-error branch, nothing sent; for a line with two tokens or
more the result is decided by the first two tokens (the length of the first, the table
entry of the second), and what follows the second token is ignored. -/
theorem C24_extra_tokens_ignored_amended (input : List Char) :
    (strtok_next WHITESPACE (strtok WHITESPACE input) = none →
      parse_query input MAX_DOMAIN_LEN = none ∧
      ∀ (env : SendEnv) (s : State), ∃ t,
        send_query env input s = some (SendOutcome.parse_error, t) ∧
        t.status = s.status ∧ t.num_queries_sent = s.num_queries_sent ∧
        t.num_queries_outstanding = s.num_queries_outstanding) ∧
    (∀ (dom r1 ty r2 : List Char), strtok WHITESPACE input = some (dom, r1) →
      strtok WHITESPACE r1 = some (ty, r2) →
      parse_query input MAX_DOMAIN_LEN =
        if dom.length > MAX_DOMAIN_LEN then none
        else (spec_qtype ty).map (fun c => (dom, c))) := by
  constructor
  · intro h
    have hrej : parse_query input MAX_DOMAIN_LEN = none := by
      unfold parse_query
      simp only [h]
      split <;> simp_all
    exact ⟨hrej, fun env s => ⟨_, send_query_rejected env input s hrej, rfl, rfl, rfl⟩⟩
  · intro dom r1 ty r2 h1 h2
    exact parse_query_tokens input dom r1 ty r2 MAX_DOMAIN_LEN h1 h2

/-- Witness of C24: the line `x`, of one token, is rejected; the line
`example.com A extra` is parsed from its first two tokens. -/
theorem C24_extra_tokens_ignored_amended_witness :
    parse_query bad_line MAX_DOMAIN_LEN = none ∧
    parse_query c24_line MAX_DOMAIN_LEN =
      if (['e', 'x', 'a', 'm', 'p', 'l', 'e', '.', 'c', 'o', 'm'] : List Char).length
          > MAX_DOMAIN_LEN then none
      else (spec_qtype ['A']).map
        (fun c => (['e', 'x', 'a', 'm', 'p', 'l', 'e', '.', 'c', 'o', 'm'], c)) :=
  ⟨((C24_extra_tokens_ignored_amended bad_line).1 (by decide)).1,
   (C24_extra_tokens_ignored_amended c24_line).2 _ _ _ _
     (by decide : strtok WHITESPACE c24_line
        = some (['e', 'x', 'a', 'm', 'p', 'l', 'e', '.', 'c', 'o', 'm'],
                ['A', ' ', 'e', 'x', 't', 'r', 'a', NEWLINE]))
     (by decide : strtok WHITESPACE ['A', ' ', 'e', 'x', 't', 'r', 'a', NEWLINE]
        = some (['A'], ['e', 'x', 't', 'r', 'a', NEWLINE]))⟩

/-- C25: on a text input (lines shorter than 512 bytes with their newline, free of NUL,
the last one with or without a newline) `next_input_line` skips the lines that are empty
or begin with `;`, returns the first other line (its length, with the line in the buffer)
and leaves the read position after it, and returns 0 with the input consumed when only
such lines remain; the state changes in the read position only, so skipped lines touch
no id, slot or counter. A turn of the inner loop of `main` that reads a line hands it to
`update_config` exactly when its first character is `#`, and to `send_query` otherwise. -/
theorem C25_line_skipping (skip rest : List (List Char)) (last : List Char)
    (ht : ∀ l ∈ skip, text_line l) (hs : ∀ l ∈ skip, skipped_line l = true)
    (hr : ∀ l ∈ rest, text_line l) (hlast : text_rest last) :
    (∀ (buf : List Char) (s : State), s.unread = (skip ++ rest).flatten ++ last →
      (rest = [] → last = [] ∨ skipped_line last = true →
        (next_input_line buf MAX_INPUT_LEN s).1 = 0 ∧
        (next_input_line buf MAX_INPUT_LEN s).2.2 = { s with unread := [] }) ∧
      (∀ l tl, rest = l :: tl → skipped_line l = false →
        0 < l.length ∧
        next_input_line buf MAX_INPUT_LEN s
          = (l.length, l, { s with unread := tl.flatten ++ last })) ∧
      (rest = [] → last ≠ [] → skipped_line last = false →
        0 < last.length ∧
        next_input_line buf MAX_INPUT_LEN s
          = (last.length, last, { s with unread := [] }))) ∧
    (∀ (e : Env) (m : Main) (n : Nat) (l : List Char) (g : State),
      m.pc = Pc.inner →
      (keep_sending e.now m.got_eof m.g).1 = true →
      queries_outstanding (keep_sending e.now m.got_eof m.g).2.2
        < (keep_sending e.now m.got_eof m.g).2.2.max_queries_outstanding →
      next_input_line m.input_line MAX_INPUT_LEN (keep_sending e.now m.got_eof m.g).2.2
        = (n, l, g) →
      0 < n →
      main_step e m =
        if l.head? = some CONFIG_CHAR then
          (update_config e.sys (cstr l) g).map
            (fun g1 => { m with got_eof := (keep_sending e.now m.got_eof m.g).2.1
                                input_line := l, g := g1 })
        else
          (send_query e.send (cstr l) g).map
            (fun q => { m with got_eof := (keep_sending e.now m.got_eof m.g).2.1
                               input_line := l, g := q.2 })) := by
  constructor
  · intro buf s hu
    have h := next_input_line_lines skip rest last buf s ht hs hr hlast hu
    refine ⟨h.1, ?_, ?_⟩
    · intro l tl hcons hnot
      have hl : text_line l := hr l (by simp [hcons])
      exact ⟨List.length_pos.mpr (text_line_skipped l hl).1, h.2.1 l tl hcons hnot⟩
    · intro hnil hne hnot
      exact ⟨List.length_pos.mpr hne, h.2.2 hnil hne hnot⟩
  · intro e m n l g hpc hk hgate hn hpos
    obtain ⟨K, hK⟩ : ∃ K, K = keep_sending e.now m.got_eof m.g := ⟨_, rfl⟩
    rw [← hK] at hk hgate hn ⊢
    have hn0 : ¬ n = 0 := by omega
    unfold main_step
    rw [hpc]
    simp only [← hK]
    rw [if_pos ⟨hk, hgate⟩]
    simp only [hn, if_neg hn0]
    by_cases hc : l.head? = some CONFIG_CHAR
    · rw [if_pos hc, if_pos hc]
      cases update_config e.sys (cstr l) g <;> rfl
    · rw [if_neg hc, if_neg hc]
      cases send_query e.send (cstr l) g <;> rfl

/-- Witness of C25: on the input `; note`, an empty line, `example.com NS`, the first call
of `next_input_line` returns the third line, and the run of `main` with `-1` sends exactly
one query, with id 1. -/
theorem C25_line_skipping_witness :
    c25_m0.g.unread = c25_lines.flatten ∧
    next_input_line [] MAX_INPUT_LEN c25_m0.g
      = (15, ['e', 'x', 'a', 'm', 'p', 'l', 'e', '.', 'c', 'o', 'm', ' ', 'N', 'S', NEWLINE],
         { c25_m0.g with unread := [] }) ∧
    (run c25_envs c25_m0).isSome = true ∧ c25_end.pc = Pc.exited ∧
    c25_end.g.num_queries_sent = 1 ∧ c25_end.g.use_query_id = 1 :=
  ⟨by decide,
   (((C25_line_skipping [[';', ' ', 'n', 'o', 't', 'e', NEWLINE], [NEWLINE]]
      [['e', 'x', 'a', 'm', 'p', 'l', 'e', '.', 'c', 'o', 'm', ' ', 'N', 'S', NEWLINE]] []
      (fun l hl => c25_text_lines l (by simp only [c25_lines]; simp at hl ⊢; tauto))
      (by decide)
      (fun l hl => c25_text_lines l (by simp only [c25_lines]; simp at hl ⊢; tauto))
      ⟨by decide, by decide, by decide⟩).1
      [] c25_m0.g (by decide)).2.1 _ _ rfl (by decide)).2,
   by decide, by decide, by decide, by decide⟩

/-- C26 (the code departs from it): `is_uint` tests `errno == ERANGE` without clearing
`errno` before `strtoul`, so its result depends on earlier calls. After the call on
`99999999999999999999` has left `errno` at ERANGE, the call on the valid string `3`
returns FALSE, where the specification (`spec_is_uint`) and the same call with `errno`
clear give TRUE and 3. With any `errno` other than ERANGE at the call, `is_uint` does
what the claim says for every string. -/
theorem C26_is_uint_depends_on_errno :
    is_uint c26_overflow 0 0 = (false, 0, ERANGE) ∧
    spec_is_uint ['3'] 0 = (true, 3) ∧
    is_uint ['3'] 0 0 = (true, 3, 0) ∧
    is_uint ['3'] 0 (is_uint c26_overflow 0 0).2.2 = (false, 0, ERANGE) ∧
    (∀ (str : List Char) (r : Nat) (e : Int), e ≠ ERANGE →
      ((is_uint str r e).1, (is_uint str r e).2.1) = spec_is_uint str r) :=
  ⟨by decide, by decide, by decide, by decide, is_uint_spec⟩

/-- C27: in every run of the loop of `main`, from the state in which `main` enters it,
`runs_through_file` together with an end of input that `keep_sending` has not seen yet
equals the number of times the end of the input was read, as an `unsigned int` (modulo
2^32); once the loop is left nothing is pending and `runs_through_file` is that number.
With `run_only_once` set, at loop exit either `got_eof` is set, `runs_through_file` is 1
and `print_statistics` prints "end of file", or `got_eof` is clear, a time limit is in
use, `runs_through_file` is 0 and it prints "time limit"; and a call of `keep_sending`
that sets the stop latch without an end of input is one that found the time limit
reached. -/
theorem C27_pass_counting (now : timeval) (sys : Sys) (opts : List (Char × List Char))
    (envs : List Env) (m0 m : Main)
    (h0 : main_enter now sys opts = some m0) (hrun : run envs m0 = some m) :
    (m.g.runs_through_file + pending_eof m) % 2 ^ 32 = eof_count envs m0 % 2 ^ 32 ∧
    (m.pc = Pc.finish ∨ m.pc = Pc.exited →
      pending_eof m = 0 ∧
      m.g.runs_through_file = eof_count envs m0 % 2 ^ 32 ∧
      (eof_count envs m0 < 2 ^ 32 → m.g.runs_through_file = eof_count envs m0)) ∧
    (m0.g.run_only_once = true → m.pc = Pc.finish ∨ m.pc = Pc.exited →
      (m.got_eof = true ∧ m.g.runs_through_file = 1 ∧
        (print_statistics m.g).ended_due_to
          = some ['e', 'n', 'd', ' ', 'o', 'f', ' ', 'f', 'i', 'l', 'e']) ∨
      (m.got_eof = false ∧ m.g.use_timelimit = true ∧ m.g.runs_through_file = 0 ∧
        (print_statistics m.g).ended_due_to
          = some ['t', 'i', 'm', 'e', ' ', 'l', 'i', 'm', 'i', 't'])) ∧
    (∀ (t : timeval) (eof : Bool) (s : State), s.stop = false →
      (keep_sending t eof s).2.2.stop = true → eof = false →
      timelimit_reached t s = true) := by
  obtain ⟨hpc, heof, hstop, hruns⟩ := main_enter_pass now sys opts m0 h0
  have hp0 : PassInv 0 m0 := by
    refine ⟨?_, ?_, ?_⟩
    · rw [hruns]; norm_num
    · unfold pending_eof
      rw [hruns, heof]
      simp
    · intro h
      rw [hpc] at h
      rcases h with h | h <;> exact absurd h (by simp)
  have hp := run_PassInv envs m0 m 0 hrun hp0
  rw [Nat.zero_add] at hp
  have hleft : m.pc = Pc.finish ∨ m.pc = Pc.exited → pending_eof m = 0 := by
    intro h
    unfold pending_eof
    rw [hp.left h]
    simp
  refine ⟨hp.count, ?_, ?_, ?_⟩
  · intro h
    have hc := hp.count
    rw [hleft h, Nat.add_zero, Nat.mod_eq_of_lt hp.lt] at hc
    refine ⟨hleft h, hc, ?_⟩
    intro hlt
    rw [hc, Nat.mod_eq_of_lt hlt]
  · intro honce h
    have ho0 : OnceInv m0 := by
      refine ⟨honce, ?_, ?_⟩
      · rw [hruns, heof]
        simp
      · intro hs
        rw [hstop] at hs
        exact absurd hs (by simp)
    have ho := run_OnceInv envs m0 m hrun ho0
    have hs := hp.left h
    have hr := ho.runs
    rw [hs] at hr
    have hne : ¬ m.g.run_only_once = false := by rw [ho.once]; simp
    cases he : m.got_eof with
    | true =>
      left
      rw [he] at hr
      simp only [and_self, if_true] at hr
      refine ⟨rfl, hr, ?_⟩
      simp only [print_statistics, if_neg hne, hr]
      rfl
    | false =>
      right
      rw [he] at hr
      simp only [Bool.false_eq_true, false_and, if_false] at hr
      have hc := ho.cause hs
      rw [he] at hc
      have htl : m.g.use_timelimit = true := by
        rcases hc with hc | hc
        · exact absurd hc (by simp)
        · exact hc
      refine ⟨rfl, htl, hr, ?_⟩
      simp only [print_statistics, if_neg hne, hr]
      rfl
  · intro t eof s hs hst he
    obtain ⟨_, _, ht, _, _, hgo⟩ := keep_sending_pass t eof s
    rcases hgo hs with ⟨h1, _, _⟩ | ⟨_, _, _, h3⟩
    · rw [(ht h1).2] at hst
      exact absurd hst (by simp)
    · exact h3 he

/-- Witness of C27: the run of `main` without options on the input `a A` reads the end
of the input once and ends with `runs_through_file` 1, reported as "end of file"; the run
with `-1 -l 1` whose first test of the loop comes at second 106 reads no end of input and
is stopped by the time limit, with `runs_through_file` 0, reported as "time limit". -/
theorem C27_pass_counting_witness :
    run1_end.pc = Pc.exited ∧ eof_count run1_envs run1_start = 1 ∧
    run1_end.g.runs_through_file = eof_count run1_envs run1_start ∧
    (print_statistics run1_end.g).ended_due_to
      = some ['e', 'n', 'd', ' ', 'o', 'f', ' ', 'f', 'i', 'l', 'e'] ∧
    c27_end.pc = Pc.exited ∧ c27_m0.g.run_only_once = true ∧
    eof_count [c27_env, c27_env] c27_m0 = 0 ∧
    c27_end.g.runs_through_file = eof_count [c27_env, c27_env] c27_m0 ∧
    (print_statistics c27_end.g).ended_due_to
      = some ['t', 'i', 'm', 'e', ' ', 'l', 'i', 'm', 'i', 't'] :=
  ⟨by decide, by decide,
   ((C27_pass_counting ⟨100, 0⟩ run1_sys [] run1_envs run1_start run1_end rfl rfl).2.1
      (Or.inr (by decide))).2.2 (by decide),
   by decide, by decide, by decide, by decide,
   ((C27_pass_counting ⟨100, 0⟩ run1_sys [('1', []), ('l', ['1'])] [c27_env, c27_env]
      c27_m0 c27_end rfl rfl).2.1 (Or.inr (by decide))).2.2 (by decide),
   by decide⟩

end Queryperf
